import Mathlib

/-!
Shared-ownership smart pointers: `shared-ptr/shared.h` and `shared-ptr/weak.h`.

A shallow embedding of the control blocks, `SharedPtr`, `WeakPtr`,
`EnableSharedFromThis` and `MakeShared`.

* A block pointer (`ControlBlockBase*`) is `Option Nat`: `none` is `nullptr`,
  `some b` is the `b`-th block ever allocated. Blocks are never removed from
  the heap; `delete this` sets the flag `released` and leaves the stored
  counters as they are.
* A payload pointer (`T*`) is `Option Nat` as well: `none` is `nullptr`,
  `some a` is the `a`-th payload object ever allocated, or any other address.
* `size_t` counters are natural numbers reduced modulo `SIZE_MOD`.
* The heap carries a log of events (payload destroyed, block released, a
  counter of a released block used), so that "exactly once" and
  "never after release" are statements about the log. What the source leaves
  undefined (using a released block, `weak_this_` of an object that is not
  there) is logged and then acts on the stored values.
* The destructor of a payload does what the library makes it do: for a type
  deriving from `EnableSharedFromThis` it destroys the member `weak_this_`.
  `EnableSharedFromThis` declares no copy or move operations, so the implicit
  ones of a payload type copy, move and assign the member `weak_this_` like
  any other `WeakPtr` (`copyObject`, `moveObject`, `assignObject`,
  `moveAssignObject`, `MakeSharedFrom`).
* A program is a sequence of public operations on lists of live handles and
  on payload objects (`World`, `Op`, `World.step`, `Reachable`).
-/

namespace SmartPtrs

/-- Number of values of `size_t`, `2 ^ 64`. -/
def SIZE_MOD : Nat := 18446744073709551616

/-- The exception type thrown by promotion. -/
inductive Exn where
  | BadWeakPtr
  deriving DecidableEq, Repr

/-- What the log of a heap records. -/
inductive Event where
  /-- The payload of block `b` was destroyed (`delete pointer_` or `~T()`). -/
  | destroy (b : Nat)
  /-- Block `b` executed `delete this`. -/
  | release (b : Nat)
  /-- A counter of block `b` was read or written by `IncCounter` or
  `DecCounter` although `b` is not a live block. -/
  | staleCounter (b : Nat)
  /-- The field `pointer_` of block `b` was written after its release. -/
  | stalePointer (b : Nat)
  /-- The member `weak_this_` was accessed through a pointer at which no
  self-observing object lives. -/
  | badSlot (p : Option Nat)
  deriving DecidableEq, Repr

/-- `WeakPtr<T>`: the fields `block_` and `observed_`. -/
structure WeakPtr where
  block_ : Option Nat
  observed_ : Option Nat
  deriving DecidableEq, Repr

/-- `SharedPtr<T>`: the fields `block_` and `observed_`. -/
structure SharedPtr where
  block_ : Option Nat
  observed_ : Option Nat
  deriving DecidableEq, Repr

/-- `ControlBlockBase` with its two derived classes: `buffer = false` is
`ControlBlockPtr` (`pointer_` is the adopted pointer), `buffer = true` is
`ControlBlockBuffer` (`pointer_` is the address of `data_`). -/
structure ControlBlock where
  strong_counter_ : Nat
  weak_counter_ : Nat
  pointer_ : Option Nat
  buffer : Bool
  released : Bool
  deriving DecidableEq, Repr

/-- The heap: the control blocks by block number, the payload objects by
address (`some w`: a live object of a self-observing type whose member
`weak_this_` is `w`; `none`: an object without that member, or a destroyed
one), and the log. -/
structure Heap where
  blocks : List ControlBlock
  objects : List (Option WeakPtr)
  log : List Event
  deriving DecidableEq, Repr

/-- The heap before anything is allocated. -/
def Heap.empty : Heap := ⟨[], [], []⟩

/-- Append an event to the log. -/
def Heap.record (h : Heap) (e : Event) : Heap :=
  { h with log := h.log ++ [e] }

/-- The stored value of `strong_counter_` of block `b`. -/
def Heap.strong (h : Heap) (b : Nat) : Nat :=
  match h.blocks[b]? with
  | some c => c.strong_counter_
  | none => 0

/-- The stored value of `weak_counter_` of block `b`. -/
def Heap.weak (h : Heap) (b : Nat) : Nat :=
  match h.blocks[b]? with
  | some c => c.weak_counter_
  | none => 0

/-- Block `b` has been allocated and not released. -/
def Heap.live (h : Heap) (b : Nat) : Bool :=
  match h.blocks[b]? with
  | some c => !c.released
  | none => false

/-- Overwrite fields of block `b`. -/
def Heap.update (h : Heap) (b : Nat) (f : ControlBlock → ControlBlock) : Heap :=
  match h.blocks[b]? with
  | some c => { h with blocks := h.blocks.set b (f c) }
  | none => h

/-- A statement of `IncCounter` or `DecCounter` that uses a counter of block
`b`: logged when `b` is not live. -/
def Heap.useCounter (h : Heap) (b : Nat) : Heap :=
  if h.live b then h else h.record (Event.staleCounter b)

/-- The member `weak_this_` of the object at `p`, when a self-observing
object lives there. -/
def Heap.slot (h : Heap) (p : Option Nat) : Option WeakPtr :=
  match p with
  | some a =>
    match h.objects[a]? with
    | some (some w) => some w
    | _ => none
  | none => none

/-- Store `n` in `strong_counter_` of block `b`. -/
def Heap.setStrong (h : Heap) (b n : Nat) : Heap :=
  h.update b (fun c => { c with strong_counter_ := n })

/-- Store `n` in `weak_counter_` of block `b`. -/
def Heap.setWeak (h : Heap) (b n : Nat) : Heap :=
  h.update b (fun c => { c with weak_counter_ := n })

/-- `ControlBlockBase::IncCounter`. -/
def IncCounter (h : Heap) (b : Nat) (is_weak : Bool) : Heap :=
  let h1 := h.useCounter b
  if is_weak then h1.setWeak b ((h1.weak b + 1) % SIZE_MOD)
  else h1.setStrong b ((h1.strong b + 1) % SIZE_MOD)

/-- `ControlBlockBase::GetCounter`. -/
def GetCounter (h : Heap) (b : Nat) (is_weak : Bool) : Nat :=
  if is_weak then h.weak b else h.strong b

/-- The statement `delete this`. -/
def Heap.releaseBlock (h : Heap) (b : Nat) : Heap :=
  (h.update b (fun c => { c with released := true })).record (Event.release b)

/-- The last statement of `DecCounter`:
`if (strong_counter_ == 0 && weak_counter_ == 0) delete this;`. -/
def releaseIfUnused (h : Heap) (b : Nat) : Heap :=
  let h1 := h.useCounter b
  if h1.strong b = 0 ∧ h1.weak b = 0 then h1.releaseBlock b else h1

/-- `DecCounter(true)`: `--weak_counter_`, the payload test is skipped
(`!is_weak` is false), then the release test. -/
def DecCounterWeak (h : Heap) (b : Nat) : Heap :=
  let h1 := h.useCounter b
  releaseIfUnused (h1.setWeak b ((h1.weak b + SIZE_MOD - 1) % SIZE_MOD)) b

/-- `WeakPtr::~WeakPtr`. -/
def WeakPtr.dtor (h : Heap) (w : WeakPtr) : Heap :=
  match w.block_ with
  | some b => DecCounterWeak h b
  | none => h

/-- The destructor of the payload at `p`: `delete nullptr` does nothing; a
self-observing object destroys its member `weak_this_`. -/
def destroyObject (h : Heap) (p : Option Nat) : Heap :=
  match p with
  | none => h
  | some a =>
    match h.objects[a]? with
    | some (some w) => WeakPtr.dtor { h with objects := h.objects.set a none } w
    | _ => h

/-- The statement `pointer_ = nullptr;` of `ControlBlockPtr::DecCounter`. -/
def Heap.clearPointer (h : Heap) (b : Nat) : Heap :=
  (if h.live b then h else h.record (Event.stalePointer b)).update b
    (fun c => { c with pointer_ := none })

/-- The payload branch of `DecCounter`: `delete pointer_; pointer_ = nullptr;`
for `ControlBlockPtr`, `reinterpret_cast<T*>(&data_)->~T();` for
`ControlBlockBuffer`. -/
def destroyPayload (h : Heap) (b : Nat) : Heap :=
  match h.blocks[b]? with
  | none => h
  | some c =>
    let h1 := destroyObject (h.record (Event.destroy b)) c.pointer_
    if c.buffer then h1 else h1.clearPointer b

/-- `ControlBlockPtr::DecCounter` and `ControlBlockBuffer::DecCounter`. -/
def DecCounter (h : Heap) (b : Nat) (is_weak : Bool) : Heap :=
  if is_weak then DecCounterWeak h b
  else
    let h0 := h.useCounter b
    let h1 := h0.setStrong b ((h0.strong b + SIZE_MOD - 1) % SIZE_MOD)
    let h2 := h1.useCounter b
    let h3 := if h2.strong b = 0 then destroyPayload h2 b else h2
    releaseIfUnused h3 b

/-! ## `WeakPtr` -/

/-- `WeakPtr::WeakPtr()`. -/
def WeakPtr.empty : WeakPtr := ⟨none, none⟩

/-- `WeakPtr::WeakPtr(const WeakPtr&)`; returns the heap and the new handle. -/
def WeakPtr.copy (h : Heap) (other : WeakPtr) : Heap × WeakPtr :=
  match other.block_ with
  | some b => (IncCounter h b true, ⟨other.block_, other.observed_⟩)
  | none => (h, ⟨other.block_, other.observed_⟩)

/-- `WeakPtr::WeakPtr(WeakPtr&&)`; returns the new handle and the source. -/
def WeakPtr.move (other : WeakPtr) : WeakPtr × WeakPtr :=
  (⟨other.block_, other.observed_⟩, ⟨none, none⟩)

/-- `WeakPtr::WeakPtr(const SharedPtr<U>&)`: demotion. -/
def WeakPtr.ofShared (h : Heap) (other : SharedPtr) : Heap × WeakPtr :=
  match other.block_ with
  | some b => (IncCounter h b true, ⟨other.block_, other.observed_⟩)
  | none => (h, ⟨other.block_, other.observed_⟩)

/-- `WeakPtr::operator=(const WeakPtr&)`; returns the heap and `*this`. -/
def WeakPtr.assign (h : Heap) (this other : WeakPtr) : Heap × WeakPtr :=
  if this.block_ = other.block_ then (h, this)
  else
    let h1 := match this.block_ with
      | some b => DecCounter h b true
      | none => h
    match other.block_ with
    | some b => (IncCounter h1 b true, ⟨other.block_, other.observed_⟩)
    | none => (h1, ⟨other.block_, other.observed_⟩)

/-- `WeakPtr::operator=(WeakPtr&&)`; returns the heap, `*this` and the
source. -/
def WeakPtr.moveAssign (h : Heap) (this other : WeakPtr) : Heap × WeakPtr × WeakPtr :=
  if this.block_ = other.block_ then (h, this, other)
  else
    let h1 := match this.block_ with
      | some b => DecCounter h b true
      | none => h
    (h1, ⟨other.block_, other.observed_⟩, ⟨none, none⟩)

/-- `WeakPtr::Reset`. -/
def WeakPtr.Reset (h : Heap) (this : WeakPtr) : Heap × WeakPtr :=
  match this.block_ with
  | some b => (DecCounter h b true, ⟨none, none⟩)
  | none => (h, ⟨none, none⟩)

/-- `WeakPtr::Swap`; returns `*this` and `other`. -/
def WeakPtr.Swap (this other : WeakPtr) : WeakPtr × WeakPtr :=
  (⟨other.block_, other.observed_⟩, ⟨this.block_, this.observed_⟩)

/-- `WeakPtr::UseCount`. -/
def WeakPtr.UseCount (h : Heap) (this : WeakPtr) : Nat :=
  match this.block_ with
  | some b => GetCounter h b false
  | none => 0

/-- `WeakPtr::Expired`. -/
def WeakPtr.Expired (h : Heap) (this : WeakPtr) : Bool :=
  this.UseCount h == 0

/-! ## `SharedPtr` -/

/-- `SharedPtr::SharedPtr()` and `SharedPtr::SharedPtr(std::nullptr_t)`. -/
def SharedPtr.empty : SharedPtr := ⟨none, none⟩

/-- `new ControlBlockPtr<T>(ptr)` and `new ControlBlockBuffer<T>(...)`: the
new block gets the next block number, with the member initialisers
`strong_counter_ = 1` and `weak_counter_ = 0`. -/
def Heap.newBlock (h : Heap) (pointer : Option Nat) (buffer : Bool) : Heap × Nat :=
  ({ h with blocks := h.blocks ++ [⟨1, 0, pointer, buffer, false⟩] }, h.blocks.length)

/-- `SharedPtr::InitWeakThis`: `e->weak_this_ = *this;`, that is, a temporary
`WeakPtr` demoted from `*this`, move-assigned to the member, and destroyed. -/
def SharedPtr.InitWeakThis (h : Heap) (this : SharedPtr) (e : Option Nat) : Heap :=
  let r := WeakPtr.ofShared h this
  match e, r.1.slot e with
  | some a, some w =>
    let m := WeakPtr.moveAssign r.1 w r.2
    WeakPtr.dtor { m.1 with objects := m.1.objects.set a (some m.2.1) } m.2.2
  | _, _ => WeakPtr.dtor (r.1.record (Event.badSlot e)) r.2

/-- `SharedPtr::SharedPtr(T*)` and `SharedPtr::SharedPtr(U*)`; `esft` is the
value of `std::is_convertible_v<T*, EnableSharedFromThisBase*>`. -/
def SharedPtr.ofPtr (h : Heap) (ptr : Option Nat) (esft : Bool) : Heap × SharedPtr :=
  let r := h.newBlock ptr false
  let this : SharedPtr := ⟨some r.2, ptr⟩
  if esft then (SharedPtr.InitWeakThis r.1 this ptr, this) else (r.1, this)

/-- `SharedPtr::SharedPtr(const SharedPtr&)` and
`SharedPtr::SharedPtr(const SharedPtr<U>&)`. -/
def SharedPtr.copy (h : Heap) (other : SharedPtr) : Heap × SharedPtr :=
  match other.block_ with
  | some b => (IncCounter h b false, ⟨other.block_, other.observed_⟩)
  | none => (h, ⟨other.block_, other.observed_⟩)

/-- `SharedPtr::SharedPtr(SharedPtr&&)` and `SharedPtr::SharedPtr(SharedPtr<U>&&)`;
returns the new handle and the source. -/
def SharedPtr.move (other : SharedPtr) : SharedPtr × SharedPtr :=
  (⟨other.block_, other.observed_⟩, ⟨none, none⟩)

/-- The aliasing constructor `SharedPtr::SharedPtr(const SharedPtr<Y>&, T*)`. -/
def SharedPtr.alias (h : Heap) (other : SharedPtr) (ptr : Option Nat) : Heap × SharedPtr :=
  match other.block_ with
  | some b => (IncCounter h b false, ⟨other.block_, ptr⟩)
  | none => (h, ⟨other.block_, ptr⟩)

/-- `SharedPtr::SharedPtr(const WeakPtr<T>&)`: promotion. -/
def SharedPtr.ofWeak (h : Heap) (other : WeakPtr) : Except Exn (Heap × SharedPtr) :=
  if other.Expired h then Except.error Exn.BadWeakPtr
  else
    match other.block_ with
    | some b => Except.ok (IncCounter h b false, ⟨other.block_, other.observed_⟩)
    | none => Except.ok (h, ⟨other.block_, other.observed_⟩)

/-- `SharedPtr::operator=(const SharedPtr&)` and
`SharedPtr::operator=(const SharedPtr<U>&)`; returns the heap and `*this`. -/
def SharedPtr.assign (h : Heap) (this other : SharedPtr) : Heap × SharedPtr :=
  if this.block_ = other.block_ then (h, this)
  else
    let h1 := match this.block_ with
      | some b => DecCounter h b false
      | none => h
    match other.block_ with
    | some b => (IncCounter h1 b false, ⟨other.block_, other.observed_⟩)
    | none => (h1, ⟨other.block_, other.observed_⟩)

/-- `SharedPtr::operator=(SharedPtr&&)` and `SharedPtr::operator=(SharedPtr<U>&&)`;
returns the heap, `*this` and the source. -/
def SharedPtr.moveAssign (h : Heap) (this other : SharedPtr) : Heap × SharedPtr × SharedPtr :=
  if this.block_ = other.block_ then (h, this, other)
  else
    let h1 := match this.block_ with
      | some b => DecCounter h b false
      | none => h
    (h1, ⟨other.block_, other.observed_⟩, ⟨none, none⟩)

/-- The release sequence shared by `~SharedPtr` and the three `Reset`s:
`block_->IncCounter(true); block_->DecCounter(); block_->DecCounter(true);`. -/
def releaseStrong (h : Heap) (b : Nat) : Heap :=
  DecCounter (DecCounter (IncCounter h b true) b false) b true

/-- `SharedPtr::~SharedPtr`. -/
def SharedPtr.dtor (h : Heap) (this : SharedPtr) : Heap :=
  match this.block_ with
  | some b => releaseStrong h b
  | none => h

/-- `SharedPtr::Reset()`. -/
def SharedPtr.Reset (h : Heap) (this : SharedPtr) : Heap × SharedPtr :=
  match this.block_ with
  | some b => (releaseStrong h b, ⟨none, none⟩)
  | none => (h, this)

/-- `SharedPtr::Reset(T*)` and `SharedPtr::Reset(U*)`. -/
def SharedPtr.ResetPtr (h : Heap) (this : SharedPtr) (ptr : Option Nat) : Heap × SharedPtr :=
  let h1 := match this.block_ with
    | some b => releaseStrong h b
    | none => h
  let r := h1.newBlock ptr false
  (r.1, ⟨some r.2, ptr⟩)

/-- `SharedPtr::Swap`; returns `*this` and `other`. -/
def SharedPtr.Swap (this other : SharedPtr) : SharedPtr × SharedPtr :=
  (⟨other.block_, other.observed_⟩, ⟨this.block_, this.observed_⟩)

/-- `SharedPtr::Get`. -/
def SharedPtr.Get (this : SharedPtr) : Option Nat := this.observed_

/-- `SharedPtr::UseCount`. -/
def SharedPtr.UseCount (h : Heap) (this : SharedPtr) : Nat :=
  match this.block_ with
  | some b => GetCounter h b false
  | none => 0

/-- `SharedPtr::operator bool`. -/
def SharedPtr.toBool (this : SharedPtr) : Bool :=
  match this.observed_ with
  | some _ => true
  | none => false

/-- `operator==` on two `SharedPtr`s. -/
def SharedPtr.eq (left right : SharedPtr) : Bool :=
  left.block_ == right.block_

/-- `MakeShared`: one `ControlBlockBuffer` holding the payload, which gets the
next object address; `esft` is the value of
`std::is_convertible_v<T*, EnableSharedFromThisBase*>`. -/
def MakeShared (h : Heap) (esft : Bool) : Heap × SharedPtr :=
  let a := h.objects.length
  let h0 : Heap :=
    { h with objects := h.objects ++ [if esft then some WeakPtr.empty else none] }
  let r := h0.newBlock (some a) true
  let ans : SharedPtr := ⟨some r.2, some a⟩
  if esft then (SharedPtr.InitWeakThis r.1 ans ans.observed_, ans) else (r.1, ans)

/-- The expression `new T` for a payload type `T`: the object gets the next
object address and, when `T` is self-observing, a default-constructed
`weak_this_`. -/
def newObject (h : Heap) (esft : Bool) : Heap × Nat :=
  ({ h with objects := h.objects ++ [if esft then some WeakPtr.empty else none] },
    h.objects.length)

/-- The implicit copy constructor of a payload type (`new T(*p)`, `T t(*p)`):
the member `weak_this_` of the new object is copy-constructed from the member
of the object at `p`. The new object gets the next object address. For a type
that is not self-observing there is no member to copy. -/
def copyObject (h : Heap) (p : Option Nat) : Heap × Nat :=
  match h.slot p with
  | some w =>
    let r := WeakPtr.copy h w
    ({ r.1 with objects := r.1.objects ++ [some r.2] }, h.objects.length)
  | none => ({ h with objects := h.objects ++ [none] }, h.objects.length)

/-- The implicit move constructor of a payload type (`new T(std::move(*p))`):
the member `weak_this_` of the new object is move-constructed from the member
of the object at `p`, which is left empty. -/
def moveObject (h : Heap) (p : Option Nat) : Heap × Nat :=
  match p, h.slot p with
  | some a, some w =>
    let r := WeakPtr.move w
    ({ h with objects := h.objects.set a (some r.2) ++ [some r.1] }, h.objects.length)
  | _, _ => ({ h with objects := h.objects ++ [none] }, h.objects.length)

/-- The implicit copy assignment of a payload type (`*p = *q`): the member
`weak_this_` of the object at `p` is copy-assigned from the member of the
object at `q`. -/
def assignObject (h : Heap) (p q : Option Nat) : Heap :=
  match p, h.slot p, h.slot q with
  | some a, some x, some o =>
    let r := WeakPtr.assign h x o
    { r.1 with objects := r.1.objects.set a (some r.2) }
  | _, _, _ => h

/-- The implicit move assignment of a payload type (`*p = std::move(*q)`, and
`*p = T()` with the temporary at `q`): the member `weak_this_` of the object at
`p` is move-assigned from the member of the object at `q`. -/
def moveAssignObject (h : Heap) (p q : Option Nat) : Heap :=
  match p, q, h.slot p, h.slot q with
  | some a, some c, some x, some o =>
    let r := WeakPtr.moveAssign h x o
    { r.1 with objects := (r.1.objects.set a (some r.2.1)).set c (some r.2.2) }
  | _, _, _, _ => h

/-- `MakeShared<T>(*p)`: as `MakeShared`, with the payload constructed in place
by the implicit copy constructor from the object at `p`. -/
def MakeSharedFrom (h : Heap) (p : Option Nat) (esft : Bool) : Heap × SharedPtr :=
  let c := copyObject h p
  let r := c.1.newBlock (some c.2) true
  let ans : SharedPtr := ⟨some r.2, some c.2⟩
  if esft then (SharedPtr.InitWeakThis r.1 ans ans.observed_, ans) else (r.1, ans)

/-- Some control block holds the payload pointer `p` and has not destroyed its
payload yet. -/
def Heap.owned (h : Heap) (p : Option Nat) : Bool :=
  h.blocks.any (fun c => c.pointer_ == p && c.strong_counter_ != 0)

/-- `WeakPtr::Lock`. -/
def WeakPtr.Lock (h : Heap) (this : WeakPtr) : Except Exn (Heap × SharedPtr) :=
  if !this.Expired h then SharedPtr.ofWeak h this
  else Except.ok (h, SharedPtr.empty)

/-- `EnableSharedFromThis::SharedFromThis` on the object at `p`. Calling it
through a pointer at which no self-observing object lives is undefined in the
source; here it raises like an empty `weak_this_`. -/
def SharedFromThis (h : Heap) (p : Option Nat) : Except Exn (Heap × SharedPtr) :=
  match h.slot p with
  | some w => SharedPtr.ofWeak h w
  | none => SharedPtr.ofWeak h WeakPtr.empty

/-- `EnableSharedFromThis::WeakFromThis` on the object at `p`: a copy of
`weak_this_`. -/
def WeakFromThis (h : Heap) (p : Option Nat) : Heap × WeakPtr :=
  match h.slot p with
  | some w => WeakPtr.copy h w
  | none => WeakPtr.copy h WeakPtr.empty

/-! ## Programs: sequences of operations on a set of live handles -/

/-- The state of a program: the heap, the live `SharedPtr` objects and the
live `WeakPtr` objects (those that are not the member `weak_this_` of a
payload). -/
structure World where
  heap : Heap
  shared : List SharedPtr
  weak : List WeakPtr
  deriving DecidableEq, Repr

/-- The state at program start. -/
def World.init : World := ⟨Heap.empty, [], []⟩

/-- Number of handle objects that exist: the live `SharedPtr`s and `WeakPtr`s
and the `weak_this_` members of the live self-observing payloads. -/
def World.size (w : World) : Nat :=
  w.shared.length + w.weak.length + w.heap.objects.countP Option.isSome

/-- The public operations; handles are named by their position in the lists of
live handles. -/
inductive Op where
  /-- `new T`. -/
  | newObject (esft : Bool)
  /-- `SharedPtr<T> s;`. -/
  | emptyShared
  /-- `SharedPtr<T> s(ptr);`. -/
  | ofPtr (ptr : Option Nat) (esft : Bool)
  /-- `MakeShared<T>(...)`. -/
  | makeShared (esft : Bool)
  /-- Copy construction from the `i`-th handle. -/
  | copy (i : Nat)
  /-- Move construction from the `i`-th handle. -/
  | move (i : Nat)
  /-- Aliasing construction from the `i`-th handle. -/
  | aliasing (i : Nat) (ptr : Option Nat)
  /-- Promotion of the `k`-th weak handle. -/
  | promote (k : Nat)
  /-- Copy assignment `shared[i] = shared[j]`. -/
  | assign (i j : Nat)
  /-- Move assignment `shared[i] = std::move(shared[j])`. -/
  | moveAssign (i j : Nat)
  /-- Destruction of the `i`-th handle. -/
  | dtor (i : Nat)
  /-- `shared[i].Reset()`. -/
  | reset (i : Nat)
  /-- `shared[i].Reset(ptr)`. -/
  | resetPtr (i : Nat) (ptr : Option Nat)
  /-- `shared[i].Swap(shared[j])`. -/
  | swap (i j : Nat)
  /-- `weak[k].Lock()`. -/
  | lock (k : Nat)
  /-- `p->SharedFromThis()`. -/
  | sharedFromThis (p : Option Nat)
  /-- `p->WeakFromThis()`. -/
  | weakFromThis (p : Option Nat)
  /-- `WeakPtr<T> w;`. -/
  | emptyWeak
  /-- Demotion of the `i`-th shared handle. -/
  | demote (i : Nat)
  /-- Copy construction from the `k`-th weak handle. -/
  | weakCopy (k : Nat)
  /-- Move construction from the `k`-th weak handle. -/
  | weakMove (k : Nat)
  /-- Copy assignment `weak[k] = weak[l]`. -/
  | weakAssign (k l : Nat)
  /-- Move assignment `weak[k] = std::move(weak[l])`. -/
  | weakMoveAssign (k l : Nat)
  /-- Destruction of the `k`-th weak handle. -/
  | weakDtor (k : Nat)
  /-- `weak[k].Reset()`. -/
  | weakReset (k : Nat)
  /-- `weak[k].Swap(weak[l])`. -/
  | weakSwap (k l : Nat)
  /-- `new T(*p)`: copy construction of a payload object. -/
  | copyObject (p : Option Nat)
  /-- `MakeShared<T>(*p)`. -/
  | makeSharedFrom (p : Option Nat) (esft : Bool)
  /-- `new T(std::move(*p))`: move construction of a payload object. -/
  | moveObject (p : Option Nat)
  /-- `*p = *q`: copy assignment of a payload object. -/
  | assignObject (p q : Option Nat)
  /-- `*p = std::move(*q)`: move assignment of a payload object. -/
  | moveAssignObject (p q : Option Nat)
  /-- `delete p`, or the end of the lifetime of a local object at `p`, for a
  payload that no control block owns. -/
  | deleteObject (p : Option Nat)
  deriving DecidableEq, Repr

/-- The effect of one operation; `none` when it names a handle that does not
exist, or deletes a payload that a control block owns. A promotion that throws
leaves the state as it is. -/
def World.exec (w : World) : Op → Option World
  | Op.newObject esft => some { w with heap := (newObject w.heap esft).1 }
  | Op.emptyShared => some { w with shared := w.shared ++ [SharedPtr.empty] }
  | Op.ofPtr ptr esft =>
    let r := SharedPtr.ofPtr w.heap ptr esft
    some { w with heap := r.1, shared := w.shared ++ [r.2] }
  | Op.makeShared esft =>
    let r := MakeShared w.heap esft
    some { w with heap := r.1, shared := w.shared ++ [r.2] }
  | Op.copy i =>
    match w.shared[i]? with
    | some s =>
      let r := SharedPtr.copy w.heap s
      some { w with heap := r.1, shared := w.shared ++ [r.2] }
    | none => none
  | Op.move i =>
    match w.shared[i]? with
    | some s =>
      let r := SharedPtr.move s
      some { w with shared := w.shared.set i r.2 ++ [r.1] }
    | none => none
  | Op.aliasing i ptr =>
    match w.shared[i]? with
    | some s =>
      let r := SharedPtr.alias w.heap s ptr
      some { w with heap := r.1, shared := w.shared ++ [r.2] }
    | none => none
  | Op.promote k =>
    match w.weak[k]? with
    | some x =>
      match SharedPtr.ofWeak w.heap x with
      | Except.ok r => some { w with heap := r.1, shared := w.shared ++ [r.2] }
      | Except.error _ => some w
    | none => none
  | Op.assign i j =>
    match w.shared[i]?, w.shared[j]? with
    | some s, some o =>
      let r := SharedPtr.assign w.heap s o
      some { w with heap := r.1, shared := w.shared.set i r.2 }
    | _, _ => none
  | Op.moveAssign i j =>
    match w.shared[i]?, w.shared[j]? with
    | some s, some o =>
      let r := SharedPtr.moveAssign w.heap s o
      some { w with heap := r.1, shared := (w.shared.set i r.2.1).set j r.2.2 }
    | _, _ => none
  | Op.dtor i =>
    match w.shared[i]? with
    | some s => some { w with heap := SharedPtr.dtor w.heap s, shared := w.shared.eraseIdx i }
    | none => none
  | Op.reset i =>
    match w.shared[i]? with
    | some s =>
      let r := SharedPtr.Reset w.heap s
      some { w with heap := r.1, shared := w.shared.set i r.2 }
    | none => none
  | Op.resetPtr i ptr =>
    match w.shared[i]? with
    | some s =>
      let r := SharedPtr.ResetPtr w.heap s ptr
      some { w with heap := r.1, shared := w.shared.set i r.2 }
    | none => none
  | Op.swap i j =>
    match w.shared[i]?, w.shared[j]? with
    | some s, some o =>
      let r := SharedPtr.Swap s o
      some { w with shared := (w.shared.set i r.1).set j r.2 }
    | _, _ => none
  | Op.lock k =>
    match w.weak[k]? with
    | some x =>
      match WeakPtr.Lock w.heap x with
      | Except.ok r => some { w with heap := r.1, shared := w.shared ++ [r.2] }
      | Except.error _ => some w
    | none => none
  | Op.sharedFromThis p =>
    match SharedFromThis w.heap p with
    | Except.ok r => some { w with heap := r.1, shared := w.shared ++ [r.2] }
    | Except.error _ => some w
  | Op.weakFromThis p =>
    let r := WeakFromThis w.heap p
    some { w with heap := r.1, weak := w.weak ++ [r.2] }
  | Op.emptyWeak => some { w with weak := w.weak ++ [WeakPtr.empty] }
  | Op.demote i =>
    match w.shared[i]? with
    | some s =>
      let r := WeakPtr.ofShared w.heap s
      some { w with heap := r.1, weak := w.weak ++ [r.2] }
    | none => none
  | Op.weakCopy k =>
    match w.weak[k]? with
    | some x =>
      let r := WeakPtr.copy w.heap x
      some { w with heap := r.1, weak := w.weak ++ [r.2] }
    | none => none
  | Op.weakMove k =>
    match w.weak[k]? with
    | some x =>
      let r := WeakPtr.move x
      some { w with weak := w.weak.set k r.2 ++ [r.1] }
    | none => none
  | Op.weakAssign k l =>
    match w.weak[k]?, w.weak[l]? with
    | some x, some o =>
      let r := WeakPtr.assign w.heap x o
      some { w with heap := r.1, weak := w.weak.set k r.2 }
    | _, _ => none
  | Op.weakMoveAssign k l =>
    match w.weak[k]?, w.weak[l]? with
    | some x, some o =>
      let r := WeakPtr.moveAssign w.heap x o
      some { w with heap := r.1, weak := (w.weak.set k r.2.1).set l r.2.2 }
    | _, _ => none
  | Op.weakDtor k =>
    match w.weak[k]? with
    | some x => some { w with heap := WeakPtr.dtor w.heap x, weak := w.weak.eraseIdx k }
    | none => none
  | Op.weakReset k =>
    match w.weak[k]? with
    | some x =>
      let r := WeakPtr.Reset w.heap x
      some { w with heap := r.1, weak := w.weak.set k r.2 }
    | none => none
  | Op.weakSwap k l =>
    match w.weak[k]?, w.weak[l]? with
    | some x, some o =>
      let r := WeakPtr.Swap x o
      some { w with weak := (w.weak.set k r.1).set l r.2 }
    | _, _ => none
  | Op.copyObject p => some { w with heap := (copyObject w.heap p).1 }
  | Op.makeSharedFrom p esft =>
    let r := MakeSharedFrom w.heap p esft
    some { w with heap := r.1, shared := w.shared ++ [r.2] }
  | Op.moveObject p => some { w with heap := (moveObject w.heap p).1 }
  | Op.assignObject p q => some { w with heap := assignObject w.heap p q }
  | Op.moveAssignObject p q => some { w with heap := moveAssignObject w.heap p q }
  | Op.deleteObject p =>
    if w.heap.owned p then none else some { w with heap := destroyObject w.heap p }

/-- One step of a program. The machine has room for fewer than `SIZE_MOD`
handle objects at a time (each occupies at least one byte of the address
space), so an operation after which more would exist cannot take place. -/
def World.step (w : World) (op : Op) : Option World :=
  match w.exec op with
  | some w1 => if w1.size < SIZE_MOD then some w1 else none
  | none => none

/-- Run a list of operations from a state. -/
def World.run (w : World) : List Op → Option World
  | [] => some w
  | op :: ops =>
    match w.step op with
    | some w1 => w1.run ops
    | none => none

/-- The states a program can be in. -/
inductive Reachable : World → Prop where
  | init : Reachable World.init
  | step (w w1 : World) (op : Op) : Reachable w → w.step op = some w1 → Reachable w1

/-- Number of entries of `l` equal to the block pointer `some b`. -/
def refs (l : List (Option Nat)) (b : Nat) : Nat := l.count (some b)

/-- Number of live `SharedPtr`s whose `block_` is block `b`. -/
def World.sharedRefs (w : World) (b : Nat) : Nat :=
  refs (w.shared.map SharedPtr.block_) b

/-- Number of live `WeakPtr`s whose `block_` is block `b`. -/
def World.weakRefs (w : World) (b : Nat) : Nat :=
  refs (w.weak.map WeakPtr.block_) b

/-- The block pointer held by the member `weak_this_` of an object. -/
def slotBlock (o : Option WeakPtr) : Option Nat :=
  match o with
  | some x => x.block_
  | none => none

/-- Number of live self-observing payloads whose `weak_this_` points to block
`b`. -/
def Heap.slotRefs (h : Heap) (b : Nat) : Nat :=
  refs (h.objects.map slotBlock) b

/-- Number of `Event.destroy b` in the log. -/
def Heap.destroys (h : Heap) (b : Nat) : Nat := h.log.count (Event.destroy b)

/-- Number of `Event.release b` in the log. -/
def Heap.releases (h : Heap) (b : Nat) : Nat := h.log.count (Event.release b)

/-- An event that records a use of memory that is not there. -/
def Event.isStale : Event → Bool
  | Event.staleCounter _ => true
  | Event.stalePointer _ => true
  | Event.badSlot _ => true
  | _ => false

/-- Number of uses of released or absent memory in the log. -/
def Heap.stales (h : Heap) : Nat := h.log.countP Event.isStale

/-- The value `1` when the block pointer `o` points to block `c`, else `0`. -/
def ind (o : Option Nat) (c : Nat) : Nat := if o = some c then 1 else 0

/-- The heap agrees with a census of the handles: `cs b` strong handles and
`cw b` weak handles (other than `weak_this_` members) point to block `b`.
Counters are `size_t` values; a live block stores the census in its counters;
nothing points to a block that is not live; a block that is live or not yet
allocated has no release in the log. -/
structure Heap.Inv (h : Heap) (cs cw : Nat → Nat) : Prop where
  bounded : ∀ b, h.strong b < SIZE_MOD ∧ h.weak b < SIZE_MOD
  counts : ∀ b, h.live b = true → h.strong b = cs b ∧ h.weak b = cw b + h.slotRefs b
  dead : ∀ b, h.live b = false → cs b = 0 ∧ cw b = 0 ∧ h.slotRefs b = 0
  unreleased : ∀ b, (h.live b = true ∨ h.blocks.length ≤ b) → h.releases b = 0

/-- The log holds one `destroy` for each allocated block whose strong counter
is zero and none for any other block. -/
def Heap.DestroyedOnce (h : Heap) : Prop :=
  ∀ b, h.destroys b = if b < h.blocks.length ∧ h.strong b = 0 then 1 else 0

/-- The invariant of programs. -/
structure World.Inv (w : World) : Prop where
  heap : w.heap.Inv w.sharedRefs w.weakRefs
  once : w.heap.DestroyedOnce
  size : w.size < SIZE_MOD

/-- Heap `h1` has the blocks of `h` with the same strong counters, and no
payload was destroyed between the two. -/
def Heap.Frame (h h1 : Heap) : Prop :=
  h1.blocks.length = h.blocks.length ∧ (∀ c, h1.strong c = h.strong c) ∧
    (∀ c, h1.destroys c = h.destroys c)

/-- The heap agrees with the census and its log with the strong counters. -/
def Heap.Good (h : Heap) (cs cw : Nat → Nat) : Prop :=
  h.Inv cs cw ∧ h.DestroyedOnce

/-! ## Example programs -/

/-- A program: a self-observing payload made by `MakeShared`, one copy of the
handle and one weak handle demoted from it. -/
def demoOps : List Op := [Op.makeShared true, Op.copy 0, Op.demote 0]

/-- The state after `demoOps`. -/
def demoWorld : World :=
  { heap :=
      { blocks := [⟨2, 2, some 0, true, false⟩],
        objects := [some ⟨some 0, some 0⟩],
        log := [] },
    shared := [⟨some 0, some 0⟩, ⟨some 0, some 0⟩],
    weak := [⟨some 0, some 0⟩] }

/-- A program: two self-observing payloads made by `MakeShared`, each owned by
one handle. -/
def pairOps : List Op := [Op.makeShared true, Op.makeShared true]

/-- The state after `pairOps`. -/
def pairWorld : World :=
  { heap :=
      { blocks := [⟨1, 1, some 0, true, false⟩, ⟨1, 1, some 1, true, false⟩],
        objects := [some ⟨some 0, some 0⟩, some ⟨some 1, some 1⟩],
        log := [] },
    shared := [⟨some 0, some 0⟩, ⟨some 1, some 1⟩],
    weak := [] }

/-! ## Which payload a `weak_this_` belongs to -/

/-- The stored value of `pointer_` of block `b`. -/
def Heap.pointer (h : Heap) (b : Nat) : Option Nat :=
  match h.blocks[b]? with
  | some c => c.pointer_
  | none => none

/-- Every member `weak_this_` that points to a block `b` lives in the payload
at `pointer_` of `b`, and the strong counter of `b` is not zero, the latter
except possibly for the block `x` (the block whose payload is about to be
destroyed). -/
def Heap.OwnedBut (h : Heap) (x : Option Nat) : Prop :=
  ∀ (a : Nat) (w : WeakPtr) (b : Nat), h.objects[a]? = some (some w) → w.block_ = some b →
    h.pointer b = some a ∧ (x ≠ some b → 0 < h.strong b)

/-- Every member `weak_this_` that points to a block lives in the payload of
that block, and that payload has not been destroyed. -/
def Heap.SlotsOwned (h : Heap) : Prop := h.OwnedBut none

/-- Heap `h1` has the payload objects, the `pointer_` fields and the strong
counters of `h`. -/
def Heap.Keeps (h h1 : Heap) : Prop :=
  h1.objects = h.objects ∧ (∀ c, h1.pointer c = h.pointer c) ∧
    (∀ c, h1.strong c = h.strong c)

/-- The operations that copy, move or assign a payload object. -/
def Op.copiesPayload : Op → Bool
  | Op.copyObject _ => true
  | Op.makeSharedFrom _ _ => true
  | Op.moveObject _ => true
  | Op.assignObject _ _ => true
  | Op.moveAssignObject _ _ => true
  | _ => false

/-- The states of the programs that never copy, move or assign a payload
object. -/
inductive Plain : World → Prop where
  | init : Plain World.init
  | step (w w1 : World) (op : Op) :
    Plain w → op.copiesPayload = false → w.step op = some w1 → Plain w1

/-- A program: a payload that is not self-observing made by `MakeShared`, and
two weak handles demoted from its handle. -/
def loneOps : List Op := [Op.makeShared false, Op.demote 0, Op.demote 0]

/-- The state after `loneOps`. -/
def loneWorld : World :=
  { heap :=
      { blocks := [⟨1, 2, some 0, true, false⟩],
        objects := [none],
        log := [] },
    shared := [⟨some 0, some 0⟩],
    weak := [⟨some 0, some 0⟩, ⟨some 0, some 0⟩] }

/-- The state after `loneOps` and the destruction of the handle. -/
def expiredWorld : World :=
  { heap :=
      { blocks := [⟨0, 2, some 0, true, false⟩],
        objects := [none],
        log := [Event.destroy 0] },
    shared := [],
    weak := [⟨some 0, some 0⟩, ⟨some 0, some 0⟩] }

/-- A program: a self-observing payload made by `MakeShared` and one weak
handle demoted from its handle. -/
def selfOps : List Op := [Op.makeShared true, Op.demote 0]

/-- The state after `selfOps`. -/
def selfWorld : World :=
  { heap :=
      { blocks := [⟨1, 2, some 0, true, false⟩],
        objects := [some ⟨some 0, some 0⟩],
        log := [] },
    shared := [⟨some 0, some 0⟩],
    weak := [⟨some 0, some 0⟩] }

/-- A program: a self-observing payload made by `MakeShared`, one weak handle
demoted from its handle, and a copy of the payload object (`T t2(*a)`), to
which no handle is ever attached. -/
def copyOps : List Op := [Op.makeShared true, Op.demote 0, Op.copyObject (some 0)]

/-- The state after `copyOps`. -/
def copyWorld : World :=
  { heap :=
      { blocks := [⟨1, 3, some 0, true, false⟩],
        objects := [some ⟨some 0, some 0⟩, some ⟨some 0, some 0⟩],
        log := [] },
    shared := [⟨some 0, some 0⟩],
    weak := [⟨some 0, some 0⟩] }

/-- The state after `copyOps`, the destruction of the `SharedPtr` and the
destruction of the `WeakPtr`. -/
def orphanWorld : World :=
  { heap :=
      { blocks := [⟨0, 1, some 0, true, false⟩],
        objects := [none, some ⟨some 0, some 0⟩],
        log := [Event.destroy 0] },
    shared := [],
    weak := [] }

/-- `SimpleCounter`: the field `count_`, a `size_t`. -/
structure SimpleCounter where
  count_ : Nat
  deriving DecidableEq, Repr

/-- `SimpleCounter::IncRef`; returns the counter and the returned value. -/
def SimpleCounter.IncRef (c : SimpleCounter) : SimpleCounter × Nat :=
  (⟨(c.count_ + 1) % SIZE_MOD⟩, (c.count_ + 1) % SIZE_MOD)

/-- `SimpleCounter::DecRef`; returns the counter and the returned value. -/
def SimpleCounter.DecRef (c : SimpleCounter) : SimpleCounter × Nat :=
  (⟨(c.count_ + SIZE_MOD - 1) % SIZE_MOD⟩, (c.count_ + SIZE_MOD - 1) % SIZE_MOD)

/-- `SimpleCounter::RefCount`. -/
def SimpleCounter.RefCount (c : SimpleCounter) : Nat := c.count_

/-- An object of a class deriving from `RefCounted<Derived, SimpleCounter,
Deleter>`: the member `counter_`, the number of times `Deleter().Destroy`
has been called on the object, and whether the counter was zero when the object
was constructed and no assignment to the object has overwritten it since. -/
structure RefCounted where
  counter_ : SimpleCounter
  destroyed : Nat
  plain : Bool
  deriving DecidableEq, Repr

/-- `RefCounted::IncRef`. -/
def RefCounted.IncRef (o : RefCounted) : RefCounted :=
  { o with counter_ := o.counter_.IncRef.1 }

/-- `RefCounted::DecRef`: `counter_.DecRef();` and then
`if (counter_.RefCount() == 0) Deleter().Destroy(this);`. -/
def RefCounted.DecRef (o : RefCounted) : RefCounted :=
  let c := o.counter_.DecRef.1
  if c.RefCount = 0 then { counter_ := c, destroyed := o.destroyed + 1, plain := o.plain }
  else { counter_ := c, destroyed := o.destroyed, plain := o.plain }

/-- `RefCounted::RefCount`. -/
def RefCounted.RefCount (o : RefCounted) : Nat := o.counter_.RefCount

/-- The objects deriving from `RefCounted`, by address. -/
structure Pool where
  objs : List RefCounted
  deriving DecidableEq, Repr

/-- Call a member function on the object at address `a`. -/
def Pool.call (p : Pool) (a : Nat) (f : RefCounted → RefCounted) : Pool :=
  match p.objs[a]? with
  | some o => ⟨p.objs.set a (f o)⟩
  | none => p

/-- The statement `if (ptr) { ptr->IncRef(); }`. -/
def Pool.incRef (p : Pool) (ptr : Option Nat) : Pool :=
  match ptr with
  | some a => p.call a RefCounted.IncRef
  | none => p

/-- The statement `if (ptr) { ptr->DecRef(); }`. -/
def Pool.decRef (p : Pool) (ptr : Option Nat) : Pool :=
  match ptr with
  | some a => p.call a RefCounted.DecRef
  | none => p

/-- The stored counter of the object at `a`. -/
def Pool.RefCount (p : Pool) (a : Nat) : Nat :=
  match p.objs[a]? with
  | some o => o.RefCount
  | none => 0

/-- How often the deleter was called on the object at `a`. -/
def Pool.destroyed (p : Pool) (a : Nat) : Nat :=
  match p.objs[a]? with
  | some o => o.destroyed
  | none => 0

/-- The counter of the object at `a` started at zero and no assignment to the
object has overwritten it. -/
def Pool.plain (p : Pool) (a : Nat) : Bool :=
  match p.objs[a]? with
  | some o => o.plain
  | none => false

/-- A pointer a program may pass to `IntrusivePtr`, or dereference: null, or
the address of an object that exists and has not been destroyed. -/
def Pool.valid (p : Pool) (ptr : Option Nat) : Bool :=
  match ptr with
  | none => true
  | some a =>
    match p.objs[a]? with
    | some o => o.destroyed == 0
    | none => false

/-- `IntrusivePtr<T>`: the field `observed_`. -/
structure IntrusivePtr where
  observed_ : Option Nat
  deriving DecidableEq, Repr

/-- `IntrusivePtr::IntrusivePtr()` and `IntrusivePtr(std::nullptr_t)`. -/
def IntrusivePtr.empty : IntrusivePtr := ⟨none⟩

/-- `IntrusivePtr::IntrusivePtr(T*)` and `IntrusivePtr(U*)`. -/
def IntrusivePtr.ofPtr (p : Pool) (ptr : Option Nat) : Pool × IntrusivePtr :=
  (p.incRef ptr, ⟨ptr⟩)

/-- `IntrusivePtr::IntrusivePtr(const IntrusivePtr&)` and its template. -/
def IntrusivePtr.copy (p : Pool) (other : IntrusivePtr) : Pool × IntrusivePtr :=
  (p.incRef other.observed_, ⟨other.observed_⟩)

/-- `IntrusivePtr::IntrusivePtr(IntrusivePtr&&)` and its template; returns the
new handle and the source. -/
def IntrusivePtr.move (other : IntrusivePtr) : IntrusivePtr × IntrusivePtr :=
  (⟨other.observed_⟩, ⟨none⟩)

/-- `IntrusivePtr::operator=(const IntrusivePtr&)`: the source is counted
first, then `*this` is released. -/
def IntrusivePtr.assign (p : Pool) (this other : IntrusivePtr) : Pool × IntrusivePtr :=
  ((p.incRef other.observed_).decRef this.observed_, ⟨other.observed_⟩)

/-- `IntrusivePtr::operator=(const IntrusivePtr<U>&)`: as above, behind the test
`observed_ == other.observed_`. -/
def IntrusivePtr.assignU (p : Pool) (this other : IntrusivePtr) : Pool × IntrusivePtr :=
  if this.observed_ = other.observed_ then (p, this)
  else ((p.incRef other.observed_).decRef this.observed_, ⟨other.observed_⟩)

/-- `IntrusivePtr::operator=(IntrusivePtr&&)` and its template; returns the
pool, `*this` and the source. -/
def IntrusivePtr.moveAssign (p : Pool) (this other : IntrusivePtr) :
    Pool × IntrusivePtr × IntrusivePtr :=
  if this.observed_ = other.observed_ then (p, this, other)
  else (p.decRef this.observed_, ⟨other.observed_⟩, ⟨none⟩)

/-- `IntrusivePtr::~IntrusivePtr`. -/
def IntrusivePtr.dtor (p : Pool) (this : IntrusivePtr) : Pool :=
  p.decRef this.observed_

/-- `IntrusivePtr::Reset()`. -/
def IntrusivePtr.Reset (p : Pool) (this : IntrusivePtr) : Pool × IntrusivePtr :=
  match this.observed_ with
  | some a => (p.decRef (some a), ⟨none⟩)
  | none => (p, this)

/-- `IntrusivePtr::Reset(T*)`. -/
def IntrusivePtr.ResetPtr (p : Pool) (this : IntrusivePtr) (ptr : Option Nat) :
    Pool × IntrusivePtr :=
  if this.observed_ = ptr then (p, this)
  else ((p.decRef this.observed_).incRef ptr, ⟨ptr⟩)

/-- `IntrusivePtr::Swap`; returns `*this` and `other`. -/
def IntrusivePtr.Swap (this other : IntrusivePtr) : IntrusivePtr × IntrusivePtr :=
  (⟨other.observed_⟩, ⟨this.observed_⟩)

/-- `IntrusivePtr::Get`. -/
def IntrusivePtr.Get (this : IntrusivePtr) : Option Nat := this.observed_

/-- `IntrusivePtr::UseCount`. -/
def IntrusivePtr.UseCount (p : Pool) (this : IntrusivePtr) : Nat :=
  match this.observed_ with
  | some a => p.RefCount a
  | none => 0

/-- The value of `count_` in a new object constructed from `src`: the member
initialiser `count_ = 0` for a constructor that is not given an object of the
class (`src = none`), the counter of the object at `src` for the implicit copy
or move constructor (`new T(*src)`). -/
def Pool.initialCount (p : Pool) (src : Option Nat) : Nat :=
  match src with
  | some a => p.RefCount a
  | none => 0

/-- The expression `new T(...)` for a class deriving from `SimpleRefCounted`:
the object gets the next address. -/
def Pool.newObject (p : Pool) (src : Option Nat) : Pool × Nat :=
  (⟨p.objs ++ [⟨⟨p.initialCount src⟩, 0, p.initialCount src == 0⟩]⟩, p.objs.length)

/-- The implicit copy assignment of a class deriving from `SimpleRefCounted`
(`*a = *c`): the member `counter_` of the object at `a` is overwritten with
that of the object at `c`. -/
def Pool.assignObject (p : Pool) (a c : Nat) : Pool :=
  match p.objs[c]? with
  | some o => p.call a (fun x => { x with counter_ := o.counter_, plain := false })
  | none => p

/-- `MakeIntrusive<T>(args...)`: `IntrusivePtr<T> ans(new T(args...))`. -/
def MakeIntrusive (p : Pool) (src : Option Nat) : Pool × IntrusivePtr :=
  let r := p.newObject src
  IntrusivePtr.ofPtr r.1 (some r.2)

/-- The state of a program that uses `IntrusivePtr`: the pool and the live
handles. -/
structure RcWorld where
  pool : Pool
  handles : List IntrusivePtr
  deriving DecidableEq, Repr

/-- The state at program start. -/
def RcWorld.init : RcWorld := ⟨⟨[]⟩, []⟩

/-- The operations on `IntrusivePtr`; handles are named by their position. -/
inductive RcOp where
  /-- `new T(...)`; with `src = some a` the argument is the object at `a`. -/
  | newObject (src : Option Nat)
  /-- `*a = *c` on two objects. -/
  | assignObject (a c : Nat)
  /-- `IntrusivePtr<T> s;`. -/
  | emptyPtr
  /-- `IntrusivePtr<T> s(ptr);`. -/
  | ofPtr (ptr : Option Nat)
  /-- `MakeIntrusive<T>(...)`; with `src = some a` the argument is the object
  at `a`. -/
  | make (src : Option Nat)
  /-- Copy construction from the `i`-th handle. -/
  | copy (i : Nat)
  /-- Move construction from the `i`-th handle. -/
  | move (i : Nat)
  /-- `handles[i] = handles[j]`, same type. -/
  | assign (i j : Nat)
  /-- `handles[i] = handles[j]`, converting. -/
  | assignU (i j : Nat)
  /-- `handles[i] = std::move(handles[j])`. -/
  | moveAssign (i j : Nat)
  /-- Destruction of the `i`-th handle. -/
  | dtor (i : Nat)
  /-- `handles[i].Reset()`. -/
  | reset (i : Nat)
  /-- `handles[i].Reset(ptr)`. -/
  | resetPtr (i : Nat) (ptr : Option Nat)
  /-- `handles[i].Swap(handles[j])`. -/
  | swap (i j : Nat)
  deriving DecidableEq, Repr

/-- The effect of one operation; `none` when it names a handle that does not
exist, or passes or dereferences a pointer that is not valid. -/
def RcWorld.exec (w : RcWorld) : RcOp → Option RcWorld
  | RcOp.newObject src =>
    if w.pool.valid src then some { w with pool := (w.pool.newObject src).1 } else none
  | RcOp.assignObject a c =>
    if w.pool.valid (some a) && w.pool.valid (some c) then
      some { w with pool := w.pool.assignObject a c }
    else none
  | RcOp.emptyPtr => some { w with handles := w.handles ++ [IntrusivePtr.empty] }
  | RcOp.ofPtr ptr =>
    if w.pool.valid ptr then
      some ⟨(IntrusivePtr.ofPtr w.pool ptr).1, w.handles ++ [(IntrusivePtr.ofPtr w.pool ptr).2]⟩
    else none
  | RcOp.make src =>
    if w.pool.valid src then
      some ⟨(MakeIntrusive w.pool src).1, w.handles ++ [(MakeIntrusive w.pool src).2]⟩
    else none
  | RcOp.copy i =>
    match w.handles[i]? with
    | some s =>
      some ⟨(IntrusivePtr.copy w.pool s).1, w.handles ++ [(IntrusivePtr.copy w.pool s).2]⟩
    | none => none
  | RcOp.move i =>
    match w.handles[i]? with
    | some s =>
      some ⟨w.pool, w.handles.set i (IntrusivePtr.move s).2 ++ [(IntrusivePtr.move s).1]⟩
    | none => none
  | RcOp.assign i j =>
    match w.handles[i]?, w.handles[j]? with
    | some s, some o =>
      some ⟨(IntrusivePtr.assign w.pool s o).1, w.handles.set i (IntrusivePtr.assign w.pool s o).2⟩
    | _, _ => none
  | RcOp.assignU i j =>
    match w.handles[i]?, w.handles[j]? with
    | some s, some o =>
      some ⟨(IntrusivePtr.assignU w.pool s o).1,
        w.handles.set i (IntrusivePtr.assignU w.pool s o).2⟩
    | _, _ => none
  | RcOp.moveAssign i j =>
    match w.handles[i]?, w.handles[j]? with
    | some s, some o =>
      some ⟨(IntrusivePtr.moveAssign w.pool s o).1,
        (w.handles.set i (IntrusivePtr.moveAssign w.pool s o).2.1).set j
          (IntrusivePtr.moveAssign w.pool s o).2.2⟩
    | _, _ => none
  | RcOp.dtor i =>
    match w.handles[i]? with
    | some s => some ⟨IntrusivePtr.dtor w.pool s, w.handles.eraseIdx i⟩
    | none => none
  | RcOp.reset i =>
    match w.handles[i]? with
    | some s =>
      some ⟨(IntrusivePtr.Reset w.pool s).1, w.handles.set i (IntrusivePtr.Reset w.pool s).2⟩
    | none => none
  | RcOp.resetPtr i ptr =>
    match w.handles[i]? with
    | some s =>
      if w.pool.valid ptr then
        some ⟨(IntrusivePtr.ResetPtr w.pool s ptr).1,
          w.handles.set i (IntrusivePtr.ResetPtr w.pool s ptr).2⟩
      else none
    | none => none
  | RcOp.swap i j =>
    match w.handles[i]?, w.handles[j]? with
    | some s, some o =>
      some ⟨w.pool, (w.handles.set i (IntrusivePtr.Swap s o).1).set j (IntrusivePtr.Swap s o).2⟩
    | _, _ => none

/-- One step of a program. A handle occupies more than one byte of the address
space, so fewer than `SIZE_MOD - 1` handles exist at a time. -/
def RcWorld.step (w : RcWorld) (op : RcOp) : Option RcWorld :=
  match w.exec op with
  | some w1 => if w1.handles.length + 1 < SIZE_MOD then some w1 else none
  | none => none

/-- Run a list of operations from a state. -/
def RcWorld.run (w : RcWorld) : List RcOp → Option RcWorld
  | [] => some w
  | op :: ops =>
    match w.step op with
    | some w1 => w1.run ops
    | none => none

/-- Number of live handles whose `observed_` is the object at `a`. -/
def RcWorld.refs (w : RcWorld) (a : Nat) : Nat :=
  SmartPtrs.refs (w.handles.map IntrusivePtr.observed_) a

/-- The pool agrees with a census `cs` of the handles. For each object whose
counter started at zero and was not overwritten by an assignment: the counter
of the object, when it has not been destroyed, is the census; the deleter was
called at most once on it; nothing points to it once it is destroyed. Nothing
points to an address without object. -/
def Pool.Inv (p : Pool) (cs : Nat → Nat) : Prop :=
  ∀ a, match p.objs[a]? with
    | some o => o.plain = true → (o.RefCount < SIZE_MOD ∧ o.destroyed ≤ 1 ∧
        (o.destroyed = 0 → o.RefCount = cs a) ∧
        (o.destroyed = 1 → cs a = 0 ∧ o.RefCount = 0))
    | none => cs a = 0

/-- The invariant of programs that use `IntrusivePtr`. -/
structure RcWorld.Inv (w : RcWorld) : Prop where
  pool : w.pool.Inv w.refs
  size : w.handles.length + 1 < SIZE_MOD

/-- `CompressedPair<T*, Deleter>`: the pointer and the deleter. -/
structure CompressedPair where
  first : Option Nat
  second : Nat
  deriving DecidableEq, Repr

/-- `CompressedPair::GetFirst`. -/
def CompressedPair.GetFirst (c : CompressedPair) : Option Nat := c.first

/-- `CompressedPair::GetSecond`. -/
def CompressedPair.GetSecond (c : CompressedPair) : Nat := c.second

/-- `UniquePtr<T, Deleter>`: the member `data_`. -/
structure UniquePtr where
  data_ : CompressedPair
  deriving DecidableEq, Repr

/-- One call `deleter(arg)`, made while the handle held the pointer `held`. -/
structure DeleterCall where
  deleter : Nat
  arg : Option Nat
  held : Option Nat
  deriving DecidableEq, Repr

/-- The expression `data_.GetSecond()(p)` evaluated in the handle `this`. -/
def UniquePtr.callDeleter (log : List DeleterCall) (this : UniquePtr) (p : Option Nat) :
    List DeleterCall :=
  log ++ [⟨this.data_.GetSecond, p, this.data_.GetFirst⟩]

/-- `UniquePtr::UniquePtr(T* ptr, Deleter deleter)`; the constructor with one
argument passes a default-constructed deleter. -/
def UniquePtr.ofPtr (ptr : Option Nat) (deleter : Nat) : UniquePtr := ⟨⟨ptr, deleter⟩⟩

/-- `UniquePtr::UniquePtr(UniquePtr<U, E>&&)`; returns the new handle and the
source. A moved-from deleter keeps its value. -/
def UniquePtr.move (other : UniquePtr) : UniquePtr × UniquePtr :=
  (⟨⟨other.data_.GetFirst, other.data_.GetSecond⟩⟩, ⟨⟨none, other.data_.GetSecond⟩⟩)

/-- `UniquePtr::operator=(UniquePtr<U, E>&&)`; returns the log, `*this` and
the source. -/
def UniquePtr.moveAssign (log : List DeleterCall) (this other : UniquePtr) :
    List DeleterCall × UniquePtr × UniquePtr :=
  if other.data_.GetFirst = this.data_.GetFirst then (log, this, other)
  else
    (this.callDeleter log this.data_.GetFirst,
      ⟨⟨other.data_.GetFirst, other.data_.GetSecond⟩⟩,
      ⟨⟨none, other.data_.GetSecond⟩⟩)

/-- `UniquePtr::operator=(std::nullptr_t)`. -/
def UniquePtr.assignNull (log : List DeleterCall) (this : UniquePtr) :
    List DeleterCall × UniquePtr :=
  (this.callDeleter log this.data_.GetFirst, ⟨⟨none, this.data_.GetSecond⟩⟩)

/-- `UniquePtr::~UniquePtr`. -/
def UniquePtr.dtor (log : List DeleterCall) (this : UniquePtr) : List DeleterCall :=
  this.callDeleter log this.data_.GetFirst

/-- `UniquePtr::Release`; returns the log, the returned pointer and `*this`. -/
def UniquePtr.Release (log : List DeleterCall) (this : UniquePtr) :
    List DeleterCall × Option Nat × UniquePtr :=
  (log, this.data_.GetFirst, ⟨⟨none, this.data_.GetSecond⟩⟩)

/-- `UniquePtr::Reset(T* ptr)`: `old_ptr` is read, `ptr` is stored, then the
deleter is called on `old_ptr`. -/
def UniquePtr.Reset (log : List DeleterCall) (this : UniquePtr) (ptr : Option Nat) :
    List DeleterCall × UniquePtr :=
  let old_ptr := this.data_.GetFirst
  let this1 : UniquePtr := ⟨⟨ptr, this.data_.GetSecond⟩⟩
  (this1.callDeleter log old_ptr, this1)

/-- `UniquePtr::Swap`; returns `*this` and `other`. -/
def UniquePtr.Swap (this other : UniquePtr) : UniquePtr × UniquePtr :=
  (⟨other.data_⟩, ⟨this.data_⟩)

/-- `UniquePtr::Get`. -/
def UniquePtr.Get (this : UniquePtr) : Option Nat := this.data_.GetFirst

/-- `UniquePtr::GetDeleter`. -/
def UniquePtr.GetDeleter (this : UniquePtr) : Nat := this.data_.GetSecond

/-- `UniquePtr::operator bool`. -/
def UniquePtr.toBool (this : UniquePtr) : Bool := this.data_.GetFirst != none

/-- Number of handles in `l` that hold the pointer `p`. -/
def holders (l : List UniquePtr) (p : Nat) : Nat := refs (l.map UniquePtr.Get) p

/-! ## Reading the heap after a write -/

theorem blocks_update (h : Heap) (b : Nat) (f : ControlBlock → ControlBlock) (c : Nat) :
    (h.update b f).blocks[c]? = if c = b then (h.blocks[b]?).map f else h.blocks[c]? := by
  unfold Heap.update
  cases hb : h.blocks[b]? with
  | none => by_cases hc : c = b <;> simp [hc, hb]
  | some x =>
    by_cases hc : c = b
    · subst hc
      have : c < h.blocks.length := by
        rcases List.getElem?_eq_some.1 hb with ⟨hl, _⟩; exact hl
      simp [List.getElem?_set, this]
    · simp [List.getElem?_set, hc, Ne.symm hc]

@[simp] theorem objects_update (h : Heap) (b : Nat) (f : ControlBlock → ControlBlock) :
    (h.update b f).objects = h.objects := by
  unfold Heap.update; split <;> rfl

@[simp] theorem log_update (h : Heap) (b : Nat) (f : ControlBlock → ControlBlock) :
    (h.update b f).log = h.log := by
  unfold Heap.update; split <;> rfl

@[simp] theorem length_update (h : Heap) (b : Nat) (f : ControlBlock → ControlBlock) :
    (h.update b f).blocks.length = h.blocks.length := by
  unfold Heap.update; split <;> simp

theorem strong_zero_of_not_lt (h : Heap) (b : Nat) (hb : ¬ b < h.blocks.length) :
    h.strong b = 0 := by
  unfold Heap.strong
  rw [List.getElem?_eq_none (by omega)]

theorem weak_zero_of_not_lt (h : Heap) (b : Nat) (hb : ¬ b < h.blocks.length) :
    h.weak b = 0 := by
  unfold Heap.weak
  rw [List.getElem?_eq_none (by omega)]

theorem lt_of_live (h : Heap) (b : Nat) (hb : h.live b = true) : b < h.blocks.length := by
  unfold Heap.live at hb
  by_contra hlt
  rw [List.getElem?_eq_none (by omega)] at hb
  simp at hb

theorem strong_setStrong (h : Heap) (b n c : Nat) :
    (h.setStrong b n).strong c = if c = b ∧ b < h.blocks.length then n else h.strong c := by
  unfold Heap.strong Heap.setStrong
  rw [blocks_update]
  by_cases hc : c = b
  · subst hc
    by_cases hl : c < h.blocks.length
    · simp [hl, List.getElem?_eq_getElem hl]
    · simp [hl, List.getElem?_eq_none (Nat.le_of_not_lt hl)]
  · simp [hc]

@[simp] theorem weak_setStrong (h : Heap) (b n c : Nat) :
    (h.setStrong b n).weak c = h.weak c := by
  unfold Heap.weak Heap.setStrong
  rw [blocks_update]
  by_cases hc : c = b
  · subst hc
    cases h.blocks[c]? <;> simp
  · simp [hc]

@[simp] theorem live_setStrong (h : Heap) (b n c : Nat) :
    (h.setStrong b n).live c = h.live c := by
  unfold Heap.live Heap.setStrong
  rw [blocks_update]
  by_cases hc : c = b
  · subst hc
    cases h.blocks[c]? <;> simp
  · simp [hc]

theorem weak_setWeak (h : Heap) (b n c : Nat) :
    (h.setWeak b n).weak c = if c = b ∧ b < h.blocks.length then n else h.weak c := by
  unfold Heap.weak Heap.setWeak
  rw [blocks_update]
  by_cases hc : c = b
  · subst hc
    by_cases hl : c < h.blocks.length
    · simp [hl, List.getElem?_eq_getElem hl]
    · simp [hl, List.getElem?_eq_none (Nat.le_of_not_lt hl)]
  · simp [hc]

@[simp] theorem strong_setWeak (h : Heap) (b n c : Nat) :
    (h.setWeak b n).strong c = h.strong c := by
  unfold Heap.strong Heap.setWeak
  rw [blocks_update]
  by_cases hc : c = b
  · subst hc
    cases h.blocks[c]? <;> simp
  · simp [hc]

@[simp] theorem live_setWeak (h : Heap) (b n c : Nat) :
    (h.setWeak b n).live c = h.live c := by
  unfold Heap.live Heap.setWeak
  rw [blocks_update]
  by_cases hc : c = b
  · subst hc
    cases h.blocks[c]? <;> simp
  · simp [hc]

@[simp] theorem objects_setStrong (h : Heap) (b n : Nat) :
    (h.setStrong b n).objects = h.objects := by simp [Heap.setStrong]
@[simp] theorem log_setStrong (h : Heap) (b n : Nat) :
    (h.setStrong b n).log = h.log := by simp [Heap.setStrong]
@[simp] theorem length_setStrong (h : Heap) (b n : Nat) :
    (h.setStrong b n).blocks.length = h.blocks.length := by simp [Heap.setStrong]
@[simp] theorem objects_setWeak (h : Heap) (b n : Nat) :
    (h.setWeak b n).objects = h.objects := by simp [Heap.setWeak]
@[simp] theorem log_setWeak (h : Heap) (b n : Nat) :
    (h.setWeak b n).log = h.log := by simp [Heap.setWeak]
@[simp] theorem length_setWeak (h : Heap) (b n : Nat) :
    (h.setWeak b n).blocks.length = h.blocks.length := by simp [Heap.setWeak]

@[simp] theorem strong_record (h : Heap) (e : Event) (c : Nat) :
    (h.record e).strong c = h.strong c := rfl
@[simp] theorem weak_record (h : Heap) (e : Event) (c : Nat) :
    (h.record e).weak c = h.weak c := rfl
@[simp] theorem live_record (h : Heap) (e : Event) (c : Nat) :
    (h.record e).live c = h.live c := rfl
@[simp] theorem objects_record (h : Heap) (e : Event) :
    (h.record e).objects = h.objects := rfl
@[simp] theorem blocks_record (h : Heap) (e : Event) :
    (h.record e).blocks = h.blocks := rfl
@[simp] theorem log_record (h : Heap) (e : Event) :
    (h.record e).log = h.log ++ [e] := rfl

@[simp] theorem strong_useCounter (h : Heap) (b c : Nat) :
    (h.useCounter b).strong c = h.strong c := by
  unfold Heap.useCounter; split <;> rfl
@[simp] theorem weak_useCounter (h : Heap) (b c : Nat) :
    (h.useCounter b).weak c = h.weak c := by
  unfold Heap.useCounter; split <;> rfl
@[simp] theorem live_useCounter (h : Heap) (b c : Nat) :
    (h.useCounter b).live c = h.live c := by
  unfold Heap.useCounter; split <;> rfl
@[simp] theorem objects_useCounter (h : Heap) (b : Nat) :
    (h.useCounter b).objects = h.objects := by
  unfold Heap.useCounter; split <;> rfl
@[simp] theorem blocks_useCounter (h : Heap) (b : Nat) :
    (h.useCounter b).blocks = h.blocks := by
  unfold Heap.useCounter; split <;> rfl
theorem useCounter_of_live (h : Heap) (b : Nat) (hb : h.live b = true) :
    h.useCounter b = h := by
  unfold Heap.useCounter; simp [hb]

theorem strong_update_of (h : Heap) (b : Nat) (f : ControlBlock → ControlBlock) (c : Nat)
    (hf : ∀ x, (f x).strong_counter_ = x.strong_counter_) :
    (h.update b f).strong c = h.strong c := by
  unfold Heap.strong
  rw [blocks_update]
  by_cases hc : c = b
  · subst hc
    cases h.blocks[c]? <;> simp [hf]
  · simp [hc]

theorem weak_update_of (h : Heap) (b : Nat) (f : ControlBlock → ControlBlock) (c : Nat)
    (hf : ∀ x, (f x).weak_counter_ = x.weak_counter_) :
    (h.update b f).weak c = h.weak c := by
  unfold Heap.weak
  rw [blocks_update]
  by_cases hc : c = b
  · subst hc
    cases h.blocks[c]? <;> simp [hf]
  · simp [hc]

theorem live_update_of (h : Heap) (b : Nat) (f : ControlBlock → ControlBlock) (c : Nat)
    (hf : ∀ x, (f x).released = x.released) :
    (h.update b f).live c = h.live c := by
  unfold Heap.live
  rw [blocks_update]
  by_cases hc : c = b
  · subst hc
    cases h.blocks[c]? <;> simp [hf]
  · simp [hc]

@[simp] theorem strong_clearPointer (h : Heap) (b c : Nat) :
    (h.clearPointer b).strong c = h.strong c := by
  unfold Heap.clearPointer
  rw [strong_update_of]
  · split <;> rfl
  · intro x; rfl
@[simp] theorem weak_clearPointer (h : Heap) (b c : Nat) :
    (h.clearPointer b).weak c = h.weak c := by
  unfold Heap.clearPointer
  rw [weak_update_of]
  · split <;> rfl
  · intro x; rfl
@[simp] theorem live_clearPointer (h : Heap) (b c : Nat) :
    (h.clearPointer b).live c = h.live c := by
  unfold Heap.clearPointer
  rw [live_update_of]
  · split <;> rfl
  · intro x; rfl
@[simp] theorem objects_clearPointer (h : Heap) (b : Nat) :
    (h.clearPointer b).objects = h.objects := by
  unfold Heap.clearPointer; split <;> simp
@[simp] theorem length_clearPointer (h : Heap) (b : Nat) :
    (h.clearPointer b).blocks.length = h.blocks.length := by
  unfold Heap.clearPointer; split <;> simp
theorem log_clearPointer (h : Heap) (b : Nat) :
    (h.clearPointer b).log = if h.live b then h.log else h.log ++ [Event.stalePointer b] := by
  unfold Heap.clearPointer; split <;> simp

@[simp] theorem strong_releaseBlock (h : Heap) (b c : Nat) :
    (h.releaseBlock b).strong c = h.strong c := by
  unfold Heap.strong Heap.releaseBlock
  simp only [blocks_record]
  rw [blocks_update]
  by_cases hc : c = b
  · subst hc
    cases h.blocks[c]? <;> simp
  · simp [hc]
@[simp] theorem weak_releaseBlock (h : Heap) (b c : Nat) :
    (h.releaseBlock b).weak c = h.weak c := by
  unfold Heap.weak Heap.releaseBlock
  simp only [blocks_record]
  rw [blocks_update]
  by_cases hc : c = b
  · subst hc
    cases h.blocks[c]? <;> simp
  · simp [hc]
theorem live_releaseBlock (h : Heap) (b c : Nat) :
    (h.releaseBlock b).live c = if c = b then false else h.live c := by
  unfold Heap.live Heap.releaseBlock
  simp only [blocks_record]
  rw [blocks_update]
  by_cases hc : c = b
  · subst hc
    cases h.blocks[c]? <;> simp
  · simp [hc]
@[simp] theorem objects_releaseBlock (h : Heap) (b : Nat) :
    (h.releaseBlock b).objects = h.objects := by
  simp [Heap.releaseBlock]
@[simp] theorem length_releaseBlock (h : Heap) (b : Nat) :
    (h.releaseBlock b).blocks.length = h.blocks.length := by
  simp [Heap.releaseBlock]
@[simp] theorem log_releaseBlock (h : Heap) (b : Nat) :
    (h.releaseBlock b).log = h.log ++ [Event.release b] := by
  simp [Heap.releaseBlock]

/-! ## Counting block pointers in a list -/

theorem refs_nil (c : Nat) : refs [] c = 0 := rfl

theorem refs_cons (x : Option Nat) (l : List (Option Nat)) (c : Nat) :
    refs (x :: l) c = refs l c + ind x c := by
  unfold refs ind
  rw [List.count_cons]
  by_cases hx : x = some c <;> simp [hx]

theorem refs_append_one (l : List (Option Nat)) (x : Option Nat) (c : Nat) :
    refs (l ++ [x]) c = refs l c + ind x c := by
  have h1 : refs (l ++ [x]) c = refs l c + refs [x] c := by
    unfold refs; rw [List.count_append]
  rw [h1, refs_cons, refs_nil]; omega

theorem refs_set (l : List (Option Nat)) (i : Nat) (x y : Option Nat) (c : Nat)
    (hi : l[i]? = some x) : refs (l.set i y) c + ind x c = refs l c + ind y c := by
  induction l generalizing i with
  | nil => simp at hi
  | cons z l ih =>
    cases i with
    | zero =>
      simp at hi
      subst hi
      simp only [List.set_cons_zero, refs_cons]
      omega
    | succ i =>
      simp at hi
      have := ih i hi
      simp only [List.set_cons_succ, refs_cons]
      omega

theorem refs_eraseIdx (l : List (Option Nat)) (i : Nat) (x : Option Nat) (c : Nat)
    (hi : l[i]? = some x) : refs (l.eraseIdx i) c + ind x c = refs l c := by
  induction l generalizing i with
  | nil => simp at hi
  | cons z l ih =>
    cases i with
    | zero =>
      simp at hi
      subst hi
      simp only [List.eraseIdx_cons_zero, refs_cons]
    | succ i =>
      simp at hi
      have := ih i hi
      simp only [List.eraseIdx_cons_succ, refs_cons]
      omega

theorem refs_le_length (l : List (Option Nat)) (c : Nat) : refs l c ≤ l.length :=
  List.count_le_length _ _

theorem ind_le_one (o : Option Nat) (c : Nat) : ind o c ≤ 1 := by
  unfold ind; split <;> omega

theorem ind_none (c : Nat) : ind none c = 0 := rfl

theorem ind_some (b c : Nat) : ind (some b) c = if c = b then 1 else 0 := by
  unfold ind
  by_cases h : c = b
  · simp [h]
  · have : ¬ b = c := fun e => h e.symm
    simp [h, this]

/-! ## The log and the slots after a write -/

theorem SIZE_MOD_eq : SIZE_MOD = 18446744073709551616 := rfl

theorem releases_record (h : Heap) (e : Event) (c : Nat) :
    (h.record e).releases c = h.releases c + if e = Event.release c then 1 else 0 := by
  unfold Heap.releases
  rw [log_record, List.count_append]
  by_cases he : e = Event.release c <;> simp [he, List.count_cons]

theorem destroys_record (h : Heap) (e : Event) (c : Nat) :
    (h.record e).destroys c = h.destroys c + if e = Event.destroy c then 1 else 0 := by
  unfold Heap.destroys
  rw [log_record, List.count_append]
  by_cases he : e = Event.destroy c <;> simp [he, List.count_cons]

theorem stales_record (h : Heap) (e : Event) :
    (h.record e).stales = h.stales + if e.isStale then 1 else 0 := by
  unfold Heap.stales
  rw [log_record, List.countP_append]
  by_cases he : e.isStale = true <;> simp [he, List.countP_cons]

theorem releases_of_log (h h1 : Heap) (c : Nat) (hl : h1.log = h.log) :
    h1.releases c = h.releases c := by
  unfold Heap.releases; rw [hl]

theorem destroys_of_log (h h1 : Heap) (c : Nat) (hl : h1.log = h.log) :
    h1.destroys c = h.destroys c := by
  unfold Heap.destroys; rw [hl]

theorem stales_of_log (h h1 : Heap) (hl : h1.log = h.log) : h1.stales = h.stales := by
  unfold Heap.stales; rw [hl]

theorem slotRefs_of_objects (h h1 : Heap) (c : Nat) (ho : h1.objects = h.objects) :
    h1.slotRefs c = h.slotRefs c := by
  unfold Heap.slotRefs; rw [ho]

theorem live_false_of_not_lt (h : Heap) (b : Nat) (hb : ¬ b < h.blocks.length) :
    h.live b = false := by
  cases hl : h.live b with
  | false => rfl
  | true => exact absurd (lt_of_live h b hl) hb

/-! ## Steps that keep the census -/

theorem Heap.Inv.live_of_strong {h : Heap} {cs cw : Nat → Nat} (hi : h.Inv cs cw)
    (b : Nat) (hb : 0 < cs b) : h.live b = true := by
  cases hl : h.live b with
  | true => rfl
  | false => have := (hi.dead b hl).1; omega

theorem Heap.Inv.live_of_weak {h : Heap} {cs cw : Nat → Nat} (hi : h.Inv cs cw)
    (b : Nat) (hb : 0 < cw b) : h.live b = true := by
  cases hl : h.live b with
  | true => rfl
  | false => have := (hi.dead b hl).2.1; omega

theorem Heap.Inv.live_of_slot {h : Heap} {cs cw : Nat → Nat} (hi : h.Inv cs cw)
    (b : Nat) (hb : 0 < h.slotRefs b) : h.live b = true := by
  cases hl : h.live b with
  | true => rfl
  | false => have := (hi.dead b hl).2.2; omega

theorem inv_setWeak_dec {h : Heap} {cs cw cw1 : Nat → Nat} {b : Nat} (hi : h.Inv cs cw)
    (hcw : ∀ c, cw c = cw1 c + if c = b then 1 else 0) :
    (h.setWeak b ((h.weak b + SIZE_MOD - 1) % SIZE_MOD)).Inv cs cw1 := by
  have hb1 : cw b = cw1 b + 1 := by have := hcw b; simpa using this
  have hlive : h.live b = true := hi.live_of_weak b (by omega)
  have hlt := lt_of_live h b hlive
  have hS := SIZE_MOD_eq
  constructor
  · intro c
    rw [strong_setWeak, weak_setWeak]
    refine ⟨(hi.bounded c).1, ?_⟩
    split
    · exact Nat.mod_lt _ (by rw [hS]; omega)
    · exact (hi.bounded c).2
  · intro c hc
    rw [live_setWeak] at hc
    have h1 := hi.counts c hc
    rw [strong_setWeak, weak_setWeak, slotRefs_of_objects h _ c (objects_setWeak h b _)]
    refine ⟨h1.1, ?_⟩
    have h2 := hcw c
    by_cases hcb : c = b
    · subst hcb
      have h3 := (hi.bounded c).2
      simp only [hlt, and_self, if_true] at h2 ⊢
      rw [hS] at h3 ⊢
      omega
    · simp only [hcb, false_and, if_false] at h2 ⊢
      omega
  · intro c hc
    rw [live_setWeak] at hc
    have h1 := hi.dead c hc
    have h2 := hcw c
    rw [slotRefs_of_objects h _ c (objects_setWeak h b _)]
    refine ⟨h1.1, by omega, h1.2.2⟩
  · intro c hc
    rw [live_setWeak, length_setWeak] at hc
    rw [releases_of_log h _ c (log_setWeak h b _)]
    exact hi.unreleased c hc

theorem inv_setWeak_inc {h : Heap} {cs cw cw1 : Nat → Nat} {b : Nat} (hi : h.Inv cs cw)
    (hlive : h.live b = true)
    (hcw : ∀ c, cw1 c = cw c + if c = b then 1 else 0)
    (hlim : cw1 b + h.slotRefs b < SIZE_MOD) :
    (h.setWeak b ((h.weak b + 1) % SIZE_MOD)).Inv cs cw1 := by
  have hlt := lt_of_live h b hlive
  have hS := SIZE_MOD_eq
  constructor
  · intro c
    rw [strong_setWeak, weak_setWeak]
    refine ⟨(hi.bounded c).1, ?_⟩
    split
    · exact Nat.mod_lt _ (by rw [hS]; omega)
    · exact (hi.bounded c).2
  · intro c hc
    rw [live_setWeak] at hc
    have h1 := hi.counts c hc
    rw [strong_setWeak, weak_setWeak, slotRefs_of_objects h _ c (objects_setWeak h b _)]
    refine ⟨h1.1, ?_⟩
    have h2 := hcw c
    by_cases hcb : c = b
    · subst hcb
      simp only [hlt, and_self, if_true] at h2 ⊢
      rw [hS] at hlim ⊢
      omega
    · simp only [hcb, false_and, if_false] at h2 ⊢
      omega
  · intro c hc
    rw [live_setWeak] at hc
    have h1 := hi.dead c hc
    have h2 := hcw c
    have hcb : c ≠ b := by intro e; subst e; rw [hlive] at hc; exact absurd hc (by simp)
    simp only [hcb, if_false] at h2
    rw [slotRefs_of_objects h _ c (objects_setWeak h b _)]
    refine ⟨h1.1, by omega, h1.2.2⟩
  · intro c hc
    rw [live_setWeak, length_setWeak] at hc
    rw [releases_of_log h _ c (log_setWeak h b _)]
    exact hi.unreleased c hc

theorem inv_setStrong_dec {h : Heap} {cs cs1 cw : Nat → Nat} {b : Nat} (hi : h.Inv cs cw)
    (hcs : ∀ c, cs c = cs1 c + if c = b then 1 else 0) :
    (h.setStrong b ((h.strong b + SIZE_MOD - 1) % SIZE_MOD)).Inv cs1 cw := by
  have hb1 : cs b = cs1 b + 1 := by have := hcs b; simpa using this
  have hlive : h.live b = true := hi.live_of_strong b (by omega)
  have hlt := lt_of_live h b hlive
  have hS := SIZE_MOD_eq
  constructor
  · intro c
    rw [strong_setStrong, weak_setStrong]
    refine ⟨?_, (hi.bounded c).2⟩
    split
    · exact Nat.mod_lt _ (by rw [hS]; omega)
    · exact (hi.bounded c).1
  · intro c hc
    rw [live_setStrong] at hc
    have h1 := hi.counts c hc
    rw [strong_setStrong, weak_setStrong, slotRefs_of_objects h _ c (objects_setStrong h b _)]
    refine ⟨?_, h1.2⟩
    have h2 := hcs c
    by_cases hcb : c = b
    · subst hcb
      have h3 := (hi.bounded c).1
      simp only [hlt, and_self, if_true] at h2 ⊢
      rw [hS] at h3 ⊢
      omega
    · simp only [hcb, false_and, if_false] at h2 ⊢
      omega
  · intro c hc
    rw [live_setStrong] at hc
    have h1 := hi.dead c hc
    have h2 := hcs c
    rw [slotRefs_of_objects h _ c (objects_setStrong h b _)]
    refine ⟨by omega, h1.2.1, h1.2.2⟩
  · intro c hc
    rw [live_setStrong, length_setStrong] at hc
    rw [releases_of_log h _ c (log_setStrong h b _)]
    exact hi.unreleased c hc

theorem inv_setStrong_inc {h : Heap} {cs cs1 cw : Nat → Nat} {b : Nat} (hi : h.Inv cs cw)
    (hlive : h.live b = true)
    (hcs : ∀ c, cs1 c = cs c + if c = b then 1 else 0)
    (hlim : cs1 b < SIZE_MOD) :
    (h.setStrong b ((h.strong b + 1) % SIZE_MOD)).Inv cs1 cw := by
  have hlt := lt_of_live h b hlive
  have hS := SIZE_MOD_eq
  constructor
  · intro c
    rw [strong_setStrong, weak_setStrong]
    refine ⟨?_, (hi.bounded c).2⟩
    split
    · exact Nat.mod_lt _ (by rw [hS]; omega)
    · exact (hi.bounded c).1
  · intro c hc
    rw [live_setStrong] at hc
    have h1 := hi.counts c hc
    rw [strong_setStrong, weak_setStrong, slotRefs_of_objects h _ c (objects_setStrong h b _)]
    refine ⟨?_, h1.2⟩
    have h2 := hcs c
    by_cases hcb : c = b
    · subst hcb
      simp only [hlt, and_self, if_true] at h2 ⊢
      rw [hS] at hlim ⊢
      omega
    · simp only [hcb, false_and, if_false] at h2 ⊢
      omega
  · intro c hc
    rw [live_setStrong] at hc
    have h1 := hi.dead c hc
    have h2 := hcs c
    have hcb : c ≠ b := by intro e; subst e; rw [hlive] at hc; exact absurd hc (by simp)
    simp only [hcb, if_false] at h2
    rw [slotRefs_of_objects h _ c (objects_setStrong h b _)]
    refine ⟨by omega, h1.2.1, h1.2.2⟩
  · intro c hc
    rw [live_setStrong, length_setStrong] at hc
    rw [releases_of_log h _ c (log_setStrong h b _)]
    exact hi.unreleased c hc

theorem inv_record {h : Heap} {cs cw : Nat → Nat} (hi : h.Inv cs cw) (e : Event)
    (he : ∀ c, e ≠ Event.release c) : (h.record e).Inv cs cw := by
  constructor
  · intro c; exact hi.bounded c
  · intro c hc; exact hi.counts c hc
  · intro c hc; exact hi.dead c hc
  · intro c hc
    rw [releases_record, if_neg (he c)]
    exact hi.unreleased c hc

theorem inv_useCounter {h : Heap} {cs cw : Nat → Nat} (hi : h.Inv cs cw) (b : Nat) :
    (h.useCounter b).Inv cs cw := by
  unfold Heap.useCounter
  split
  · exact hi
  · exact inv_record hi _ (fun c => by simp)

theorem inv_clearPointer {h : Heap} {cs cw : Nat → Nat} (hi : h.Inv cs cw) (b : Nat) :
    (h.clearPointer b).Inv cs cw := by
  constructor
  · intro c; simpa using hi.bounded c
  · intro c hc
    rw [live_clearPointer] at hc
    rw [strong_clearPointer, weak_clearPointer,
      slotRefs_of_objects h _ c (objects_clearPointer h b)]
    exact hi.counts c hc
  · intro c hc
    rw [live_clearPointer] at hc
    rw [slotRefs_of_objects h _ c (objects_clearPointer h b)]
    exact hi.dead c hc
  · intro c hc
    rw [live_clearPointer, length_clearPointer] at hc
    have h0 := hi.unreleased c hc
    unfold Heap.releases at h0 ⊢
    rw [log_clearPointer]
    split
    · exact h0
    · rw [List.count_append, h0]; simp [List.count_cons]

theorem inv_releaseBlock {h : Heap} {cs cw : Nat → Nat} (hi : h.Inv cs cw) (b : Nat)
    (hb : b < h.blocks.length) (hs : h.strong b = 0) (hw : h.weak b = 0) :
    (h.releaseBlock b).Inv cs cw := by
  constructor
  · intro c; simpa using hi.bounded c
  · intro c hc
    rw [live_releaseBlock] at hc
    by_cases hcb : c = b
    · simp [hcb] at hc
    · simp only [hcb, if_false] at hc
      rw [strong_releaseBlock, weak_releaseBlock,
        slotRefs_of_objects h _ c (objects_releaseBlock h b)]
      exact hi.counts c hc
  · intro c hc
    rw [live_releaseBlock] at hc
    rw [slotRefs_of_objects h _ c (objects_releaseBlock h b)]
    by_cases hcb : c = b
    · subst hcb
      cases hl : h.live c with
      | false => exact hi.dead c hl
      | true =>
        have h1 := hi.counts c hl
        refine ⟨by omega, by omega, by omega⟩
    · simp only [hcb, if_false] at hc
      exact hi.dead c hc
  · intro c hc
    rw [live_releaseBlock, length_releaseBlock] at hc
    have hcb : c ≠ b := by
      intro e; subst e
      rcases hc with hc | hc
      · simp at hc
      · omega
    simp only [hcb, if_false] at hc
    unfold Heap.releases
    rw [log_releaseBlock, List.count_append]
    have h0 := hi.unreleased c hc
    unfold Heap.releases at h0
    rw [h0]
    have : Event.release b ≠ Event.release c := by
      intro e; injection e with e; exact hcb e.symm
    simp [List.count_cons, this]

theorem inv_releaseIfUnused {h : Heap} {cs cw : Nat → Nat} (hi : h.Inv cs cw) (b : Nat)
    (hb : b < h.blocks.length) : (releaseIfUnused h b).Inv cs cw := by
  unfold releaseIfUnused
  have h1 := inv_useCounter hi b
  simp only
  split
  · rename_i hz
    exact inv_releaseBlock h1 b (by simpa using hb) hz.1 hz.2
  · exact h1

theorem inv_DecCounterWeak {h : Heap} {cs cw cw1 : Nat → Nat} {b : Nat} (hi : h.Inv cs cw)
    (hcw : ∀ c, cw c = cw1 c + if c = b then 1 else 0) :
    (DecCounterWeak h b).Inv cs cw1 := by
  have hb1 : cw b = cw1 b + 1 := by have := hcw b; simpa using this
  have hlive : h.live b = true := hi.live_of_weak b (by omega)
  unfold DecCounterWeak
  simp only [useCounter_of_live h b hlive]
  exact inv_releaseIfUnused (inv_setWeak_dec hi hcw) b (by simpa using lt_of_live h b hlive)

theorem inv_IncCounter_weak {h : Heap} {cs cw cw1 : Nat → Nat} {b : Nat} (hi : h.Inv cs cw)
    (hlive : h.live b = true)
    (hcw : ∀ c, cw1 c = cw c + if c = b then 1 else 0)
    (hlim : cw1 b + h.slotRefs b < SIZE_MOD) :
    (IncCounter h b true).Inv cs cw1 := by
  unfold IncCounter
  simp only [useCounter_of_live h b hlive, if_true]
  exact inv_setWeak_inc hi hlive hcw hlim

theorem inv_IncCounter_strong {h : Heap} {cs cs1 cw : Nat → Nat} {b : Nat} (hi : h.Inv cs cw)
    (hlive : h.live b = true)
    (hcs : ∀ c, cs1 c = cs c + if c = b then 1 else 0)
    (hlim : cs1 b < SIZE_MOD) :
    (IncCounter h b false).Inv cs1 cw := by
  unfold IncCounter
  simp only [useCounter_of_live h b hlive]
  exact inv_setStrong_inc hi hlive hcs hlim

/-- Replacing the payload objects keeps the census when the weak references
that left the slots are counted as handles and conversely. -/
theorem inv_objects {h : Heap} {cs cw cw1 : Nat → Nat} (hi : h.Inv cs cw)
    (objs : List (Option WeakPtr))
    (hcw : ∀ c, cw1 c + refs (objs.map slotBlock) c = cw c + h.slotRefs c) :
    ({ h with objects := objs } : Heap).Inv cs cw1 := by
  constructor
  · intro c; exact hi.bounded c
  · intro c hc
    have h1 := hi.counts c hc
    have h2 := hcw c
    refine ⟨h1.1, ?_⟩
    show h.weak c = cw1 c + refs (objs.map slotBlock) c
    omega
  · intro c hc
    have h1 := hi.dead c hc
    have h2 := hcw c
    show cs c = 0 ∧ cw1 c = 0 ∧ refs (objs.map slotBlock) c = 0
    omega
  · intro c hc; exact hi.unreleased c hc

theorem inv_destroyObject {h : Heap} {cs cw : Nat → Nat} (hi : h.Inv cs cw)
    (p : Option Nat) : (destroyObject h p).Inv cs cw := by
  unfold destroyObject
  split
  · exact hi
  · rename_i a
    split
    · rename_i w hw
      have hset : ∀ c, refs ((h.objects.set a none).map slotBlock) c + ind w.block_ c
          = h.slotRefs c := by
        intro c
        rw [List.map_set]
        have := refs_set (h.objects.map slotBlock) a w.block_ none c
          (by rw [List.getElem?_map, hw]; rfl)
        rw [ind_none] at this
        exact this
      unfold WeakPtr.dtor
      split
      · rename_i b hb
        have hobj : ({ h with objects := h.objects.set a none } : Heap).Inv cs
            (fun c => cw c + ind w.block_ c) := by
          refine inv_objects hi (h.objects.set a none) ?_
          intro c
          have := hset c
          show cw c + ind w.block_ c + _ = _
          omega
        refine inv_DecCounterWeak hobj ?_
        intro c
        show cw c + ind w.block_ c = _
        rw [hb, ind_some]
      · rename_i hb
        refine inv_objects hi (h.objects.set a none) ?_
        intro c
        have := hset c
        rw [hb, ind_none] at this
        omega
    · exact hi

theorem inv_destroyPayload {h : Heap} {cs cw : Nat → Nat} (hi : h.Inv cs cw)
    (b : Nat) : (destroyPayload h b).Inv cs cw := by
  unfold destroyPayload
  split
  · exact hi
  · rename_i c hc
    simp only
    have h1 := inv_destroyObject (inv_record hi (Event.destroy b) (fun c => by simp)) c.pointer_
    split
    · exact h1
    · exact inv_clearPointer h1 b

/-! ## Steps that leave strong counters and payloads alone -/

theorem frame_refl (h : Heap) : h.Frame h := ⟨rfl, fun _ => rfl, fun _ => rfl⟩

theorem frame_trans {h h1 h2 : Heap} (a : h.Frame h1) (b : h1.Frame h2) : h.Frame h2 :=
  ⟨b.1.trans a.1, fun c => (b.2.1 c).trans (a.2.1 c), fun c => (b.2.2 c).trans (a.2.2 c)⟩

theorem frame_record (h : Heap) (e : Event) (he : ∀ c, e ≠ Event.destroy c) :
    h.Frame (h.record e) :=
  ⟨rfl, fun _ => rfl, fun c => by rw [destroys_record, if_neg (he c)]; rfl⟩

theorem frame_useCounter (h : Heap) (b : Nat) : h.Frame (h.useCounter b) := by
  unfold Heap.useCounter
  split
  · exact frame_refl h
  · exact frame_record h _ (fun c => by simp)

theorem frame_setWeak (h : Heap) (b n : Nat) : h.Frame (h.setWeak b n) :=
  ⟨length_setWeak h b n, fun c => strong_setWeak h b n c,
    fun c => destroys_of_log h _ c (log_setWeak h b n)⟩

theorem frame_releaseBlock (h : Heap) (b : Nat) : h.Frame (h.releaseBlock b) := by
  refine ⟨length_releaseBlock h b, fun c => strong_releaseBlock h b c, fun c => ?_⟩
  unfold Heap.destroys
  rw [log_releaseBlock, List.count_append]
  simp [List.count_cons]

theorem frame_releaseIfUnused (h : Heap) (b : Nat) : h.Frame (releaseIfUnused h b) := by
  unfold releaseIfUnused
  simp only
  split
  · exact frame_trans (frame_useCounter h b) (frame_releaseBlock _ b)
  · exact frame_useCounter h b

theorem frame_DecCounterWeak (h : Heap) (b : Nat) : h.Frame (DecCounterWeak h b) := by
  unfold DecCounterWeak
  exact frame_trans (frame_trans (frame_useCounter h b) (frame_setWeak _ b _))
    (frame_releaseIfUnused _ b)

theorem frame_WeakPtr_dtor (h : Heap) (w : WeakPtr) : h.Frame (WeakPtr.dtor h w) := by
  unfold WeakPtr.dtor
  split
  · exact frame_DecCounterWeak h _
  · exact frame_refl h

theorem frame_objects (h : Heap) (objs : List (Option WeakPtr)) :
    h.Frame { h with objects := objs } := ⟨rfl, fun _ => rfl, fun _ => rfl⟩

theorem frame_destroyObject (h : Heap) (p : Option Nat) : h.Frame (destroyObject h p) := by
  unfold destroyObject
  split
  · exact frame_refl h
  · split
    · exact frame_trans (frame_objects h _) (frame_WeakPtr_dtor _ _)
    · exact frame_refl h

theorem frame_clearPointer (h : Heap) (b : Nat) : h.Frame (h.clearPointer b) := by
  refine ⟨length_clearPointer h b, fun c => strong_clearPointer h b c, fun c => ?_⟩
  unfold Heap.destroys
  rw [log_clearPointer]
  split
  · rfl
  · rw [List.count_append]; simp [List.count_cons]

theorem frame_IncCounter_weak (h : Heap) (b : Nat) : h.Frame (IncCounter h b true) := by
  unfold IncCounter
  simp only [if_true]
  exact frame_trans (frame_useCounter h b) (frame_setWeak _ b _)

/-- What `destroyPayload` does to the block count, the strong counters and
the destroy events. -/
theorem destroyPayload_spec (h : Heap) (b : Nat) :
    (destroyPayload h b).blocks.length = h.blocks.length ∧
    (∀ c, (destroyPayload h b).strong c = h.strong c) ∧
    (∀ c, (destroyPayload h b).destroys c
      = h.destroys c + if c = b ∧ b < h.blocks.length then 1 else 0) := by
  unfold destroyPayload
  split
  · rename_i hn
    have hlt : ¬ b < h.blocks.length := by
      intro hlt; rw [List.getElem?_eq_getElem hlt] at hn; exact absurd hn (by simp)
    refine ⟨rfl, fun _ => rfl, fun c => ?_⟩
    simp [hlt]
  · rename_i x hx
    have hlt : b < h.blocks.length := (List.getElem?_eq_some.1 hx).1
    have f1 : (h.record (Event.destroy b)).Frame
        (if x.buffer then destroyObject (h.record (Event.destroy b)) x.pointer_
          else (destroyObject (h.record (Event.destroy b)) x.pointer_).clearPointer b) := by
      split
      · exact frame_destroyObject _ _
      · exact frame_trans (frame_destroyObject _ _) (frame_clearPointer _ b)
    refine ⟨f1.1, fun c => f1.2.1 c, fun c => ?_⟩
    rw [f1.2.2 c, destroys_record]
    by_cases hcb : c = b
    · simp [hcb, hlt]
    · have : Event.destroy b ≠ Event.destroy c := by
        intro e; injection e with e; exact hcb e.symm
      simp [hcb, this]

/-- What `DecCounter(false)` does to the block count, the strong counters and
the destroy events. -/
theorem DecCounter_strong_spec (h : Heap) (b : Nat) :
    (DecCounter h b false).blocks.length = h.blocks.length ∧
    (∀ c, (DecCounter h b false).strong c
      = if c = b ∧ b < h.blocks.length then (h.strong b + SIZE_MOD - 1) % SIZE_MOD
        else h.strong c) ∧
    (∀ c, (DecCounter h b false).destroys c
      = h.destroys c + if c = b ∧ b < h.blocks.length ∧
          (h.strong b + SIZE_MOD - 1) % SIZE_MOD = 0 then 1 else 0) := by
  unfold DecCounter
  simp only [Bool.false_eq_true, if_false]
  generalize hh1 : ((h.useCounter b).setStrong b
    (((h.useCounter b).strong b + SIZE_MOD - 1) % SIZE_MOD)).useCounter b = h2
  have hlen2 : h2.blocks.length = h.blocks.length := by rw [← hh1]; simp
  have hs2 : ∀ c, h2.strong c
      = if c = b ∧ b < h.blocks.length then (h.strong b + SIZE_MOD - 1) % SIZE_MOD
        else h.strong c := by
    intro c; rw [← hh1]; simp [strong_setStrong]
  have hd2 : ∀ c, h2.destroys c = h.destroys c := by
    intro c
    rw [← hh1, (frame_useCounter _ b).2.2 c,
      destroys_of_log _ _ c (log_setStrong _ b _), (frame_useCounter h b).2.2 c]
  by_cases hz : h2.strong b = 0
  · simp only [hz, if_true]
    have f := frame_releaseIfUnused (destroyPayload h2 b) b
    have sp := destroyPayload_spec h2 b
    refine ⟨by rw [f.1, sp.1, hlen2], fun c => by rw [f.2.1, sp.2.1, hs2], fun c => ?_⟩
    rw [f.2.2, sp.2.2, hd2, hlen2]
    have hz2 := hs2 b
    rw [hz] at hz2
    by_cases hcb : c = b
    · by_cases hlt : b < h.blocks.length
      · simp only [hlt, and_true, if_true] at hz2
        simp [hcb, hlt, ← hz2]
      · simp [hcb, hlt]
    · simp [hcb]
  · simp only [hz, if_false]
    have f := frame_releaseIfUnused h2 b
    refine ⟨by rw [f.1, hlen2], fun c => by rw [f.2.1, hs2], fun c => ?_⟩
    rw [f.2.2, hd2]
    have hz2 := hs2 b
    by_cases hcb : c = b
    · by_cases hlt : b < h.blocks.length
      · simp only [hlt, and_true, if_true] at hz2
        rw [hz2] at hz
        simp [hcb, hlt, hz]
      · simp [hcb, hlt]
    · simp [hcb]

theorem inv_DecCounter_strong {h : Heap} {cs cs1 cw : Nat → Nat} {b : Nat} (hi : h.Inv cs cw)
    (hcs : ∀ c, cs c = cs1 c + if c = b then 1 else 0) :
    (DecCounter h b false).Inv cs1 cw := by
  have hb1 : cs b = cs1 b + 1 := by have := hcs b; simpa using this
  have hlive : h.live b = true := hi.live_of_strong b (by omega)
  have hlt := lt_of_live h b hlive
  unfold DecCounter
  simp only [Bool.false_eq_true, if_false, useCounter_of_live h b hlive]
  have h1 := inv_useCounter (inv_setStrong_dec hi hcs) b
  refine inv_releaseIfUnused ?_ b ?_
  · split
    · exact inv_destroyPayload h1 b
    · exact h1
  · split
    · rw [(destroyPayload_spec _ b).1]; simpa using hlt
    · simpa using hlt

theorem once_of_frame {h h1 : Heap} (ho : h.DestroyedOnce) (f : h.Frame h1) :
    h1.DestroyedOnce := by
  intro c
  rw [f.2.2 c, f.1, f.2.1 c]
  exact ho c

theorem good_of_frame {h h1 : Heap} {cs cw cs1 cw1 : Nat → Nat} (hg : h.Good cs cw)
    (hi : h1.Inv cs1 cw1) (f : h.Frame h1) : h1.Good cs1 cw1 :=
  ⟨hi, once_of_frame hg.2 f⟩

theorem good_DecCounter_weak {h : Heap} {cs cw cw1 : Nat → Nat} {b : Nat} (hg : h.Good cs cw)
    (hcw : ∀ c, cw c = cw1 c + if c = b then 1 else 0) :
    (DecCounter h b true).Good cs cw1 := by
  unfold DecCounter
  simp only [if_true]
  exact good_of_frame hg (inv_DecCounterWeak hg.1 hcw) (frame_DecCounterWeak h b)

theorem good_IncCounter_weak {h : Heap} {cs cw cw1 : Nat → Nat} {b : Nat} (hg : h.Good cs cw)
    (hlive : h.live b = true)
    (hcw : ∀ c, cw1 c = cw c + if c = b then 1 else 0)
    (hlim : cw1 b + h.slotRefs b < SIZE_MOD) :
    (IncCounter h b true).Good cs cw1 :=
  good_of_frame hg (inv_IncCounter_weak hg.1 hlive hcw hlim) (frame_IncCounter_weak h b)

theorem good_DecCounter_strong {h : Heap} {cs cs1 cw : Nat → Nat} {b : Nat} (hg : h.Good cs cw)
    (hcs : ∀ c, cs c = cs1 c + if c = b then 1 else 0) :
    (DecCounter h b false).Good cs1 cw := by
  refine ⟨inv_DecCounter_strong hg.1 hcs, ?_⟩
  have hb1 : cs b = cs1 b + 1 := by have := hcs b; simpa using this
  have hlive : h.live b = true := hg.1.live_of_strong b (by omega)
  have hlt := lt_of_live h b hlive
  have hsb := (hg.1.counts b hlive).1
  have hbd := (hg.1.bounded b).1
  have sp := DecCounter_strong_spec h b
  have hS := SIZE_MOD_eq
  intro c
  rw [sp.2.2 c, sp.1, sp.2.1 c, hg.2 c]
  by_cases hcb : c = b
  · subst hcb
    have hne : h.strong c ≠ 0 := by omega
    simp [hlt, hne]
  · simp [hcb]

theorem good_IncCounter_strong {h : Heap} {cs cs1 cw : Nat → Nat} {b : Nat} (hg : h.Good cs cw)
    (hpos : 0 < cs b)
    (hcs : ∀ c, cs1 c = cs c + if c = b then 1 else 0)
    (hlim : cs1 b < SIZE_MOD) :
    (IncCounter h b false).Good cs1 cw := by
  have hlive : h.live b = true := hg.1.live_of_strong b hpos
  refine ⟨inv_IncCounter_strong hg.1 hlive hcs hlim, ?_⟩
  have hlt := lt_of_live h b hlive
  have hsb := (hg.1.counts b hlive).1
  have hb1 : cs1 b = cs b + 1 := by have := hcs b; simpa using this
  have hS := SIZE_MOD_eq
  intro c
  have hd : (IncCounter h b false).destroys c = h.destroys c := by
    unfold IncCounter
    simp only [Bool.false_eq_true, if_false, useCounter_of_live h b hlive]
    exact destroys_of_log _ _ c (log_setStrong _ b _)
  have hl : (IncCounter h b false).blocks.length = h.blocks.length := by
    unfold IncCounter; simp
  have hs : (IncCounter h b false).strong c
      = if c = b then (h.strong b + 1) % SIZE_MOD else h.strong c := by
    unfold IncCounter
    simp only [Bool.false_eq_true, if_false, useCounter_of_live h b hlive]
    rw [strong_setStrong]; simp [hlt]
  rw [hd, hl, hs, hg.2 c]
  by_cases hcb : c = b
  · subst hcb
    have h1 : h.strong c ≠ 0 := by omega
    have h2 : (h.strong c + 1) % SIZE_MOD ≠ 0 := by rw [hS] at hlim ⊢; omega
    simp [h1, h2]
  · simp [hcb]

theorem good_record {h : Heap} {cs cw : Nat → Nat} (hg : h.Good cs cw) (e : Event)
    (h1 : ∀ c, e ≠ Event.release c) (h2 : ∀ c, e ≠ Event.destroy c) :
    (h.record e).Good cs cw :=
  good_of_frame hg (inv_record hg.1 e h1) (frame_record h e h2)

theorem good_objects {h : Heap} {cs cw cw1 : Nat → Nat} (hg : h.Good cs cw)
    (objs : List (Option WeakPtr))
    (hcw : ∀ c, cw1 c + refs (objs.map slotBlock) c = cw c + h.slotRefs c) :
    ({ h with objects := objs } : Heap).Good cs cw1 :=
  good_of_frame hg (inv_objects hg.1 objs hcw) (frame_objects h objs)

theorem getElem?_newBlock (h : Heap) (p : Option Nat) (k : Bool) (c : Nat) :
    (h.newBlock p k).1.blocks[c]?
      = if c = h.blocks.length then some ⟨1, 0, p, k, false⟩ else h.blocks[c]? := by
  unfold Heap.newBlock
  simp only
  rw [List.getElem?_append]
  by_cases hc : c < h.blocks.length
  · have : c ≠ h.blocks.length := by omega
    simp [hc, this]
  · by_cases hc2 : c = h.blocks.length
    · simp [hc2]
    · have h3 : h.blocks.length < c := by omega
      have h4 : h.blocks[c]? = none := List.getElem?_eq_none (by omega)
      have h5 : c - h.blocks.length ≠ 0 := by omega
      simp [hc, hc2, h4]
      omega

theorem good_newBlock {h : Heap} {cs cs1 cw : Nat → Nat} (hg : h.Good cs cw)
    (p : Option Nat) (k : Bool)
    (hcs : ∀ c, cs1 c = cs c + if c = h.blocks.length then 1 else 0) :
    (h.newBlock p k).1.Good cs1 cw := by
  have hS := SIZE_MOD_eq
  have hnl : h.live h.blocks.length = false := live_false_of_not_lt h _ (by omega)
  have hd := hg.1.dead _ hnl
  have hlen : (h.newBlock p k).1.blocks.length = h.blocks.length + 1 := by
    unfold Heap.newBlock; simp
  have hst : ∀ c, (h.newBlock p k).1.strong c
      = if c = h.blocks.length then 1 else h.strong c := by
    intro c; unfold Heap.strong; rw [getElem?_newBlock]; by_cases hc : c = h.blocks.length <;> simp [hc]
  have hwk : ∀ c, (h.newBlock p k).1.weak c
      = if c = h.blocks.length then 0 else h.weak c := by
    intro c; unfold Heap.weak; rw [getElem?_newBlock]; by_cases hc : c = h.blocks.length <;> simp [hc]
  have hlv : ∀ c, (h.newBlock p k).1.live c
      = if c = h.blocks.length then true else h.live c := by
    intro c; unfold Heap.live; rw [getElem?_newBlock]; by_cases hc : c = h.blocks.length <;> simp [hc]
  refine ⟨⟨?_, ?_, ?_, ?_⟩, ?_⟩
  · intro c
    rw [hst, hwk]
    have := hg.1.bounded c
    split
    · rw [hS]; omega
    · exact this
  · intro c hc
    rw [hlv] at hc
    rw [hst, hwk]
    have h2 := hcs c
    show _ ∧ _ = cw c + h.slotRefs c
    by_cases hcb : c = h.blocks.length
    · subst hcb
      simp only [if_true] at h2 ⊢
      omega
    · simp only [hcb, if_false] at hc h2 ⊢
      have := hg.1.counts c hc
      omega
  · intro c hc
    rw [hlv] at hc
    have h2 := hcs c
    show _ ∧ _ ∧ h.slotRefs c = 0
    by_cases hcb : c = h.blocks.length
    · simp [hcb] at hc
    · simp only [hcb, if_false] at hc h2
      have := hg.1.dead c hc
      omega
  · intro c hc
    rw [hlv, hlen] at hc
    show h.releases c = 0
    by_cases hcb : c = h.blocks.length
    · exact hg.1.unreleased c (Or.inr (by omega))
    · simp only [hcb, if_false] at hc
      rcases hc with hc | hc
      · exact hg.1.unreleased c (Or.inl hc)
      · exact hg.1.unreleased c (Or.inr (by omega))
  · intro c
    rw [hlen, hst]
    show h.destroys c = _
    rw [hg.2 c]
    by_cases hcb : c = h.blocks.length
    · simp [hcb]
    · by_cases hlt : c < h.blocks.length
      · have : c < h.blocks.length + 1 := by omega
        simp [hcb, hlt, this]
      · have : ¬ c < h.blocks.length + 1 := by omega
        simp [hcb, hlt, this]

/-! ## Handle operations keep the census -/

theorem good_releaseStrong {h : Heap} {cs cs1 cw : Nat → Nat} {b : Nat} (hg : h.Good cs cw)
    (hcs : ∀ c, cs c = cs1 c + if c = b then 1 else 0)
    (hlim : cw b + h.slotRefs b + 1 < SIZE_MOD) :
    (releaseStrong h b).Good cs1 cw := by
  have hb1 : cs b = cs1 b + 1 := by have := hcs b; simpa using this
  have hlive : h.live b = true := hg.1.live_of_strong b (by omega)
  have g1 : (IncCounter h b true).Good cs (fun c => cw c + if c = b then 1 else 0) :=
    good_IncCounter_weak hg hlive (fun c => rfl) (by simp only [if_true]; omega)
  have g2 := good_DecCounter_strong g1 hcs
  exact good_DecCounter_weak g2 (fun c => rfl)

theorem DecCounterWeak_objects (h : Heap) (b : Nat) :
    (DecCounterWeak h b).objects = h.objects := by
  unfold DecCounterWeak releaseIfUnused
  simp only
  split <;> simp

theorem update_comm (h : Heap) (b : Nat) (f : ControlBlock → ControlBlock)
    (objs : List (Option WeakPtr)) :
    ({ h with objects := objs } : Heap).update b f
      = { h.update b f with objects := objs } := by
  unfold Heap.update
  simp only
  split <;> rfl

theorem useCounter_comm (h : Heap) (b : Nat) (objs : List (Option WeakPtr)) :
    ({ h with objects := objs } : Heap).useCounter b
      = { h.useCounter b with objects := objs } := by
  unfold Heap.useCounter
  have : ({ h with objects := objs } : Heap).live b = h.live b := rfl
  rw [this]
  split <;> rfl

theorem releaseIfUnused_comm (h : Heap) (b : Nat) (objs : List (Option WeakPtr)) :
    releaseIfUnused { h with objects := objs } b
      = { releaseIfUnused h b with objects := objs } := by
  unfold releaseIfUnused
  simp only [useCounter_comm]
  have h1 : ({ h.useCounter b with objects := objs } : Heap).strong b
      = (h.useCounter b).strong b := rfl
  have h2 : ({ h.useCounter b with objects := objs } : Heap).weak b
      = (h.useCounter b).weak b := rfl
  rw [h1, h2]
  split
  · unfold Heap.releaseBlock
    rw [update_comm]; rfl
  · rfl

theorem DecCounterWeak_comm (h : Heap) (b : Nat) (objs : List (Option WeakPtr)) :
    DecCounterWeak { h with objects := objs } b
      = { DecCounterWeak h b with objects := objs } := by
  unfold DecCounterWeak
  simp only [useCounter_comm]
  have h2 : ({ h.useCounter b with objects := objs } : Heap).weak b
      = (h.useCounter b).weak b := rfl
  rw [h2]
  unfold Heap.setWeak
  rw [update_comm, releaseIfUnused_comm]

theorem good_DecCounterWeak {h : Heap} {cs cw cw1 : Nat → Nat} {b : Nat} (hg : h.Good cs cw)
    (hcw : ∀ c, cw c = cw1 c + if c = b then 1 else 0) :
    (DecCounterWeak h b).Good cs cw1 :=
  good_of_frame hg (inv_DecCounterWeak hg.1 hcw) (frame_DecCounterWeak h b)

theorem slot_some (h : Heap) (a : Nat) (w : WeakPtr) (hs : h.slot (some a) = some w) :
    h.objects[a]? = some (some w) := by
  unfold Heap.slot at hs
  simp only at hs
  split at hs
  · rename_i x hx; rw [hx]; injection hs with hs; rw [hs]
  · exact absurd hs (by simp)

theorem slot_of_objects (h h1 : Heap) (p : Option Nat) (ho : h1.objects = h.objects) :
    h1.slot p = h.slot p := by
  unfold Heap.slot; rw [ho]

@[simp] theorem objects_IncCounter (h : Heap) (b : Nat) (k : Bool) :
    (IncCounter h b k).objects = h.objects := by
  unfold IncCounter
  simp only
  split <;> simp

theorem slotRefs_set (h : Heap) (a : Nat) (w : WeakPtr) (v : Option WeakPtr) (c : Nat)
    (ha : h.objects[a]? = some (some w)) :
    refs ((h.objects.set a v).map slotBlock) c + ind w.block_ c
      = h.slotRefs c + ind (slotBlock v) c := by
  rw [List.map_set]
  exact refs_set (h.objects.map slotBlock) a w.block_ (slotBlock v) c
    (by rw [List.getElem?_map, ha]; rfl)

theorem good_InitWeakThis {h : Heap} {cs cw : Nat → Nat} {n : Nat} (hg : h.Good cs cw)
    (this : SharedPtr) (e : Option Nat) (hb : this.block_ = some n)
    (hlive : h.live n = true) (hlim : cw n + h.slotRefs n + 1 < SIZE_MOD) :
    (SharedPtr.InitWeakThis h this e).Good cs cw := by
  have g1 : (IncCounter h n true).Good cs (fun c => cw c + if c = n then 1 else 0) :=
    good_IncCounter_weak hg hlive (fun c => rfl) (by simp only [if_true]; omega)
  unfold SharedPtr.InitWeakThis WeakPtr.ofShared
  rw [hb]
  simp only
  split
  · rename_i a w hs
    have ha := slot_some _ a w hs
    unfold WeakPtr.moveAssign
    simp only
    by_cases hwb : w.block_ = some n
    · simp only [hwb, if_true]
      have g2 : ({ IncCounter h n true with
          objects := (IncCounter h n true).objects.set a (some w) } : Heap).Good cs
          (fun c => cw c + if c = n then 1 else 0) := by
        refine good_objects g1 _ ?_
        intro c
        have := slotRefs_set (IncCounter h n true) a w (some w) c ha
        simp only [slotBlock] at this
        omega
      unfold WeakPtr.dtor
      simp only
      exact good_DecCounterWeak g2 (fun c => rfl)
    · have hne : ¬ w.block_ = this.block_ := by rw [hb]; exact hwb
      simp only [hb] at hne
      simp only [hne, if_false]
      unfold WeakPtr.dtor
      simp only
      cases hwc : w.block_ with
      | none =>
        simp only
        refine good_objects g1 _ ?_
        intro c
        have := slotRefs_set (IncCounter h n true) a w (some ⟨some n, this.observed_⟩) c ha
        simp only [slotBlock, hwc, ind_none, ind_some] at this
        omega
      | some c0 =>
        simp only
        unfold DecCounter
        simp only [if_true]
        rw [DecCounterWeak_objects, ← DecCounterWeak_comm]
        have g2 : ({ IncCounter h n true with
            objects := (IncCounter h n true).objects.set a (some ⟨some n, this.observed_⟩) }
              : Heap).Good cs (fun c => cw c + if c = c0 then 1 else 0) := by
          refine good_objects g1 _ ?_
          intro c
          have := slotRefs_set (IncCounter h n true) a w (some ⟨some n, this.observed_⟩) c ha
          simp only [slotBlock, hwc, ind_some] at this
          omega
        exact good_DecCounterWeak g2 (fun c => rfl)
  · unfold WeakPtr.dtor
    simp only
    exact good_DecCounterWeak
      (good_record g1 _ (fun c => by simp) (fun c => by simp)) (fun c => rfl)

/-! ## The census of a list of handles -/

theorem refs_map_append {α : Type} (f : α → Option Nat) (l : List α) (x : α) (c : Nat) :
    refs ((l ++ [x]).map f) c = refs (l.map f) c + ind (f x) c := by
  rw [List.map_append]
  exact refs_append_one _ _ c

theorem refs_map_set {α : Type} (f : α → Option Nat) (l : List α) (i : Nat) (x y : α)
    (c : Nat) (hi : l[i]? = some x) :
    refs ((l.set i y).map f) c + ind (f x) c = refs (l.map f) c + ind (f y) c := by
  rw [List.map_set]
  exact refs_set (l.map f) i (f x) (f y) c (by rw [List.getElem?_map, hi]; rfl)

theorem refs_map_eraseIdx {α : Type} (f : α → Option Nat) (l : List α) (i : Nat) (x : α)
    (c : Nat) (hi : l[i]? = some x) :
    refs ((l.eraseIdx i).map f) c + ind (f x) c = refs (l.map f) c := by
  induction l generalizing i with
  | nil => simp at hi
  | cons z l ih =>
    cases i with
    | zero =>
      simp at hi
      subst hi
      simp only [List.eraseIdx_cons_zero, List.map_cons, refs_cons]
    | succ i =>
      simp at hi
      have := ih i hi
      simp only [List.eraseIdx_cons_succ, List.map_cons, refs_cons]
      omega

theorem refs_map_le {α : Type} (f : α → Option Nat) (l : List α) (c : Nat) :
    refs (l.map f) c ≤ l.length := by
  have := refs_le_length (l.map f) c
  simpa using this

theorem refs_map_pos {α : Type} (f : α → Option Nat) (l : List α) (i : Nat) (x : α)
    (b : Nat) (hi : l[i]? = some x) (hb : f x = some b) : 0 < refs (l.map f) b := by
  have := refs_map_eraseIdx f l i x b hi
  rw [hb, ind_some] at this
  simp only [if_true] at this
  omega

theorem slotRefs_le (h : Heap) (c : Nat) :
    h.slotRefs c ≤ h.objects.countP Option.isSome := by
  unfold Heap.slotRefs
  induction h.objects with
  | nil => simp [refs_nil]
  | cons x l ih =>
    rw [List.map_cons, refs_cons, List.countP_cons]
    cases x with
    | none => simp only [slotBlock, ind_none]; omega
    | some v =>
      have := ind_le_one (slotBlock (some v)) c
      simp only [Option.isSome_some, if_true]
      omega

theorem some_lt_length {α : Type} (l : List α) (i : Nat) (x : α) (hi : l[i]? = some x) :
    i < l.length := (List.getElem?_eq_some.1 hi).1

theorem good_congr {h : Heap} {cs cw cs1 cw1 : Nat → Nat} (hg : h.Good cs cw)
    (hcs : ∀ c, cs1 c = cs c) (hcw : ∀ c, cw1 c = cw c) : h.Good cs1 cw1 := by
  have e1 : cs1 = cs := funext hcs
  have e2 : cw1 = cw := funext hcw
  rw [e1, e2]; exact hg

/-- Adding a strong reference to the block `o` points to, as the copy
constructors do. -/
theorem good_addStrong {h : Heap} {cs cs1 cw : Nat → Nat} (hg : h.Good cs cw)
    (o : Option Nat) (hpos : ∀ b, o = some b → 0 < cs b)
    (hcs : ∀ c, cs1 c = cs c + ind o c) (hlim : ∀ b, cs1 b < SIZE_MOD) :
    (match o with
      | some b => IncCounter h b false
      | none => h).Good cs1 cw := by
  cases o with
  | none => exact good_congr hg (fun c => by rw [hcs c, ind_none]; rfl) (fun _ => rfl)
  | some b =>
    exact good_IncCounter_strong hg (hpos b rfl)
      (fun c => by rw [hcs c, ind_some]) (hlim b)

/-- Adding a weak reference to the block `o` points to. -/
theorem good_addWeak {h : Heap} {cs cw cw1 : Nat → Nat} (hg : h.Good cs cw)
    (o : Option Nat) (hlive : ∀ b, o = some b → h.live b = true)
    (hcw : ∀ c, cw1 c = cw c + ind o c) (hlim : ∀ b, cw1 b + h.slotRefs b < SIZE_MOD) :
    (match o with
      | some b => IncCounter h b true
      | none => h).Good cs cw1 := by
  cases o with
  | none => exact good_congr hg (fun _ => rfl) (fun c => by rw [hcw c, ind_none]; rfl)
  | some b =>
    exact good_IncCounter_weak hg (hlive b rfl)
      (fun c => by rw [hcw c, ind_some]) (hlim b)

/-- Dropping a strong reference the way the assignment operators do. -/
theorem good_dropStrong {h : Heap} {cs cs1 cw : Nat → Nat} (hg : h.Good cs cw)
    (o : Option Nat) (hcs : ∀ c, cs c = cs1 c + ind o c) :
    (match o with
      | some b => DecCounter h b false
      | none => h).Good cs1 cw := by
  cases o with
  | none => exact good_congr hg (fun c => by rw [hcs c, ind_none]; rfl) (fun _ => rfl)
  | some b => exact good_DecCounter_strong hg (fun c => by rw [hcs c, ind_some])

/-- Dropping a weak reference. -/
theorem good_dropWeak {h : Heap} {cs cw cw1 : Nat → Nat} (hg : h.Good cs cw)
    (o : Option Nat) (hcw : ∀ c, cw c = cw1 c + ind o c) :
    (match o with
      | some b => DecCounter h b true
      | none => h).Good cs cw1 := by
  cases o with
  | none => exact good_congr hg (fun _ => rfl) (fun c => by rw [hcw c, ind_none]; rfl)
  | some b => exact good_DecCounter_weak hg (fun c => by rw [hcw c, ind_some])

/-- Dropping a strong reference the way `~SharedPtr` and `Reset` do. -/
theorem good_releaseOpt {h : Heap} {cs cs1 cw : Nat → Nat} (hg : h.Good cs cw)
    (o : Option Nat) (hcs : ∀ c, cs c = cs1 c + ind o c)
    (hlim : ∀ b, cw b + h.slotRefs b + 1 < SIZE_MOD) :
    (match o with
      | some b => releaseStrong h b
      | none => h).Good cs1 cw := by
  cases o with
  | none => exact good_congr hg (fun c => by rw [hcs c, ind_none]; rfl) (fun _ => rfl)
  | some b => exact good_releaseStrong hg (fun c => by rw [hcs c, ind_some]) (hlim b)

theorem objects_releaseIfUnused (h : Heap) (b : Nat) :
    (releaseIfUnused h b).objects = h.objects := by
  unfold releaseIfUnused
  simp only
  split <;> simp

theorem good_ofWeak {h : Heap} {cs cs1 cw : Nat → Nat} (hg : h.Good cs cw) (x : WeakPtr)
    (r : Heap × SharedPtr) (hok : SharedPtr.ofWeak h x = Except.ok r)
    (hlive : ∀ b, x.block_ = some b → h.live b = true)
    (hcs : ∀ c, cs1 c = cs c + ind x.block_ c) (hlim : ∀ b, cs1 b < SIZE_MOD) :
    r.1.Good cs1 cw ∧ r.2.block_ = x.block_ := by
  unfold SharedPtr.ofWeak at hok
  split at hok
  · exact absurd hok (by simp)
  · rename_i hexp
    have hpos : ∀ b, x.block_ = some b → 0 < cs b := by
      intro b hb
      have h1 := (hg.1.counts b (hlive b hb)).1
      unfold WeakPtr.Expired WeakPtr.UseCount GetCounter at hexp
      rw [hb] at hexp
      simp at hexp
      omega
    have key := good_addStrong hg x.block_ hpos hcs hlim
    cases hx : x.block_ with
    | none =>
      rw [hx] at hok key
      simp only at hok key
      injection hok with hok
      subst hok
      exact ⟨key, rfl⟩
    | some b =>
      rw [hx] at hok key
      simp only at hok key
      injection hok with hok
      subst hok
      exact ⟨key, rfl⟩

/-! ## Every handle operation keeps the census -/

theorem good_copy {h : Heap} {cs cs1 cw : Nat → Nat} (hg : h.Good cs cw) (s : SharedPtr)
    (hpos : ∀ b, s.block_ = some b → 0 < cs b)
    (hcs : ∀ c, cs1 c = cs c + ind (SharedPtr.copy h s).2.block_ c)
    (hlim : ∀ b, cs1 b < SIZE_MOD) :
    (SharedPtr.copy h s).1.Good cs1 cw := by
  have hb : (SharedPtr.copy h s).2.block_ = s.block_ := by
    unfold SharedPtr.copy; split <;> rfl
  rw [hb] at hcs
  have key := good_addStrong hg s.block_ hpos hcs hlim
  unfold SharedPtr.copy
  cases hx : s.block_ with
  | none => rw [hx] at key; exact key
  | some b => rw [hx] at key; exact key

theorem good_alias {h : Heap} {cs cs1 cw : Nat → Nat} (hg : h.Good cs cw) (s : SharedPtr)
    (ptr : Option Nat)
    (hpos : ∀ b, s.block_ = some b → 0 < cs b)
    (hcs : ∀ c, cs1 c = cs c + ind (SharedPtr.alias h s ptr).2.block_ c)
    (hlim : ∀ b, cs1 b < SIZE_MOD) :
    (SharedPtr.alias h s ptr).1.Good cs1 cw := by
  have hb : (SharedPtr.alias h s ptr).2.block_ = s.block_ := by
    unfold SharedPtr.alias; split <;> rfl
  rw [hb] at hcs
  have key := good_addStrong hg s.block_ hpos hcs hlim
  unfold SharedPtr.alias
  cases hx : s.block_ with
  | none => rw [hx] at key; exact key
  | some b => rw [hx] at key; exact key

theorem good_promote {h : Heap} {cs cs1 cw : Nat → Nat} (hg : h.Good cs cw) (x : WeakPtr)
    (r : Heap × SharedPtr) (hok : SharedPtr.ofWeak h x = Except.ok r)
    (hlive : ∀ b, x.block_ = some b → h.live b = true)
    (hcs : ∀ c, cs1 c = cs c + ind r.2.block_ c) (hlim : ∀ b, cs1 b < SIZE_MOD) :
    r.1.Good cs1 cw := by
  have hb : r.2.block_ = x.block_ := by
    unfold SharedPtr.ofWeak at hok
    split at hok
    · exact absurd hok (by simp)
    · split at hok <;> (injection hok with hok; subst hok; rfl)
  rw [hb] at hcs
  exact (good_ofWeak hg x r hok hlive hcs hlim).1

theorem good_Lock {h : Heap} {cs cs1 cw : Nat → Nat} (hg : h.Good cs cw) (x : WeakPtr)
    (r : Heap × SharedPtr) (hok : WeakPtr.Lock h x = Except.ok r)
    (hlive : ∀ b, x.block_ = some b → h.live b = true)
    (hcs : ∀ c, cs1 c = cs c + ind r.2.block_ c) (hlim : ∀ b, cs1 b < SIZE_MOD) :
    r.1.Good cs1 cw := by
  unfold WeakPtr.Lock at hok
  split at hok
  · exact good_promote hg x r hok hlive hcs hlim
  · injection hok with hok
    subst hok
    exact good_congr hg (fun c => by rw [hcs c]; rfl) (fun _ => rfl)

theorem slot_block_live {h : Heap} {cs cw : Nat → Nat} (hg : h.Good cs cw) (p : Option Nat)
    (w : WeakPtr) (hs : h.slot p = some w) (b : Nat) (hb : w.block_ = some b) :
    h.live b = true := by
  cases p with
  | none => unfold Heap.slot at hs; exact absurd hs (by simp)
  | some a =>
    have ha := slot_some h a w hs
    refine hg.1.live_of_slot b ?_
    exact refs_map_pos slotBlock h.objects a (some w) b ha hb

theorem good_SharedFromThis {h : Heap} {cs cs1 cw : Nat → Nat} (hg : h.Good cs cw)
    (p : Option Nat) (r : Heap × SharedPtr) (hok : SharedFromThis h p = Except.ok r)
    (hcs : ∀ c, cs1 c = cs c + ind r.2.block_ c) (hlim : ∀ b, cs1 b < SIZE_MOD) :
    r.1.Good cs1 cw := by
  unfold SharedFromThis at hok
  split at hok
  · rename_i w hs
    exact good_promote hg w r hok (fun b hb => slot_block_live hg p w hs b hb) hcs hlim
  · exact good_promote hg WeakPtr.empty r hok
      (fun b hb => absurd hb (by simp [WeakPtr.empty])) hcs hlim

theorem good_weakCopy {h : Heap} {cs cw cw1 : Nat → Nat} (hg : h.Good cs cw) (x : WeakPtr)
    (hlive : ∀ b, x.block_ = some b → h.live b = true)
    (hcw : ∀ c, cw1 c = cw c + ind (WeakPtr.copy h x).2.block_ c)
    (hlim : ∀ b, cw1 b + h.slotRefs b < SIZE_MOD) :
    (WeakPtr.copy h x).1.Good cs cw1 := by
  have hb : (WeakPtr.copy h x).2.block_ = x.block_ := by
    unfold WeakPtr.copy; split <;> rfl
  rw [hb] at hcw
  have key := good_addWeak hg x.block_ hlive hcw hlim
  unfold WeakPtr.copy
  cases hx : x.block_ with
  | none => rw [hx] at key; exact key
  | some b => rw [hx] at key; exact key

theorem good_ofShared {h : Heap} {cs cw cw1 : Nat → Nat} (hg : h.Good cs cw) (s : SharedPtr)
    (hlive : ∀ b, s.block_ = some b → h.live b = true)
    (hcw : ∀ c, cw1 c = cw c + ind (WeakPtr.ofShared h s).2.block_ c)
    (hlim : ∀ b, cw1 b + h.slotRefs b < SIZE_MOD) :
    (WeakPtr.ofShared h s).1.Good cs cw1 := by
  have hb : (WeakPtr.ofShared h s).2.block_ = s.block_ := by
    unfold WeakPtr.ofShared; split <;> rfl
  rw [hb] at hcw
  have key := good_addWeak hg s.block_ hlive hcw hlim
  unfold WeakPtr.ofShared
  cases hx : s.block_ with
  | none => rw [hx] at key; exact key
  | some b => rw [hx] at key; exact key

theorem good_WeakFromThis {h : Heap} {cs cw cw1 : Nat → Nat} (hg : h.Good cs cw)
    (p : Option Nat)
    (hcw : ∀ c, cw1 c = cw c + ind (WeakFromThis h p).2.block_ c)
    (hlim : ∀ b, cw1 b + h.slotRefs b < SIZE_MOD) :
    (WeakFromThis h p).1.Good cs cw1 := by
  unfold WeakFromThis at hcw ⊢
  split
  · rename_i w hs
    rw [hs] at hcw
    exact good_weakCopy hg w (fun b hb => slot_block_live hg p w hs b hb) hcw hlim
  · rename_i hs
    rw [hs] at hcw
    exact good_weakCopy hg WeakPtr.empty
      (fun b hb => absurd hb (by simp [WeakPtr.empty])) hcw hlim

theorem good_dtor {h : Heap} {cs cs1 cw : Nat → Nat} (hg : h.Good cs cw) (s : SharedPtr)
    (hcs : ∀ c, cs c = cs1 c + ind s.block_ c)
    (hlim : ∀ b, cw b + h.slotRefs b + 1 < SIZE_MOD) :
    (SharedPtr.dtor h s).Good cs1 cw := by
  have key := good_releaseOpt hg s.block_ hcs hlim
  unfold SharedPtr.dtor
  exact key

theorem Reset_block (h : Heap) (s : SharedPtr) : (SharedPtr.Reset h s).2.block_ = none := by
  unfold SharedPtr.Reset
  split
  · rfl
  · rename_i hb; exact hb

theorem ResetPtr_block (h : Heap) (s : SharedPtr) (ptr : Option Nat) :
    (SharedPtr.ResetPtr h s ptr).2.block_
      = some (match s.block_ with
          | some b => releaseStrong h b
          | none => h).blocks.length := rfl

theorem assign_block (h : Heap) (s o : SharedPtr) :
    (SharedPtr.assign h s o).2.block_ = o.block_ := by
  unfold SharedPtr.assign
  split
  · rename_i hb; exact hb
  · simp only
    cases o.block_ <;> rfl

theorem good_Reset {h : Heap} {cs cs1 cw : Nat → Nat} (hg : h.Good cs cw) (s : SharedPtr)
    (hcs : ∀ c, cs c = cs1 c + ind s.block_ c)
    (hlim : ∀ b, cw b + h.slotRefs b + 1 < SIZE_MOD) :
    (SharedPtr.Reset h s).1.Good cs1 cw := by
  unfold SharedPtr.Reset
  split
  · rename_i b hb
    rw [hb] at hcs
    dsimp only
    exact good_releaseStrong hg (fun c => by rw [hcs c, ind_some]) (hlim b)
  · rename_i hb
    rw [hb] at hcs
    dsimp only
    exact good_congr hg (fun c => by rw [hcs c, ind_none]; rfl) (fun _ => rfl)

theorem good_ResetPtr {h : Heap} {cs cs1 cw : Nat → Nat} (hg : h.Good cs cw) (s : SharedPtr)
    (ptr : Option Nat)
    (hcs : ∀ c, cs c + ind (SharedPtr.ResetPtr h s ptr).2.block_ c = cs1 c + ind s.block_ c)
    (hle : ∀ c, ind s.block_ c ≤ cs c)
    (hlim : ∀ b, cw b + h.slotRefs b + 1 < SIZE_MOD) :
    (SharedPtr.ResetPtr h s ptr).1.Good cs1 cw := by
  have g1 : (match s.block_ with
      | some b => releaseStrong h b
      | none => h).Good (fun c => cs c - ind s.block_ c) cw :=
    good_releaseOpt hg s.block_ (fun c => by have := hle c; show cs c = cs c - _ + _; omega) hlim
  rw [ResetPtr_block] at hcs
  unfold SharedPtr.ResetPtr
  simp only
  refine good_newBlock g1 ptr false ?_
  intro c
  have h1 := hcs c
  have h2 := hle c
  rw [ind_some] at h1
  show cs1 c = cs c - ind s.block_ c + _
  omega

theorem good_assign {h : Heap} {cs cs1 cw : Nat → Nat} (hg : h.Good cs cw) (s o : SharedPtr)
    (hcs : ∀ c, cs c + ind o.block_ c = cs1 c + ind s.block_ c)
    (hle : ∀ c, ind s.block_ c ≤ cs c)
    (hpos : ∀ b, o.block_ = some b → 0 < cs b)
    (hlim : ∀ b, cs1 b < SIZE_MOD) :
    (SharedPtr.assign h s o).1.Good cs1 cw := by
  unfold SharedPtr.assign
  by_cases hsame : s.block_ = o.block_
  · simp only [hsame, if_true]
    exact good_congr hg (fun c => by have := hcs c; rw [← hsame] at this; omega) (fun _ => rfl)
  · simp only [hsame, if_false]
    have g1 : (match s.block_ with
        | some b => DecCounter h b false
        | none => h).Good (fun c => cs c - ind s.block_ c) cw :=
      good_dropStrong hg s.block_ (fun c => by have := hle c; show cs c = cs c - _ + _; omega)
    have hp : ∀ b, o.block_ = some b → 0 < cs b - ind s.block_ b := by
      intro b hb2
      have h1 := hpos b hb2
      have h2 : ind s.block_ b = 0 := by
        unfold ind
        rw [if_neg]
        intro e
        exact hsame (e.trans hb2.symm)
      omega
    have hc : ∀ c, cs1 c = cs c - ind s.block_ c + ind o.block_ c := by
      intro c
      have h1 := hcs c
      have h2 := hle c
      omega
    have key := good_addStrong g1 o.block_ hp hc hlim
    cases ho : o.block_ with
    | none => rw [ho] at key; exact key
    | some b => rw [ho] at key; exact key

theorem good_moveAssign {h : Heap} {cs cs1 cw : Nat → Nat} (hg : h.Good cs cw)
    (s o : SharedPtr)
    (hcs : ∀ c, cs c = cs1 c + if s.block_ = o.block_ then 0 else ind s.block_ c) :
    (SharedPtr.moveAssign h s o).1.Good cs1 cw := by
  unfold SharedPtr.moveAssign
  by_cases hsame : s.block_ = o.block_
  · simp only [hsame, if_true] at hcs ⊢
    exact good_congr hg (fun c => by have := hcs c; omega) (fun _ => rfl)
  · simp only [hsame, if_false] at hcs ⊢
    exact good_dropStrong hg s.block_ hcs

theorem moveAssign_blocks (h : Heap) (s o : SharedPtr) :
    (SharedPtr.moveAssign h s o).2.1.block_ = o.block_ ∧
    (SharedPtr.moveAssign h s o).2.2.block_
      = if s.block_ = o.block_ then o.block_ else none := by
  unfold SharedPtr.moveAssign
  by_cases hsame : s.block_ = o.block_
  · simp only [hsame, if_true]; exact ⟨trivial, trivial⟩
  · simp only [hsame, if_false]; exact ⟨trivial, trivial⟩

theorem live_newBlock (h : Heap) (p : Option Nat) (k : Bool) :
    (h.newBlock p k).1.live h.blocks.length = true := by
  unfold Heap.live
  rw [getElem?_newBlock]
  simp

theorem good_ofPtr {h : Heap} {cs cs1 cw : Nat → Nat} (hg : h.Good cs cw)
    (ptr : Option Nat) (esft : Bool)
    (hcs : ∀ c, cs1 c = cs c + ind (SharedPtr.ofPtr h ptr esft).2.block_ c) :
    (SharedPtr.ofPtr h ptr esft).1.Good cs1 cw := by
  have hb : (SharedPtr.ofPtr h ptr esft).2.block_ = some h.blocks.length := by
    unfold SharedPtr.ofPtr; cases esft <;> rfl
  rw [hb] at hcs
  have g1 : (h.newBlock ptr false).1.Good cs1 cw :=
    good_newBlock hg ptr false (fun c => by rw [hcs c, ind_some])
  have hd := hg.1.dead _ (live_false_of_not_lt h h.blocks.length (by omega))
  unfold SharedPtr.ofPtr
  cases esft with
  | false => exact g1
  | true =>
    dsimp only
    refine good_InitWeakThis g1 _ ptr rfl (live_newBlock h ptr false) ?_
    show cw h.blocks.length + h.slotRefs h.blocks.length + 1 < SIZE_MOD
    rw [hd.2.1, hd.2.2, SIZE_MOD_eq]
    omega

theorem good_MakeShared {h : Heap} {cs cs1 cw : Nat → Nat} (hg : h.Good cs cw)
    (esft : Bool)
    (hcs : ∀ c, cs1 c = cs c + ind (MakeShared h esft).2.block_ c) :
    (MakeShared h esft).1.Good cs1 cw := by
  have hb : (MakeShared h esft).2.block_ = some h.blocks.length := by
    unfold MakeShared; cases esft <;> rfl
  rw [hb] at hcs
  have hsl : ∀ c, refs ((h.objects ++ [if esft = true then some WeakPtr.empty else none]).map
      slotBlock) c = h.slotRefs c := by
    intro c
    rw [List.map_append, List.map_singleton, refs_append_one]
    have : slotBlock (if esft = true then some WeakPtr.empty else none) = none := by
      cases esft <;> rfl
    rw [this, ind_none]
    rfl
  have g0 : ({ h with objects := h.objects ++ [if esft = true then some WeakPtr.empty else none] }
      : Heap).Good cs cw :=
    good_objects hg _ (fun c => by rw [hsl c])
  have g1 : (Heap.newBlock { h with objects := h.objects ++
      [if esft = true then some WeakPtr.empty else none] } (some h.objects.length) true).1.Good
      cs1 cw :=
    good_newBlock g0 (some h.objects.length) true (fun c => by rw [hcs c, ind_some])
  have hd := hg.1.dead _ (live_false_of_not_lt h h.blocks.length (by omega))
  unfold MakeShared
  cases esft with
  | false => exact g1
  | true =>
    dsimp only
    refine good_InitWeakThis g1 _ _ rfl (live_newBlock _ _ true) ?_
    have h3 := hsl h.blocks.length
    show cw h.blocks.length + refs ((h.objects ++
      [if true = true then some WeakPtr.empty else none]).map slotBlock) h.blocks.length + 1
        < SIZE_MOD
    rw [h3, hd.2.1, hd.2.2, SIZE_MOD_eq]
    omega

theorem good_weakDtor {h : Heap} {cs cw cw1 : Nat → Nat} (hg : h.Good cs cw) (x : WeakPtr)
    (hcw : ∀ c, cw c = cw1 c + ind x.block_ c) :
    (WeakPtr.dtor h x).Good cs cw1 := by
  unfold WeakPtr.dtor
  split
  · rename_i b hb
    rw [hb] at hcw
    exact good_DecCounterWeak hg (fun c => by rw [hcw c, ind_some])
  · rename_i hb
    rw [hb] at hcw
    exact good_congr hg (fun _ => rfl) (fun c => by rw [hcw c, ind_none]; rfl)

theorem good_weakReset {h : Heap} {cs cw cw1 : Nat → Nat} (hg : h.Good cs cw) (x : WeakPtr)
    (hcw : ∀ c, cw c = cw1 c + ind x.block_ c) :
    (WeakPtr.Reset h x).1.Good cs cw1 := by
  have key := good_dropWeak hg x.block_ hcw
  unfold WeakPtr.Reset
  split
  · rename_i b hb
    rw [hb] at key
    dsimp only at key ⊢
    exact key
  · rename_i hb
    rw [hb] at key
    dsimp only at key ⊢
    exact key

theorem objects_DecCounter_weak (h : Heap) (b : Nat) :
    (DecCounter h b true).objects = h.objects := by
  unfold DecCounter
  simp only [if_true]
  exact DecCounterWeak_objects h b

theorem good_weakAssign {h : Heap} {cs cw cw1 : Nat → Nat} (hg : h.Good cs cw)
    (x o : WeakPtr)
    (hcw : ∀ c, cw c + ind o.block_ c = cw1 c + ind x.block_ c)
    (hle : ∀ c, ind x.block_ c ≤ cw c)
    (hpos : ∀ b, o.block_ = some b → 0 < cw b)
    (hlim : ∀ b, cw1 b + h.slotRefs b < SIZE_MOD) :
    (WeakPtr.assign h x o).1.Good cs cw1 := by
  unfold WeakPtr.assign
  by_cases hsame : x.block_ = o.block_
  · simp only [hsame, if_true]
    exact good_congr hg (fun _ => rfl) (fun c => by have := hcw c; rw [← hsame] at this; omega)
  · simp only [hsame, if_false]
    have g1 : (match x.block_ with
        | some b => DecCounter h b true
        | none => h).Good cs (fun c => cw c - ind x.block_ c) :=
      good_dropWeak hg x.block_ (fun c => by have := hle c; show cw c = cw c - _ + _; omega)
    have hobj : (match x.block_ with
        | some b => DecCounter h b true
        | none => h).objects = h.objects := by
      split
      · exact objects_DecCounter_weak h _
      · rfl
    have hp : ∀ b, o.block_ = some b → (match x.block_ with
        | some b => DecCounter h b true
        | none => h).live b = true := by
      intro b hb2
      refine g1.1.live_of_weak b ?_
      have h1 := hpos b hb2
      have h2 : ind x.block_ b = 0 := by
        unfold ind
        rw [if_neg]
        intro e
        exact hsame (e.trans hb2.symm)
      show 0 < cw b - ind x.block_ b
      omega
    have hc : ∀ c, cw1 c = cw c - ind x.block_ c + ind o.block_ c := by
      intro c
      have h1 := hcw c
      have h2 := hle c
      omega
    have key := good_addWeak g1 o.block_ hp hc
      (fun b => by rw [slotRefs_of_objects h _ b hobj]; exact hlim b)
    cases ho : o.block_ with
    | none => rw [ho] at key; exact key
    | some b => rw [ho] at key; exact key

theorem good_weakMoveAssign {h : Heap} {cs cw cw1 : Nat → Nat} (hg : h.Good cs cw)
    (x o : WeakPtr)
    (hcw : ∀ c, cw c = cw1 c + if x.block_ = o.block_ then 0 else ind x.block_ c) :
    (WeakPtr.moveAssign h x o).1.Good cs cw1 := by
  unfold WeakPtr.moveAssign
  by_cases hsame : x.block_ = o.block_
  · simp only [hsame, if_true] at hcw ⊢
    exact good_congr hg (fun _ => rfl) (fun c => by have := hcw c; omega)
  · simp only [hsame, if_false] at hcw ⊢
    exact good_dropWeak hg x.block_ hcw

theorem weakAssign_block (h : Heap) (x o : WeakPtr) :
    (WeakPtr.assign h x o).2.block_ = o.block_ := by
  unfold WeakPtr.assign
  split
  · rename_i hb; exact hb
  · simp only
    cases o.block_ <;> rfl

theorem weakMoveAssign_blocks (h : Heap) (x o : WeakPtr) :
    (WeakPtr.moveAssign h x o).2.1.block_ = o.block_ ∧
    (WeakPtr.moveAssign h x o).2.2.block_
      = if x.block_ = o.block_ then o.block_ else none := by
  unfold WeakPtr.moveAssign
  by_cases hsame : x.block_ = o.block_
  · simp only [hsame, if_true]; exact ⟨trivial, trivial⟩
  · simp only [hsame, if_false]; exact ⟨trivial, trivial⟩

/-! ## Lists of handles -/

/-- Overwriting an entry of a list with itself leaves the list as it is. -/
theorem set_self {α : Type} (l : List α) (i : Nat) (x : α) (hi : l[i]? = some x) :
    l.set i x = l := by
  induction l generalizing i with
  | nil => rfl
  | cons y t ih =>
    cases i with
    | zero =>
      simp only [List.getElem?_cons_zero, Option.some.injEq] at hi
      rw [List.set_cons_zero, hi]
    | succ n =>
      simp only [List.getElem?_cons_succ] at hi
      rw [List.set_cons_succ, ih n hi]

/-- Swapping two entries of a list and swapping them again gives the list
back. -/
theorem set_set_swap {α : Type} (l : List α) (i j : Nat) (s o : α)
    (hi : l[i]? = some s) (hj : l[j]? = some o) :
    (((l.set i o).set j s).set i s).set j o = l := by
  apply List.ext_getElem?
  intro n
  simp only [List.getElem?_set, List.length_set]
  have hil := some_lt_length l i s hi
  have hjl := some_lt_length l j o hj
  by_cases h1 : j = n
  · subst h1
    simp [hjl, hj]
  · by_cases h2 : i = n
    · subst h2
      simp [h1, hil, hi]
    · simp [h1, h2]

/-- Writing two entries of a list in either order gives the same list when the
two writes exchange the entries. -/
theorem set_set_comm_swap {α : Type} (l : List α) (i j : Nat) (s o : α)
    (hi : l[i]? = some s) (hj : l[j]? = some o) :
    (l.set j s).set i o = (l.set i o).set j s := by
  by_cases h : i = j
  · subst h
    rw [hi] at hj
    cases hj
    rfl
  · exact List.set_comm s o l (Ne.symm h)

/-- A `SharedPtr` is determined by its two fields. -/
theorem sharedPtr_eta (a : SharedPtr) : (⟨a.block_, a.observed_⟩ : SharedPtr) = a := rfl

/-- A `WeakPtr` is determined by its two fields. -/
theorem weakPtr_eta (a : WeakPtr) : (⟨a.block_, a.observed_⟩ : WeakPtr) = a := rfl

/-! ## Copying, moving and assigning payload objects keeps the census -/

theorem objects_weakCopy (h : Heap) (x : WeakPtr) : (WeakPtr.copy h x).1.objects = h.objects := by
  unfold WeakPtr.copy; split <;> simp

theorem objects_ofShared (h : Heap) (s : SharedPtr) :
    (WeakPtr.ofShared h s).1.objects = h.objects := by
  unfold WeakPtr.ofShared; split <;> simp

theorem objects_WeakFromThis (h : Heap) (p : Option Nat) :
    (WeakFromThis h p).1.objects = h.objects := by
  unfold WeakFromThis; split <;> exact objects_weakCopy h _

theorem objects_weakAssign (h : Heap) (x o : WeakPtr) :
    (WeakPtr.assign h x o).1.objects = h.objects := by
  unfold WeakPtr.assign
  split
  · rfl
  · have h1 : (match x.block_ with
        | some b => DecCounter h b true
        | none => h).objects = h.objects := by
      split
      · exact objects_DecCounter_weak h _
      · rfl
    dsimp only
    split
    · rw [objects_IncCounter]; exact h1
    · exact h1

theorem setWeak_comm (h : Heap) (b n : Nat) (objs : List (Option WeakPtr)) :
    ({ h with objects := objs } : Heap).setWeak b n = { h.setWeak b n with objects := objs } := by
  unfold Heap.setWeak
  rw [update_comm]

theorem IncCounter_weak_comm (h : Heap) (b : Nat) (objs : List (Option WeakPtr)) :
    IncCounter { h with objects := objs } b true
      = { IncCounter h b true with objects := objs } := by
  unfold IncCounter
  simp only [if_true, useCounter_comm]
  have h2 : ({ h.useCounter b with objects := objs } : Heap).weak b
      = (h.useCounter b).weak b := rfl
  rw [h2, setWeak_comm]

theorem DecCounter_weak_comm (h : Heap) (b : Nat) (objs : List (Option WeakPtr)) :
    DecCounter { h with objects := objs } b true
      = { DecCounter h b true with objects := objs } := by
  unfold DecCounter
  simp only [if_true]
  exact DecCounterWeak_comm h b objs

theorem weakAssign_comm (h : Heap) (objs : List (Option WeakPtr)) (x o : WeakPtr) :
    (WeakPtr.assign { h with objects := objs } x o).1
      = { (WeakPtr.assign h x o).1 with objects := objs } := by
  unfold WeakPtr.assign
  by_cases hsame : x.block_ = o.block_
  · rw [if_pos hsame, if_pos hsame]
  · rw [if_neg hsame, if_neg hsame]
    cases x.block_ with
    | none =>
      cases o.block_ with
      | none => rfl
      | some c => exact IncCounter_weak_comm h c objs
    | some b =>
      cases o.block_ with
      | none => exact DecCounter_weak_comm h b objs
      | some c =>
        dsimp only
        rw [DecCounter_weak_comm, IncCounter_weak_comm]

theorem weakMoveAssign_comm (h : Heap) (objs : List (Option WeakPtr)) (x o : WeakPtr) :
    (WeakPtr.moveAssign { h with objects := objs } x o).1
      = { (WeakPtr.moveAssign h x o).1 with objects := objs } := by
  unfold WeakPtr.moveAssign
  by_cases hsame : x.block_ = o.block_
  · rw [if_pos hsame, if_pos hsame]
  · rw [if_neg hsame, if_neg hsame]
    cases x.block_ with
    | none => rfl
    | some b => exact DecCounter_weak_comm h b objs

theorem weakMoveAssign_snd (h : Heap) (x o : WeakPtr) :
    (WeakPtr.moveAssign h x o).2
      = if x.block_ = o.block_ then (x, o) else (⟨o.block_, o.observed_⟩, ⟨none, none⟩) := by
  unfold WeakPtr.moveAssign
  split <;> rfl

theorem objects_weakMoveAssign (h : Heap) (x o : WeakPtr) :
    (WeakPtr.moveAssign h x o).1.objects = h.objects := by
  unfold WeakPtr.moveAssign
  split
  · rfl
  · dsimp only
    split
    · exact objects_DecCounter_weak h _
    · rfl

theorem live_DecCounterWeak_ne (h : Heap) (b c : Nat) (hne : c ≠ b) :
    (DecCounterWeak h b).live c = h.live c := by
  unfold DecCounterWeak releaseIfUnused
  dsimp only
  split
  · rw [live_releaseBlock, if_neg hne]
    simp
  · simp

theorem good_weakAssign_live {h : Heap} {cs cw cw1 : Nat → Nat} (hg : h.Good cs cw)
    (x o : WeakPtr)
    (hcw : ∀ c, cw c + ind o.block_ c = cw1 c + ind x.block_ c)
    (hle : ∀ c, ind x.block_ c ≤ cw c)
    (hlive : ∀ b, o.block_ = some b → h.live b = true)
    (hlim : ∀ b, cw1 b + h.slotRefs b < SIZE_MOD) :
    (WeakPtr.assign h x o).1.Good cs cw1 := by
  unfold WeakPtr.assign
  by_cases hsame : x.block_ = o.block_
  · simp only [hsame, if_true]
    exact good_congr hg (fun _ => rfl) (fun c => by have := hcw c; rw [← hsame] at this; omega)
  · simp only [hsame, if_false]
    have g1 : (match x.block_ with
        | some b => DecCounter h b true
        | none => h).Good cs (fun c => cw c - ind x.block_ c) :=
      good_dropWeak hg x.block_ (fun c => by have := hle c; show cw c = cw c - _ + _; omega)
    have hobj : (match x.block_ with
        | some b => DecCounter h b true
        | none => h).objects = h.objects := by
      split
      · exact objects_DecCounter_weak h _
      · rfl
    have hp : ∀ b, o.block_ = some b → (match x.block_ with
        | some b => DecCounter h b true
        | none => h).live b = true := by
      intro b hb2
      rcases Option.eq_none_or_eq_some x.block_ with hx | ⟨c, hx⟩
      · rw [hx]
        exact hlive b hb2
      · rw [hx]
        dsimp only
        have hne : b ≠ c := by
          intro e
          apply hsame
          rw [hx, hb2, e]
        unfold DecCounter
        simp only [if_true]
        rw [live_DecCounterWeak_ne h c b hne]
        exact hlive b hb2
    have hc : ∀ c, cw1 c = cw c - ind x.block_ c + ind o.block_ c := by
      intro c
      have h1 := hcw c
      have h2 := hle c
      omega
    have key := good_addWeak g1 o.block_ hp hc
      (fun b => by rw [slotRefs_of_objects h _ b hobj]; exact hlim b)
    cases ho : o.block_ with
    | none => rw [ho] at key; exact key
    | some b => rw [ho] at key; exact key

/-! The results of the payload operations, by case. -/

theorem copyObject_some (h : Heap) (p : Option Nat) (w : WeakPtr) (hs : h.slot p = some w) :
    copyObject h p = ({ (WeakPtr.copy h w).1 with
      objects := h.objects ++ [some (WeakPtr.copy h w).2] }, h.objects.length) := by
  unfold copyObject
  rw [hs]
  dsimp only
  rw [objects_weakCopy]

theorem copyObject_none (h : Heap) (p : Option Nat) (hs : h.slot p = none) :
    copyObject h p = ({ h with objects := h.objects ++ [none] }, h.objects.length) := by
  unfold copyObject
  rw [hs]

theorem slot_none_ptr (h : Heap) : h.slot none = none := rfl

theorem moveObject_some (h : Heap) (a : Nat) (w : WeakPtr) (hs : h.slot (some a) = some w) :
    moveObject h (some a) = ({ h with
      objects := h.objects.set a (some ⟨none, none⟩) ++ [some w] }, h.objects.length) := by
  unfold moveObject
  rw [hs]
  cases w
  rfl

theorem moveObject_none (h : Heap) (p : Option Nat) (hs : h.slot p = none) :
    moveObject h p = ({ h with objects := h.objects ++ [none] }, h.objects.length) := by
  unfold moveObject
  rw [hs]
  cases p <;> rfl

theorem assignObject_some (h : Heap) (a : Nat) (q : Option Nat) (x o : WeakPtr)
    (hx : h.slot (some a) = some x) (ho : h.slot q = some o) :
    assignObject h (some a) q = { (WeakPtr.assign h x o).1 with
      objects := h.objects.set a (some (WeakPtr.assign h x o).2) } := by
  unfold assignObject
  rw [hx, ho]
  dsimp only
  rw [objects_weakAssign]

theorem assignObject_none (h : Heap) (p q : Option Nat)
    (hs : h.slot p = none ∨ h.slot q = none) : assignObject h p q = h := by
  unfold assignObject
  cases p with
  | none => rfl
  | some a =>
    rcases hs with hs | hs
    · rw [hs]
    · rw [hs]
      cases h.slot (some a) <;> rfl

theorem moveAssignObject_some (h : Heap) (a c : Nat) (x o : WeakPtr)
    (hx : h.slot (some a) = some x) (ho : h.slot (some c) = some o) :
    moveAssignObject h (some a) (some c) = { (WeakPtr.moveAssign h x o).1 with
      objects := (h.objects.set a (some (WeakPtr.moveAssign h x o).2.1)).set c
        (some (WeakPtr.moveAssign h x o).2.2) } := by
  unfold moveAssignObject
  rw [hx, ho]
  dsimp only
  rw [objects_weakMoveAssign]

theorem moveAssignObject_none (h : Heap) (p q : Option Nat)
    (hs : h.slot p = none ∨ h.slot q = none) : moveAssignObject h p q = h := by
  unfold moveAssignObject
  cases p with
  | none => rfl
  | some a =>
    cases q with
    | none => rfl
    | some c =>
      rcases hs with hs | hs
      · rw [hs]
      · rw [hs]
        cases h.slot (some a) <;> rfl

/-! ## The payload operations keep the census -/

theorem refs_objects_append (l : List (Option WeakPtr)) (v : Option WeakPtr) (c : Nat) :
    refs ((l ++ [v]).map slotBlock) c = refs (l.map slotBlock) c + ind (slotBlock v) c := by
  rw [List.map_append, List.map_singleton, refs_append_one]

theorem weakCopy_block (h : Heap) (x : WeakPtr) : (WeakPtr.copy h x).2.block_ = x.block_ := by
  unfold WeakPtr.copy
  split <;> rfl

theorem good_copyObject {h : Heap} {cs cw : Nat → Nat} (hg : h.Good cs cw) (p : Option Nat)
    (hlim : ∀ b, cw b + (copyObject h p).1.slotRefs b < SIZE_MOD) :
    (copyObject h p).1.Good cs cw := by
  rcases Option.eq_none_or_eq_some (h.slot p) with hs | ⟨w, hs⟩
  · rw [copyObject_none h p hs]
    dsimp only
    refine good_objects hg _ (fun c => ?_)
    rw [refs_objects_append]
    rfl
  · rw [copyObject_some h p w hs] at hlim ⊢
    dsimp only at hlim ⊢
    have e : ∀ b, ({ (WeakPtr.copy h w).1 with
        objects := h.objects ++ [some (WeakPtr.copy h w).2] } : Heap).slotRefs b
          = h.slotRefs b + ind (WeakPtr.copy h w).2.block_ b :=
      fun b => refs_objects_append h.objects _ b
    have g1 : (WeakPtr.copy h w).1.Good cs
        (fun c => cw c + ind (WeakPtr.copy h w).2.block_ c) := by
      refine good_weakCopy hg w (fun b hb2 => slot_block_live hg p w hs b hb2)
        (fun c => rfl) (fun b => ?_)
      have := hlim b
      rw [e b] at this
      omega
    refine good_objects g1 _ (fun c => ?_)
    have e2 := refs_objects_append h.objects (some (WeakPtr.copy h w).2) c
    rw [slotRefs_of_objects h _ c (objects_weakCopy h w)]
    have e3 : slotBlock (some (WeakPtr.copy h w).2) = (WeakPtr.copy h w).2.block_ := rfl
    rw [e3] at e2
    have e4 : h.slotRefs c = refs (h.objects.map slotBlock) c := rfl
    omega

theorem good_moveObject {h : Heap} {cs cw : Nat → Nat} (hg : h.Good cs cw) (p : Option Nat) :
    (moveObject h p).1.Good cs cw := by
  rcases Option.eq_none_or_eq_some (h.slot p) with hs | ⟨w, hs⟩
  · rw [moveObject_none h p hs]
    dsimp only
    refine good_objects hg _ (fun c => ?_)
    rw [refs_objects_append]
    rfl
  · cases p with
    | none => exact absurd hs (by simp [Heap.slot])
    | some a =>
      rw [moveObject_some h a w hs]
      dsimp only
      refine good_objects hg _ (fun c => ?_)
      have e1 := refs_objects_append (h.objects.set a (some ⟨none, none⟩)) (some w) c
      have e2 := slotRefs_set h a w (some ⟨none, none⟩) c (slot_some h a w hs)
      have e3 : slotBlock (some w) = w.block_ := rfl
      have e4 : ind (slotBlock (some (⟨none, none⟩ : WeakPtr))) c = 0 := rfl
      rw [e3] at e1
      rw [e4] at e2
      omega

theorem good_assignObject {h : Heap} {cs cw : Nat → Nat} (hg : h.Good cs cw)
    (p q : Option Nat) (hlim : ∀ b, cw b + (assignObject h p q).slotRefs b < SIZE_MOD) :
    (assignObject h p q).Good cs cw := by
  rcases Option.eq_none_or_eq_some (h.slot p) with hx | ⟨x, hx⟩
  · rw [assignObject_none h p q (Or.inl hx)]
    exact hg
  rcases Option.eq_none_or_eq_some (h.slot q) with ho | ⟨o, ho⟩
  · rw [assignObject_none h p q (Or.inr ho)]
    exact hg
  cases p with
  | none => exact absurd hx (by simp [Heap.slot])
  | some a =>
    rw [assignObject_some h a q x o hx ho] at hlim ⊢
    have ha := slot_some h a x hx
    have hblk := weakAssign_block h x o
    have g0 : ({ h with objects := h.objects.set a none } : Heap).Good cs
        (fun c => cw c + ind x.block_ c) := by
      refine good_objects hg _ (fun c => ?_)
      have e2 := slotRefs_set h a x none c ha
      have e4 : ind (slotBlock (none : Option WeakPtr)) c = 0 := rfl
      rw [e4] at e2
      omega
    have g1 : (WeakPtr.assign { h with objects := h.objects.set a none } x o).1.Good cs
        (fun c => cw c + ind o.block_ c) := by
      refine good_weakAssign_live g0 x o (fun c => ?_) (fun c => ?_) (fun b hb => ?_)
        (fun b => ?_)
      · dsimp only
        omega
      · dsimp only
        omega
      · exact slot_block_live hg q o ho b hb
      · have l1 := hlim b
        have e1 : ({ (WeakPtr.assign h x o).1 with
            objects := h.objects.set a (some (WeakPtr.assign h x o).2) } : Heap).slotRefs b
              = refs ((h.objects.set a (some (WeakPtr.assign h x o).2)).map slotBlock) b := rfl
        have e2 := slotRefs_set h a x (some (WeakPtr.assign h x o).2) b ha
        have e3 : slotBlock (some (WeakPtr.assign h x o).2) = o.block_ := hblk
        have e5 := slotRefs_set h a x none b ha
        have e4 : ind (slotBlock (none : Option WeakPtr)) b = 0 := rfl
        have e6 : ({ h with objects := h.objects.set a none } : Heap).slotRefs b
            = refs ((h.objects.set a none).map slotBlock) b := rfl
        rw [e1] at l1
        rw [e3] at e2
        rw [e4] at e5
        rw [e6]
        omega
    rw [weakAssign_comm] at g1
    have g2 := @good_objects _ _ _ cw g1 (h.objects.set a (some (WeakPtr.assign h x o).2))
      (fun c => by
        have e2 := slotRefs_set h a x (some (WeakPtr.assign h x o).2) c ha
        have e3 : slotBlock (some (WeakPtr.assign h x o).2) = o.block_ := hblk
        have e5 := slotRefs_set h a x none c ha
        have e4 : ind (slotBlock (none : Option WeakPtr)) c = 0 := rfl
        have e6 : ({ (WeakPtr.assign h x o).1 with
            objects := h.objects.set a none } : Heap).slotRefs c
            = refs ((h.objects.set a none).map slotBlock) c := rfl
        rw [e3] at e2
        rw [e4] at e5
        rw [e6]
        omega)
    exact g2

theorem good_deleteObject {h : Heap} {cs cw : Nat → Nat} (hg : h.Good cs cw) (p : Option Nat) :
    (destroyObject h p).Good cs cw :=
  good_of_frame hg (inv_destroyObject hg.1 p) (frame_destroyObject h p)

theorem refs_objects_set (l : List (Option WeakPtr)) (a : Nat) (w : WeakPtr)
    (v : Option WeakPtr) (c : Nat) (ha : l[a]? = some (some w)) :
    refs ((l.set a v).map slotBlock) c + ind w.block_ c
      = refs (l.map slotBlock) c + ind (slotBlock v) c := by
  rw [List.map_set]
  exact refs_set (l.map slotBlock) a w.block_ (slotBlock v) c
    (by rw [List.getElem?_map, ha]; rfl)

theorem good_moveAssignObject {h : Heap} {cs cw : Nat → Nat} (hg : h.Good cs cw)
    (p q : Option Nat) : (moveAssignObject h p q).Good cs cw := by
  rcases Option.eq_none_or_eq_some (h.slot p) with hx | ⟨x, hx⟩
  · rw [moveAssignObject_none h p q (Or.inl hx)]
    exact hg
  rcases Option.eq_none_or_eq_some (h.slot q) with ho | ⟨o, ho⟩
  · rw [moveAssignObject_none h p q (Or.inr ho)]
    exact hg
  cases p with
  | none => exact absurd hx (by simp [Heap.slot])
  | some a =>
    cases q with
    | none => exact absurd ho (by simp [Heap.slot])
    | some d =>
      rw [moveAssignObject_some h a d x o hx ho]
      have ha := slot_some h a x hx
      have hd := slot_some h d o ho
      by_cases hsame : x.block_ = o.block_
      · have e : WeakPtr.moveAssign h x o = (h, x, o) := by
          unfold WeakPtr.moveAssign
          rw [if_pos hsame]
        rw [e]
        dsimp only
        rw [set_self h.objects a (some x) ha, set_self h.objects d (some o) hd]
        exact hg
      · have had : a ≠ d := by
          intro e
          subst e
          rw [ha] at hd
          have e1 := Option.some.inj (Option.some.inj hd)
          exact hsame (by rw [e1])
        have e2 : (WeakPtr.moveAssign h x o).2
            = (⟨o.block_, o.observed_⟩, ⟨none, none⟩) := by
          rw [weakMoveAssign_snd, if_neg hsame]
        rw [e2]
        dsimp only
        have g0 : ({ h with objects := h.objects.set a none } : Heap).Good cs
            (fun c => cw c + ind x.block_ c) := by
          refine good_objects hg _ (fun c => ?_)
          have e2 := slotRefs_set h a x none c ha
          have e4 : ind (slotBlock (none : Option WeakPtr)) c = 0 := rfl
          rw [e4] at e2
          omega
        have g1 : (WeakPtr.moveAssign { h with objects := h.objects.set a none } x o).1.Good cs
            cw := good_weakMoveAssign g0 x o (fun c => by rw [if_neg hsame])
        rw [weakMoveAssign_comm] at g1
        have hd1 : (h.objects.set a (some ⟨o.block_, o.observed_⟩))[d]? = some (some o) := by
          rw [List.getElem?_set_ne had]
          exact hd
        have g2 := @good_objects _ _ _ cw g1
          ((h.objects.set a (some ⟨o.block_, o.observed_⟩)).set d (some ⟨none, none⟩))
          (fun c => by
            have e3 := refs_objects_set (h.objects.set a (some ⟨o.block_, o.observed_⟩)) d o
              (some ⟨none, none⟩) c hd1
            have e4 := refs_objects_set h.objects a x (some ⟨o.block_, o.observed_⟩) c ha
            have e5 := refs_objects_set h.objects a x none c ha
            have e6 : ind (slotBlock (none : Option WeakPtr)) c = 0 := rfl
            have e7 : ind (slotBlock (some (⟨none, none⟩ : WeakPtr))) c = 0 := rfl
            have e8 : slotBlock (some (⟨o.block_, o.observed_⟩ : WeakPtr)) = o.block_ := rfl
            have e9 : ({ (WeakPtr.moveAssign h x o).1 with
                objects := h.objects.set a none } : Heap).slotRefs c
                = refs ((h.objects.set a none).map slotBlock) c := rfl
            rw [e7] at e3
            rw [e8] at e4
            rw [e6] at e5
            rw [e9]
            omega)
        exact g2

/-! `MakeShared` with a payload copy-constructed from another object. -/

theorem countP_set_some (l : List (Option WeakPtr)) (a : Nat) (w v : WeakPtr)
    (ha : l[a]? = some (some w)) :
    (l.set a (some v)).countP Option.isSome = l.countP Option.isSome := by
  induction l generalizing a with
  | nil => simp at ha
  | cons x l ih =>
    cases a with
    | zero =>
      simp only [List.getElem?_cons_zero, Option.some.injEq] at ha
      subst ha
      simp only [List.set_cons_zero, List.countP_cons]
      simp
    | succ a =>
      simp only [List.getElem?_cons_succ] at ha
      simp only [List.set_cons_succ, List.countP_cons]
      rw [ih a ha]

theorem objects_weakDtor (h : Heap) (w : WeakPtr) : (WeakPtr.dtor h w).objects = h.objects := by
  unfold WeakPtr.dtor
  split
  · exact DecCounterWeak_objects h _
  · rfl

theorem slots_InitWeakThis (h : Heap) (this : SharedPtr) (e : Option Nat) :
    (SharedPtr.InitWeakThis h this e).objects.countP Option.isSome
      = h.objects.countP Option.isSome := by
  unfold SharedPtr.InitWeakThis
  dsimp only
  split
  · rename_i a w hs
    rw [objects_weakDtor]
    dsimp only
    rw [objects_weakMoveAssign, objects_ofShared]
    have hs1 : h.slot (some a) = some w := by
      rw [← slot_of_objects h _ (some a) (objects_ofShared h this)]
      exact hs
    exact countP_set_some h.objects a w _ (slot_some h a w hs1)
  · rw [objects_weakDtor]
    show (WeakPtr.ofShared h this).1.objects.countP Option.isSome = _
    rw [objects_ofShared]

theorem length_weakCopy (h : Heap) (w : WeakPtr) :
    (WeakPtr.copy h w).1.blocks.length = h.blocks.length := by
  unfold WeakPtr.copy
  split
  · unfold IncCounter
    simp
  · rfl

theorem length_copyObject (h : Heap) (p : Option Nat) :
    (copyObject h p).1.blocks.length = h.blocks.length := by
  rcases Option.eq_none_or_eq_some (h.slot p) with hs | ⟨w, hs⟩
  · rw [copyObject_none h p hs]
  · rw [copyObject_some h p w hs]
    exact length_weakCopy h w

theorem MakeSharedFrom_block (h : Heap) (p : Option Nat) (esft : Bool) :
    (MakeSharedFrom h p esft).2.block_ = some h.blocks.length := by
  have e : (MakeSharedFrom h p esft).2.block_ = some (copyObject h p).1.blocks.length := by
    unfold MakeSharedFrom
    cases esft <;> rfl
  rw [e, length_copyObject]

theorem slots_MakeSharedFrom (h : Heap) (p : Option Nat) (esft : Bool) :
    (MakeSharedFrom h p esft).1.objects.countP Option.isSome
      = (copyObject h p).1.objects.countP Option.isSome := by
  unfold MakeSharedFrom
  cases esft with
  | false => rfl
  | true =>
    dsimp only
    rw [if_pos rfl]
    dsimp only
    rw [slots_InitWeakThis]
    rfl

theorem good_MakeSharedFrom {h : Heap} {cs cs1 cw : Nat → Nat} (hg : h.Good cs cw)
    (p : Option Nat) (esft : Bool)
    (hcs : ∀ c, cs1 c = cs c + ind (MakeSharedFrom h p esft).2.block_ c)
    (hlim : ∀ b, cw b + (copyObject h p).1.slotRefs b < SIZE_MOD) :
    (MakeSharedFrom h p esft).1.Good cs1 cw := by
  rw [MakeSharedFrom_block] at hcs
  have hlen := length_copyObject h p
  have g0 := good_copyObject hg p hlim
  have g1 : ((copyObject h p).1.newBlock (some (copyObject h p).2) true).1.Good cs1 cw :=
    good_newBlock g0 _ true (fun c => by rw [hcs c, ind_some, hlen])
  have hd := g0.1.dead _ (live_false_of_not_lt (copyObject h p).1
    (copyObject h p).1.blocks.length (by omega))
  unfold MakeSharedFrom
  cases esft with
  | false => exact g1
  | true =>
    dsimp only
    rw [if_pos rfl]
    dsimp only
    refine good_InitWeakThis g1 _ _ rfl (live_newBlock _ _ true) ?_
    show cw (copyObject h p).1.blocks.length
      + (copyObject h p).1.slotRefs (copyObject h p).1.blocks.length + 1 < SIZE_MOD
    rw [hd.2.1, hd.2.2, SIZE_MOD_eq]
    omega

/-! ## Every operation of a program keeps the invariant -/

theorem World.Inv.good {w : World} (hw : w.Inv) :
    w.heap.Good w.sharedRefs w.weakRefs := ⟨hw.heap, hw.once⟩

theorem World.sharedRefs_le (w : World) (c : Nat) : w.sharedRefs c ≤ w.shared.length :=
  refs_map_le _ _ c

theorem World.weakRefs_le (w : World) (c : Nat) : w.weakRefs c ≤ w.weak.length :=
  refs_map_le _ _ c

theorem World.strong_lim (w : World) (hsz : w.size < SIZE_MOD) (c : Nat) :
    w.sharedRefs c < SIZE_MOD := by
  have := w.sharedRefs_le c
  unfold World.size at hsz
  omega

theorem World.weak_lim (w : World) (hsz : w.size < SIZE_MOD) (c : Nat) :
    w.weakRefs c + w.heap.slotRefs c < SIZE_MOD := by
  have h1 := w.weakRefs_le c
  have h2 := slotRefs_le w.heap c
  unfold World.size at hsz
  omega

theorem World.release_lim (w : World) (hsz : w.size < SIZE_MOD) (i : Nat) (s : SharedPtr)
    (hs : w.shared[i]? = some s) (c : Nat) :
    w.weakRefs c + w.heap.slotRefs c + 1 < SIZE_MOD := by
  have h1 := w.weakRefs_le c
  have h2 := slotRefs_le w.heap c
  have h3 := some_lt_length _ _ _ hs
  unfold World.size at hsz
  omega

theorem World.shared_pos (w : World) (i : Nat) (s : SharedPtr) (hs : w.shared[i]? = some s)
    (b : Nat) (hb : s.block_ = some b) : 0 < w.sharedRefs b :=
  refs_map_pos SharedPtr.block_ w.shared i s b hs hb

theorem World.weak_pos (w : World) (i : Nat) (x : WeakPtr) (hs : w.weak[i]? = some x)
    (b : Nat) (hb : x.block_ = some b) : 0 < w.weakRefs b :=
  refs_map_pos WeakPtr.block_ w.weak i x b hs hb

theorem World.shared_ind_le (w : World) (i : Nat) (s : SharedPtr)
    (hs : w.shared[i]? = some s) (c : Nat) : ind s.block_ c ≤ w.sharedRefs c := by
  have := refs_map_eraseIdx SharedPtr.block_ w.shared i s c hs
  unfold World.sharedRefs
  omega

theorem World.weak_ind_le (w : World) (i : Nat) (x : WeakPtr)
    (hs : w.weak[i]? = some x) (c : Nat) : ind x.block_ c ≤ w.weakRefs c := by
  have := refs_map_eraseIdx WeakPtr.block_ w.weak i x c hs
  unfold World.weakRefs
  omega

theorem World.shared_block_live {w : World} (hw : w.Inv) (i : Nat) (s : SharedPtr)
    (hs : w.shared[i]? = some s) (b : Nat) (hb : s.block_ = some b) :
    w.heap.live b = true :=
  hw.heap.live_of_strong b (w.shared_pos i s hs b hb)

theorem World.weak_block_live {w : World} (hw : w.Inv) (i : Nat) (x : WeakPtr)
    (hs : w.weak[i]? = some x) (b : Nat) (hb : x.block_ = some b) :
    w.heap.live b = true :=
  hw.heap.live_of_weak b (w.weak_pos i x hs b hb)

theorem refs_map_set2 {α : Type} (f : α → Option Nat) (l : List α) (i j : Nat)
    (x y a b : α) (c : Nat) (hi : l[i]? = some x) (hj : l[j]? = some y) :
    refs (((l.set i a).set j b).map f) c + ind (f x) c + ind (f (if i = j then a else y)) c
      = refs (l.map f) c + ind (f a) c + ind (f b) c := by
  have h1 := refs_map_set f l i x a c hi
  have hlt := some_lt_length l i x hi
  have hj2 : (l.set i a)[j]? = some (if i = j then a else y) := by
    rw [List.getElem?_set]
    by_cases hij : i = j
    · rw [if_pos hij, if_pos hij, if_pos hlt]
    · rw [if_neg hij, if_neg hij, hj]
  have h2 := refs_map_set f (l.set i a) j _ b c hj2
  omega

theorem good_exec_shared (w w1 : World) (hw : w.Inv) (op : Op)
    (he : w.exec op = some w1) (hsz : w1.size < SIZE_MOD) :
    w1.heap.Good w1.sharedRefs w1.weakRefs := by
  have hl1 := w1.strong_lim hsz
  cases op with
  | newObject esft =>
    simp only [World.exec] at he
    injection he with he
    subst he
    unfold newObject
    refine good_objects hw.good _ ?_
    intro c
    rw [List.map_append, List.map_singleton, refs_append_one]
    have : slotBlock (if esft = true then some WeakPtr.empty else none) = none := by
      cases esft <;> rfl
    rw [this, ind_none]
    rfl
  | emptyShared =>
    simp only [World.exec] at he
    injection he with he
    subst he
    refine good_congr hw.good (fun c => ?_) (fun _ => rfl)
    exact refs_map_append SharedPtr.block_ w.shared SharedPtr.empty c
  | ofPtr ptr esft =>
    simp only [World.exec] at he
    injection he with he
    subst he
    exact good_ofPtr hw.good ptr esft
      (fun c => refs_map_append SharedPtr.block_ w.shared _ c)
  | makeShared esft =>
    simp only [World.exec] at he
    injection he with he
    subst he
    exact good_MakeShared hw.good esft
      (fun c => refs_map_append SharedPtr.block_ w.shared _ c)
  | copy i =>
    simp only [World.exec] at he
    split at he
    · rename_i s hs
      injection he with he
      subst he
      exact good_copy hw.good s (w.shared_pos i s hs)
        (fun c => refs_map_append SharedPtr.block_ w.shared _ c) hl1
    · exact absurd he (by simp)
  | aliasing i ptr =>
    simp only [World.exec] at he
    split at he
    · rename_i s hs
      injection he with he
      subst he
      exact good_alias hw.good s ptr (w.shared_pos i s hs)
        (fun c => refs_map_append SharedPtr.block_ w.shared _ c) hl1
    · exact absurd he (by simp)
  | move i =>
    simp only [World.exec] at he
    split at he
    · rename_i s hs
      injection he with he
      subst he
      refine good_congr hw.good (fun c => ?_) (fun _ => rfl)
      have h1 := refs_map_append SharedPtr.block_ (w.shared.set i (SharedPtr.move s).2)
        (SharedPtr.move s).1 c
      have h2 := refs_map_set SharedPtr.block_ w.shared i s (SharedPtr.move s).2 c hs
      have h3 : ind (SharedPtr.move s).2.block_ c = 0 := rfl
      have h4 : (SharedPtr.move s).1.block_ = s.block_ := rfl
      rw [h4] at h1
      dsimp only [World.sharedRefs]
      omega
    · exact absurd he (by simp)
  | promote k =>
    simp only [World.exec] at he
    split at he
    · rename_i x hx
      split at he
      · rename_i r hr
        injection he with he
        subst he
        exact good_promote hw.good x r hr (w.weak_block_live hw k x hx)
          (fun c => refs_map_append SharedPtr.block_ w.shared _ c) hl1
      · injection he with he
        subst he
        exact hw.good
    · exact absurd he (by simp)
  | lock k =>
    simp only [World.exec] at he
    split at he
    · rename_i x hx
      split at he
      · rename_i r hr
        injection he with he
        subst he
        exact good_Lock hw.good x r hr (w.weak_block_live hw k x hx)
          (fun c => refs_map_append SharedPtr.block_ w.shared _ c) hl1
      · injection he with he
        subst he
        exact hw.good
    · exact absurd he (by simp)
  | sharedFromThis p =>
    simp only [World.exec] at he
    split at he
    · rename_i r hr
      injection he with he
      subst he
      exact good_SharedFromThis hw.good p r hr
        (fun c => refs_map_append SharedPtr.block_ w.shared _ c) hl1
    · injection he with he
      subst he
      exact hw.good
  | assign i j =>
    simp only [World.exec] at he
    split at he
    · rename_i s o hs ho
      injection he with he
      subst he
      refine good_assign hw.good s o (fun c => ?_) (w.shared_ind_le i s hs)
        (w.shared_pos j o ho) hl1
      have h2 := refs_map_set SharedPtr.block_ w.shared i s (SharedPtr.assign w.heap s o).2 c hs
      rw [assign_block] at h2
      dsimp only [World.sharedRefs]
      omega
    · exact absurd he (by simp)
  | dtor i =>
    simp only [World.exec] at he
    split at he
    · rename_i s hs
      injection he with he
      subst he
      refine good_dtor hw.good s (fun c => ?_) (w.release_lim hw.size i s hs)
      have h2 := refs_map_eraseIdx SharedPtr.block_ w.shared i s c hs
      dsimp only [World.sharedRefs]
      omega
    · exact absurd he (by simp)
  | reset i =>
    simp only [World.exec] at he
    split at he
    · rename_i s hs
      injection he with he
      subst he
      refine good_Reset hw.good s (fun c => ?_) (w.release_lim hw.size i s hs)
      have h2 := refs_map_set SharedPtr.block_ w.shared i s (SharedPtr.Reset w.heap s).2 c hs
      rw [Reset_block, ind_none] at h2
      dsimp only [World.sharedRefs]
      omega
    · exact absurd he (by simp)
  | resetPtr i ptr =>
    simp only [World.exec] at he
    split at he
    · rename_i s hs
      injection he with he
      subst he
      refine good_ResetPtr hw.good s ptr (fun c => ?_) (w.shared_ind_le i s hs)
        (w.release_lim hw.size i s hs)
      have h2 := refs_map_set SharedPtr.block_ w.shared i s
        (SharedPtr.ResetPtr w.heap s ptr).2 c hs
      dsimp only [World.sharedRefs]
      omega
    · exact absurd he (by simp)
  | moveAssign i j =>
    simp only [World.exec] at he
    split at he
    · rename_i s o hs ho
      injection he with he
      subst he
      refine good_moveAssign hw.good s o (fun c => ?_)
      have h2 := refs_map_set2 SharedPtr.block_ w.shared i j s o
        (SharedPtr.moveAssign w.heap s o).2.1 (SharedPtr.moveAssign w.heap s o).2.2 c hs ho
      have hb := moveAssign_blocks w.heap s o
      have h3 : (if i = j then (SharedPtr.moveAssign w.heap s o).2.1 else o).block_
          = o.block_ := by
        split
        · exact hb.1
        · rfl
      rw [h3, hb.1, hb.2] at h2
      dsimp only [World.sharedRefs]
      by_cases hsame : s.block_ = o.block_
      · simp only [hsame, if_true] at h2 ⊢
        omega
      · simp only [hsame, if_false, ind_none] at h2 ⊢
        omega
    · exact absurd he (by simp)
  | swap i j =>
    simp only [World.exec] at he
    split at he
    · rename_i s o hs ho
      injection he with he
      subst he
      refine good_congr hw.good (fun c => ?_) (fun _ => rfl)
      have h2 := refs_map_set2 SharedPtr.block_ w.shared i j s o
        (SharedPtr.Swap s o).1 (SharedPtr.Swap s o).2 c hs ho
      have h3 : (if i = j then (SharedPtr.Swap s o).1 else o).block_ = o.block_ := by
        split <;> rfl
      have h4 : (SharedPtr.Swap s o).1.block_ = o.block_ := rfl
      have h5 : (SharedPtr.Swap s o).2.block_ = s.block_ := rfl
      rw [h3, h4, h5] at h2
      dsimp only [World.sharedRefs]
      omega
    · exact absurd he (by simp)
  | weakFromThis p =>
    simp only [World.exec] at he
    injection he with he
    subst he
    refine good_WeakFromThis hw.good p
      (fun c => refs_map_append WeakPtr.block_ w.weak _ c) (fun b => ?_)
    have := World.weak_lim _ hsz b
    rw [slotRefs_of_objects w.heap _ b (objects_WeakFromThis w.heap p)] at this
    exact this
  | emptyWeak =>
    simp only [World.exec] at he
    injection he with he
    subst he
    refine good_congr hw.good (fun _ => rfl) (fun c => ?_)
    exact refs_map_append WeakPtr.block_ w.weak WeakPtr.empty c
  | demote i =>
    simp only [World.exec] at he
    split at he
    · rename_i s hs
      injection he with he
      subst he
      refine good_ofShared hw.good s (w.shared_block_live hw i s hs)
        (fun c => refs_map_append WeakPtr.block_ w.weak _ c) (fun b => ?_)
      have := World.weak_lim _ hsz b
      rw [slotRefs_of_objects w.heap _ b (objects_ofShared w.heap s)] at this
      exact this
    · exact absurd he (by simp)
  | weakCopy k =>
    simp only [World.exec] at he
    split at he
    · rename_i x hx
      injection he with he
      subst he
      refine good_weakCopy hw.good x (w.weak_block_live hw k x hx)
        (fun c => refs_map_append WeakPtr.block_ w.weak _ c) (fun b => ?_)
      have := World.weak_lim _ hsz b
      rw [slotRefs_of_objects w.heap _ b (objects_weakCopy w.heap x)] at this
      exact this
    · exact absurd he (by simp)
  | weakMove k =>
    simp only [World.exec] at he
    split at he
    · rename_i x hx
      injection he with he
      subst he
      refine good_congr hw.good (fun _ => rfl) (fun c => ?_)
      have h1 := refs_map_append WeakPtr.block_ (w.weak.set k (WeakPtr.move x).2)
        (WeakPtr.move x).1 c
      have h2 := refs_map_set WeakPtr.block_ w.weak k x (WeakPtr.move x).2 c hx
      have h3 : ind (WeakPtr.move x).2.block_ c = 0 := rfl
      have h4 : (WeakPtr.move x).1.block_ = x.block_ := rfl
      rw [h4] at h1
      dsimp only [World.weakRefs]
      omega
    · exact absurd he (by simp)
  | weakAssign k l =>
    simp only [World.exec] at he
    split at he
    · rename_i x o hx ho
      injection he with he
      subst he
      refine good_weakAssign hw.good x o (fun c => ?_) (w.weak_ind_le k x hx)
        (w.weak_pos l o ho) (fun b => ?_)
      · have h2 := refs_map_set WeakPtr.block_ w.weak k x (WeakPtr.assign w.heap x o).2 c hx
        rw [weakAssign_block] at h2
        dsimp only [World.weakRefs]
        omega
      · have := World.weak_lim _ hsz b
        rw [slotRefs_of_objects w.heap _ b (objects_weakAssign w.heap x o)] at this
        exact this
    · exact absurd he (by simp)
  | weakMoveAssign k l =>
    simp only [World.exec] at he
    split at he
    · rename_i x o hx ho
      injection he with he
      subst he
      refine good_weakMoveAssign hw.good x o (fun c => ?_)
      have h2 := refs_map_set2 WeakPtr.block_ w.weak k l x o
        (WeakPtr.moveAssign w.heap x o).2.1 (WeakPtr.moveAssign w.heap x o).2.2 c hx ho
      have hb := weakMoveAssign_blocks w.heap x o
      have h3 : (if k = l then (WeakPtr.moveAssign w.heap x o).2.1 else o).block_
          = o.block_ := by
        split
        · exact hb.1
        · rfl
      rw [h3, hb.1, hb.2] at h2
      dsimp only [World.weakRefs]
      by_cases hsame : x.block_ = o.block_
      · simp only [hsame, if_true] at h2 ⊢
        omega
      · simp only [hsame, if_false, ind_none] at h2 ⊢
        omega
    · exact absurd he (by simp)
  | weakDtor k =>
    simp only [World.exec] at he
    split at he
    · rename_i x hx
      injection he with he
      subst he
      refine good_weakDtor hw.good x (fun c => ?_)
      have h2 := refs_map_eraseIdx WeakPtr.block_ w.weak k x c hx
      dsimp only [World.weakRefs]
      omega
    · exact absurd he (by simp)
  | weakReset k =>
    simp only [World.exec] at he
    split at he
    · rename_i x hx
      injection he with he
      subst he
      refine good_weakReset hw.good x (fun c => ?_)
      have h2 := refs_map_set WeakPtr.block_ w.weak k x (WeakPtr.Reset w.heap x).2 c hx
      have h3 : (WeakPtr.Reset w.heap x).2.block_ = none := by
        unfold WeakPtr.Reset; split <;> rfl
      rw [h3, ind_none] at h2
      dsimp only [World.weakRefs]
      omega
    · exact absurd he (by simp)
  | weakSwap k l =>
    simp only [World.exec] at he
    split at he
    · rename_i x o hx ho
      injection he with he
      subst he
      refine good_congr hw.good (fun _ => rfl) (fun c => ?_)
      have h2 := refs_map_set2 WeakPtr.block_ w.weak k l x o
        (WeakPtr.Swap x o).1 (WeakPtr.Swap x o).2 c hx ho
      have h3 : (if k = l then (WeakPtr.Swap x o).1 else o).block_ = o.block_ := by
        split <;> rfl
      have h4 : (WeakPtr.Swap x o).1.block_ = o.block_ := rfl
      have h5 : (WeakPtr.Swap x o).2.block_ = x.block_ := rfl
      rw [h3, h4, h5] at h2
      dsimp only [World.weakRefs]
      omega
    · exact absurd he (by simp)
  | copyObject p =>
    simp only [World.exec] at he
    injection he with he
    subst he
    exact good_copyObject hw.good p (fun b => World.weak_lim _ hsz b)
  | makeSharedFrom p esft =>
    simp only [World.exec] at he
    injection he with he
    subst he
    refine good_MakeSharedFrom hw.good p esft
      (fun c => refs_map_append SharedPtr.block_ w.shared _ c) (fun b => ?_)
    have h1 := w.weakRefs_le b
    have h2 := slotRefs_le (copyObject w.heap p).1 b
    have h3 := slots_MakeSharedFrom w.heap p esft
    unfold World.size at hsz
    dsimp only at hsz
    rw [h3] at hsz
    simp only [List.length_append, List.length_singleton] at hsz
    omega
  | moveObject p =>
    simp only [World.exec] at he
    injection he with he
    subst he
    exact good_moveObject hw.good p
  | assignObject p q =>
    simp only [World.exec] at he
    injection he with he
    subst he
    exact good_assignObject hw.good p q (fun b => World.weak_lim _ hsz b)
  | moveAssignObject p q =>
    simp only [World.exec] at he
    injection he with he
    subst he
    exact good_moveAssignObject hw.good p q
  | deleteObject p =>
    simp only [World.exec] at he
    split at he
    · exact absurd he (by simp)
    · injection he with he
      subst he
      exact good_deleteObject hw.good p

theorem inv_step (w w1 : World) (op : Op) (hw : w.Inv) (he : w.step op = some w1) :
    w1.Inv := by
  unfold World.step at he
  split at he
  · rename_i w2 hex
    split at he
    · rename_i hsz
      injection he with he
      subst he
      have := good_exec_shared w w2 hw op hex hsz
      exact ⟨this.1, this.2, hsz⟩
    · exact absurd he (by simp)
  · exact absurd he (by simp)

theorem inv_init : World.init.Inv := by
  refine ⟨⟨?_, ?_, ?_, ?_⟩, ?_, ?_⟩
  · intro b
    have h1 : World.init.heap.strong b = 0 := by simp [World.init, Heap.empty, Heap.strong]
    have h2 : World.init.heap.weak b = 0 := by simp [World.init, Heap.empty, Heap.weak]
    rw [h1, h2, SIZE_MOD_eq]
    omega
  · intro b hb; exact absurd hb (by simp [World.init, Heap.empty, Heap.live])
  · intro b _; exact ⟨rfl, rfl, rfl⟩
  · intro b _; rfl
  · intro b; simp [World.init, Heap.empty, Heap.destroys]
  · decide

theorem inv_of_reachable (w : World) (hw : Reachable w) : w.Inv := by
  induction hw with
  | init => exact inv_init
  | step w w1 op _ he ih => exact inv_step w w1 op ih he

/-! ## Releases and stale accesses of the release sequence -/

theorem stales_releaseIfUnused (h : Heap) (b : Nat) (hl : h.live b = true) :
    (releaseIfUnused h b).stales = h.stales := by
  unfold releaseIfUnused
  simp only [useCounter_of_live h b hl]
  split
  · unfold Heap.releaseBlock
    rw [stales_record]
    simp only [Event.isStale, Bool.false_eq_true, if_false, Nat.add_zero]
    exact stales_of_log _ _ (log_update _ _ _)
  · rfl

theorem stales_DecCounterWeak (h : Heap) (b : Nat) (hl : h.live b = true) :
    (DecCounterWeak h b).stales = h.stales := by
  unfold DecCounterWeak
  simp only [useCounter_of_live h b hl]
  rw [stales_releaseIfUnused _ b (by rw [live_setWeak]; exact hl)]
  exact stales_of_log _ _ (log_setWeak _ _ _)

theorem stales_destroyObject {h : Heap} {cs cw : Nat → Nat} (hi : h.Inv cs cw)
    (p : Option Nat) : (destroyObject h p).stales = h.stales := by
  unfold destroyObject
  split
  · rfl
  · rename_i a
    split
    · rename_i w hw
      unfold WeakPtr.dtor
      split
      · rename_i c hc
        have hlive : h.live c = true :=
          hi.live_of_slot c (refs_map_pos slotBlock h.objects a (some w) c hw hc)
        exact stales_DecCounterWeak _ c hlive
      · rfl
    · rfl

theorem stales_destroyPayload {h : Heap} {cs cw : Nat → Nat} (hi : h.Inv cs cw)
    (b : Nat) (hw : 0 < cw b) : (destroyPayload h b).stales = h.stales := by
  unfold destroyPayload
  split
  · rfl
  · rename_i x hx
    have i1 := inv_record hi (Event.destroy b) (fun c => by simp)
    have s1 := stales_destroyObject i1 x.pointer_
    have s0 : (h.record (Event.destroy b)).stales = h.stales := by
      rw [stales_record]; simp [Event.isStale]
    dsimp only
    split
    · rw [s1, s0]
    · have i2 := inv_destroyObject i1 x.pointer_
      have hl := i2.live_of_weak b hw
      unfold Heap.clearPointer
      rw [if_pos hl, stales_of_log _ _ (log_update _ _ _), s1, s0]

theorem stales_DecCounter_strong {h : Heap} {cs cs1 cw : Nat → Nat} {b : Nat}
    (hi : h.Inv cs cw) (hcs : ∀ c, cs c = cs1 c + if c = b then 1 else 0) (hw : 0 < cw b) :
    (DecCounter h b false).stales = h.stales := by
  have hlive : h.live b = true := hi.live_of_weak b hw
  have i1 := inv_setStrong_dec hi hcs
  unfold DecCounter
  simp only [Bool.false_eq_true, if_false, useCounter_of_live h b hlive]
  have hl1 : (h.setStrong b ((h.strong b + SIZE_MOD - 1) % SIZE_MOD)).live b = true := by
    rw [live_setStrong]; exact hlive
  simp only [useCounter_of_live _ b hl1]
  have s1 : (h.setStrong b ((h.strong b + SIZE_MOD - 1) % SIZE_MOD)).stales = h.stales :=
    stales_of_log _ _ (log_setStrong _ _ _)
  split
  · have i2 := inv_destroyPayload i1 b
    rw [stales_releaseIfUnused _ b (i2.live_of_weak b hw), stales_destroyPayload i1 b hw, s1]
  · rw [stales_releaseIfUnused _ b hl1, s1]

theorem live_iff_releaseIfUnused (h : Heap) (b : Nat) (hl : h.live b = true) :
    (releaseIfUnused h b).strong b = h.strong b ∧ (releaseIfUnused h b).weak b = h.weak b ∧
    (releaseIfUnused h b).releases b
      = h.releases b + if h.strong b = 0 ∧ h.weak b = 0 then 1 else 0 := by
  unfold releaseIfUnused
  simp only [useCounter_of_live h b hl]
  split
  · refine ⟨strong_releaseBlock h b b, weak_releaseBlock h b b, ?_⟩
    unfold Heap.releases
    rw [log_releaseBlock, List.count_append]
    simp [List.count_cons]
  · exact ⟨rfl, rfl, rfl⟩

theorem DecCounterWeak_release (h : Heap) (b : Nat) (hl : h.live b = true) :
    (DecCounterWeak h b).releases b
      = h.releases b + if (DecCounterWeak h b).strong b = 0 ∧ (DecCounterWeak h b).weak b = 0
          then 1 else 0 := by
  unfold DecCounterWeak
  simp only [useCounter_of_live h b hl]
  have hl1 : (h.setWeak b ((h.weak b + SIZE_MOD - 1) % SIZE_MOD)).live b = true := by
    rw [live_setWeak]; exact hl
  have key := live_iff_releaseIfUnused _ b hl1
  rw [key.1, key.2.1, key.2.2, releases_of_log h _ b (log_setWeak _ _ _)]

theorem DecCounter_true (h : Heap) (b : Nat) : DecCounter h b true = DecCounterWeak h b := by
  unfold DecCounter; simp only [if_true]

theorem releaseStrong_eq (h : Heap) (b : Nat) :
    releaseStrong h b = DecCounterWeak (DecCounter (IncCounter h b true) b false) b := by
  unfold releaseStrong; exact DecCounter_true _ _

/-- The release sequence of `~SharedPtr` and `Reset` in a state that agrees
with a census: no stale access, and the block is released once exactly when
both counters end at zero. -/
theorem releaseStrong_clean {h : Heap} {cs cs1 cw : Nat → Nat} {b : Nat} (hg : h.Good cs cw)
    (hcs : ∀ c, cs c = cs1 c + if c = b then 1 else 0)
    (hlim : cw b + h.slotRefs b + 1 < SIZE_MOD) :
    h.releases b = 0 ∧ (releaseStrong h b).stales = h.stales ∧
    (releaseStrong h b).releases b
      = if (releaseStrong h b).strong b = 0 ∧ (releaseStrong h b).weak b = 0 then 1 else 0 := by
  have hb1 : cs b = cs1 b + 1 := by have := hcs b; simpa using this
  have hlive : h.live b = true := hg.1.live_of_strong b (by omega)
  have g1 : (IncCounter h b true).Good cs (fun c => cw c + if c = b then 1 else 0) :=
    good_IncCounter_weak hg hlive (fun c => rfl) (by simp only [if_true]; omega)
  have hpos : 0 < (fun c => cw c + if c = b then 1 else 0) b := by simp
  have g2 := good_DecCounter_strong g1 hcs
  have hl2 := g2.1.live_of_weak b hpos
  have s0 : (IncCounter h b true).stales = h.stales := by
    unfold IncCounter
    simp only [if_true, useCounter_of_live h b hlive]
    exact stales_of_log _ _ (log_setWeak _ _ _)
  have s1 := stales_DecCounter_strong g1.1 hcs hpos
  have r2 := g2.1.unreleased b (Or.inl hl2)
  refine ⟨hg.1.unreleased b (Or.inl hlive), ?_, ?_⟩
  · rw [releaseStrong_eq, stales_DecCounterWeak _ b hl2]
    exact s1.trans s0
  · rw [releaseStrong_eq]
    have key := DecCounterWeak_release _ b hl2
    rw [r2, Nat.zero_add] at key
    exact key

/-! ## Destroying a handle never adds a payload -/

theorem countP_set_none (l : List (Option WeakPtr)) (a : Nat) :
    (l.set a none).countP Option.isSome ≤ l.countP Option.isSome := by
  induction l generalizing a with
  | nil => simp
  | cons x l ih =>
    cases a with
    | zero =>
      simp only [List.set_cons_zero, List.countP_cons]
      simp
    | succ a =>
      simp only [List.set_cons_succ, List.countP_cons]
      have := ih a
      omega

theorem objects_WeakPtr_dtor (h : Heap) (w : WeakPtr) :
    (WeakPtr.dtor h w).objects = h.objects := by
  unfold WeakPtr.dtor
  split
  · exact DecCounterWeak_objects h _
  · rfl

theorem slots_destroyObject (h : Heap) (p : Option Nat) :
    (destroyObject h p).objects.countP Option.isSome ≤ h.objects.countP Option.isSome := by
  unfold destroyObject
  split
  · exact Nat.le_refl _
  · split
    · rw [objects_WeakPtr_dtor]
      exact countP_set_none _ _
    · exact Nat.le_refl _

theorem slots_destroyPayload (h : Heap) (b : Nat) :
    (destroyPayload h b).objects.countP Option.isSome ≤ h.objects.countP Option.isSome := by
  unfold destroyPayload
  split
  · exact Nat.le_refl _
  · dsimp only
    split
    · exact slots_destroyObject _ _
    · rw [objects_clearPointer]
      exact slots_destroyObject _ _

theorem slots_DecCounter (h : Heap) (b : Nat) (k : Bool) :
    (DecCounter h b k).objects.countP Option.isSome ≤ h.objects.countP Option.isSome := by
  cases k with
  | true => rw [objects_DecCounter_weak]
  | false =>
    unfold DecCounter
    simp only [Bool.false_eq_true, if_false]
    rw [objects_releaseIfUnused]
    split
    · refine Nat.le_trans (slots_destroyPayload _ b) ?_
      simp
    · simp

theorem slots_releaseStrong (h : Heap) (b : Nat) :
    (releaseStrong h b).objects.countP Option.isSome ≤ h.objects.countP Option.isSome := by
  unfold releaseStrong
  refine Nat.le_trans (slots_DecCounter _ b true) ?_
  refine Nat.le_trans (slots_DecCounter _ b false) ?_
  simp

theorem slots_dtor (h : Heap) (s : SharedPtr) :
    (SharedPtr.dtor h s).objects.countP Option.isSome ≤ h.objects.countP Option.isSome := by
  unfold SharedPtr.dtor
  split
  · exact slots_releaseStrong h _
  · exact Nat.le_refl _

theorem reachable_run (w w1 : World) (ops : List Op) (hw : Reachable w)
    (hr : w.run ops = some w1) : Reachable w1 := by
  induction ops generalizing w with
  | nil =>
    unfold World.run at hr
    injection hr with hr
    rw [← hr]; exact hw
  | cons op ops ih =>
    unfold World.run at hr
    split at hr
    · rename_i w2 h2
      exact ih w2 (Reachable.step w w2 op hw h2) hr
    · exact absurd hr (by simp)

theorem step_dtor (w : World) (hw : w.Inv) (i : Nat) (s : SharedPtr)
    (hs : w.shared[i]? = some s) :
    w.step (Op.dtor i)
      = some { w with heap := SharedPtr.dtor w.heap s, shared := w.shared.eraseIdx i } := by
  unfold World.step
  simp only [World.exec, hs]
  rw [if_pos]
  have h1 := slots_dtor w.heap s
  have h2 := hw.size
  have h3 := List.length_eraseIdx_le w.shared i
  unfold World.size at h2 ⊢
  dsimp only
  omega

/-! ## Counters after single calls -/

theorem IncCounter_strong_spec (h : Heap) (b : Nat) :
    (IncCounter h b false).blocks.length = h.blocks.length ∧
    (∀ c, (IncCounter h b false).strong c
      = if c = b ∧ b < h.blocks.length then (h.strong b + 1) % SIZE_MOD else h.strong c) ∧
    (∀ c, (IncCounter h b false).weak c = h.weak c) ∧
    (∀ c, (IncCounter h b false).destroys c = h.destroys c) := by
  unfold IncCounter
  simp only [Bool.false_eq_true, if_false]
  refine ⟨by simp, fun c => ?_, fun c => by simp, fun c => ?_⟩
  · rw [strong_setStrong]; simp
  · rw [destroys_of_log _ _ c (log_setStrong _ b _)]
    exact (frame_useCounter h b).2.2 c

theorem releaseStrong_spec (h : Heap) (b : Nat) :
    (releaseStrong h b).blocks.length = h.blocks.length ∧
    (∀ c, (releaseStrong h b).strong c
      = if c = b ∧ b < h.blocks.length then (h.strong b + SIZE_MOD - 1) % SIZE_MOD
        else h.strong c) ∧
    (∀ c, (releaseStrong h b).destroys c
      = h.destroys c + if c = b ∧ b < h.blocks.length ∧
          (h.strong b + SIZE_MOD - 1) % SIZE_MOD = 0 then 1 else 0) := by
  have f1 := frame_IncCounter_weak h b
  have sp := DecCounter_strong_spec (IncCounter h b true) b
  have f3 := frame_DecCounterWeak (DecCounter (IncCounter h b true) b false) b
  rw [releaseStrong_eq]
  refine ⟨by rw [f3.1, sp.1, f1.1], fun c => ?_, fun c => ?_⟩
  · rw [f3.2.1 c, sp.2.1 c, f1.1, f1.2.1 c, f1.2.1 b]
  · rw [f3.2.2 c, sp.2.2 c, f1.1, f1.2.2 c, f1.2.1 b]

theorem dec_eq_zero_iff (n : Nat) (hn : n < SIZE_MOD) :
    (n + SIZE_MOD - 1) % SIZE_MOD = 0 ↔ n = 1 := by
  rw [SIZE_MOD_eq] at hn ⊢
  omega

theorem strong_lt_of_pos (h : Heap) (b : Nat) (hb : 0 < h.strong b) : b < h.blocks.length := by
  by_contra hlt
  rw [strong_zero_of_not_lt h b hlt] at hb
  omega

/-! ## Wiring the self-observer slot of a fresh block -/

theorem IncCounter_weak_spec (h : Heap) (b : Nat) :
    (IncCounter h b true).blocks.length = h.blocks.length ∧
    (∀ c, (IncCounter h b true).strong c = h.strong c) ∧
    (∀ c, (IncCounter h b true).weak c
      = if c = b ∧ b < h.blocks.length then (h.weak b + 1) % SIZE_MOD else h.weak c) ∧
    (∀ c, (IncCounter h b true).live c = h.live c) := by
  unfold IncCounter
  simp only [if_true]
  refine ⟨by simp, fun c => by simp, fun c => ?_, fun c => by simp⟩
  rw [weak_setWeak]; simp

theorem DecCounterWeak_spec (h : Heap) (b : Nat) :
    (DecCounterWeak h b).blocks.length = h.blocks.length ∧
    (∀ c, (DecCounterWeak h b).strong c = h.strong c) ∧
    (∀ c, (DecCounterWeak h b).weak c
      = if c = b ∧ b < h.blocks.length then (h.weak b + SIZE_MOD - 1) % SIZE_MOD
        else h.weak c) := by
  have f := frame_DecCounterWeak h b
  refine ⟨f.1, f.2.1, fun c => ?_⟩
  unfold DecCounterWeak releaseIfUnused
  dsimp only
  split
  · rw [weak_releaseBlock, weak_useCounter, weak_setWeak]; simp
  · rw [weak_useCounter, weak_setWeak]; simp

theorem slot_set (h : Heap) (a : Nat) (v : WeakPtr) (ha : a < h.objects.length) :
    ({ h with objects := h.objects.set a (some v) } : Heap).slot (some a) = some v := by
  unfold Heap.slot
  dsimp only
  rw [List.getElem?_set, if_pos rfl, if_pos ha]

theorem strong_objs (h : Heap) (o : List (Option WeakPtr)) (c : Nat) :
    ({ h with objects := o } : Heap).strong c = h.strong c := rfl

theorem weak_objs (h : Heap) (o : List (Option WeakPtr)) (c : Nat) :
    ({ h with objects := o } : Heap).weak c = h.weak c := rfl

theorem length_objs (h : Heap) (o : List (Option WeakPtr)) :
    ({ h with objects := o } : Heap).blocks.length = h.blocks.length := rfl

/-- The result of `InitWeakThis` when the member `weak_this_` of the object
does not point to the block of the handle. -/
theorem InitWeakThis_eq (h : Heap) (this : SharedPtr) (a n : Nat) (w : WeakPtr)
    (hb : this.block_ = some n) (hs : h.slot (some a) = some w) (hw : w.block_ ≠ some n) :
    SharedPtr.InitWeakThis h this (some a)
      = { (match w.block_ with
            | some c => DecCounterWeak (IncCounter h n true) c
            | none => IncCounter h n true) with
          objects := h.objects.set a (some ⟨some n, this.observed_⟩) } := by
  have hs1 : (IncCounter h n true).slot (some a) = some w := by
    rw [slot_of_objects h _ _ (objects_IncCounter h n true)]; exact hs
  unfold SharedPtr.InitWeakThis WeakPtr.ofShared
  rw [hb]
  dsimp only
  rw [hs1]
  dsimp only
  unfold WeakPtr.moveAssign
  dsimp only
  rw [if_neg hw]
  dsimp only
  unfold WeakPtr.dtor
  dsimp only
  cases hwc : w.block_ with
  | none =>
    dsimp only
    rw [objects_IncCounter]
  | some c =>
    dsimp only
    rw [DecCounter_true, DecCounterWeak_objects, objects_IncCounter]

/-- `InitWeakThis` on a block that the member `weak_this_` of the object does
not point to yet: the member then points to the block, whose weak counter has
grown by one. -/
theorem InitWeakThis_spec (h : Heap) (this : SharedPtr) (e : Option Nat) (n : Nat)
    (w : WeakPtr) (hb : this.block_ = some n) (hn : n < h.blocks.length)
    (hs : h.slot e = some w) (hw : w.block_ ≠ some n) :
    (SharedPtr.InitWeakThis h this e).blocks.length = h.blocks.length ∧
    (∀ c, (SharedPtr.InitWeakThis h this e).strong c = h.strong c) ∧
    (SharedPtr.InitWeakThis h this e).weak n = (h.weak n + 1) % SIZE_MOD ∧
    (SharedPtr.InitWeakThis h this e).slot e = some ⟨some n, this.observed_⟩ := by
  have sp := IncCounter_weak_spec h n
  have hwn : (IncCounter h n true).weak n = (h.weak n + 1) % SIZE_MOD := by
    rw [sp.2.2.1 n, if_pos ⟨rfl, hn⟩]
  cases e with
  | none => unfold Heap.slot at hs; exact absurd hs (by simp)
  | some a =>
    have halt := some_lt_length _ _ _ (slot_some _ a w hs)
    rw [InitWeakThis_eq h this a n w hb hs hw]
    cases hwc : w.block_ with
    | none =>
      dsimp only
      refine ⟨sp.1, fun x => by rw [strong_objs, sp.2.1], by rw [weak_objs, hwn], ?_⟩
      unfold Heap.slot
      dsimp only
      rw [List.getElem?_set, if_pos rfl, if_pos halt]
    | some c =>
      have hcn : c ≠ n := fun e => hw (by rw [hwc, e])
      have sd := DecCounterWeak_spec (IncCounter h n true) c
      dsimp only
      refine ⟨by rw [sd.1, sp.1], fun x => by rw [strong_objs, sd.2.1, sp.2.1], ?_, ?_⟩
      · rw [weak_objs, sd.2.2 n, if_neg (fun e => hcn e.1.symm), hwn]
      · unfold Heap.slot
        dsimp only
        rw [List.getElem?_set, if_pos rfl, if_pos halt]

theorem ofPtr_true (h : Heap) (ptr : Option Nat) :
    SharedPtr.ofPtr h ptr true
      = (SharedPtr.InitWeakThis (h.newBlock ptr false).1 ⟨some h.blocks.length, ptr⟩ ptr,
          ⟨some h.blocks.length, ptr⟩) := rfl

theorem ofPtr_false (h : Heap) (ptr : Option Nat) :
    SharedPtr.ofPtr h ptr false = ((h.newBlock ptr false).1, ⟨some h.blocks.length, ptr⟩) := rfl

theorem MakeShared_true (h : Heap) :
    MakeShared h true
      = (SharedPtr.InitWeakThis
          (Heap.newBlock { h with objects := h.objects ++ [some WeakPtr.empty] }
            (some h.objects.length) true).1
          ⟨some h.blocks.length, some h.objects.length⟩ (some h.objects.length),
          ⟨some h.blocks.length, some h.objects.length⟩) := rfl

theorem MakeShared_false (h : Heap) :
    MakeShared h false
      = ((Heap.newBlock { h with objects := h.objects ++ [none] }
            (some h.objects.length) true).1,
          ⟨some h.blocks.length, some h.objects.length⟩) := rfl

theorem newBlock_spec (h : Heap) (p : Option Nat) (k : Bool) :
    (h.newBlock p k).2 = h.blocks.length ∧
    (h.newBlock p k).1.blocks.length = h.blocks.length + 1 ∧
    (h.newBlock p k).1.strong h.blocks.length = 1 ∧
    (h.newBlock p k).1.weak h.blocks.length = 0 ∧
    (h.newBlock p k).1.objects = h.objects := by
  refine ⟨rfl, ?_, ?_, ?_, rfl⟩
  · unfold Heap.newBlock; simp
  · unfold Heap.strong; rw [getElem?_newBlock]; simp
  · unfold Heap.weak; rw [getElem?_newBlock]; simp

/-- The handle and the block made by `SharedPtr(T*)`. -/
theorem ofPtr_spec (h : Heap) (ptr : Option Nat) (esft : Bool)
    (hobj : esft = true → ∃ w, h.slot ptr = some w ∧ w.block_ ≠ some h.blocks.length) :
    (SharedPtr.ofPtr h ptr esft).2 = ⟨some h.blocks.length, ptr⟩ ∧
    (SharedPtr.ofPtr h ptr esft).1.blocks.length = h.blocks.length + 1 ∧
    (SharedPtr.ofPtr h ptr esft).1.strong h.blocks.length = 1 ∧
    (SharedPtr.ofPtr h ptr esft).1.weak h.blocks.length = (if esft then 1 else 0) ∧
    (esft = true →
      (SharedPtr.ofPtr h ptr esft).1.slot ptr = some ⟨some h.blocks.length, ptr⟩) := by
  have nb := newBlock_spec h ptr false
  cases esft with
  | false =>
    rw [ofPtr_false]
    exact ⟨rfl, nb.2.1, nb.2.2.1, nb.2.2.2.1, fun e => absurd e (by simp)⟩
  | true =>
    obtain ⟨w, hs, hw⟩ := hobj rfl
    have key := InitWeakThis_spec (h.newBlock ptr false).1 ⟨some h.blocks.length, ptr⟩ ptr
      h.blocks.length w rfl (by rw [nb.2.1]; omega)
      (by rw [slot_of_objects h _ ptr nb.2.2.2.2]; exact hs) hw
    rw [ofPtr_true]
    dsimp only
    refine ⟨rfl, by rw [key.1, nb.2.1], ?_, ?_, fun _ => key.2.2.2⟩
    · rw [key.2.1, nb.2.2.1]
    · rw [key.2.2.1, nb.2.2.2.1]
      decide

/-- The handle and the block made by `MakeShared`. -/
theorem MakeShared_spec (h : Heap) (esft : Bool) :
    (MakeShared h esft).2 = ⟨some h.blocks.length, some h.objects.length⟩ ∧
    (MakeShared h esft).1.blocks.length = h.blocks.length + 1 ∧
    (MakeShared h esft).1.strong h.blocks.length = 1 ∧
    (MakeShared h esft).1.weak h.blocks.length = (if esft then 1 else 0) ∧
    (esft = true → (MakeShared h esft).1.slot (some h.objects.length)
      = some ⟨some h.blocks.length, some h.objects.length⟩) := by
  cases esft with
  | false =>
    have nb := newBlock_spec { h with objects := h.objects ++ [none] }
      (some h.objects.length) true
    rw [MakeShared_false]
    exact ⟨rfl, nb.2.1, nb.2.2.1, nb.2.2.2.1, fun e => absurd e (by simp)⟩
  | true =>
    have nb := newBlock_spec { h with objects := h.objects ++ [some WeakPtr.empty] }
      (some h.objects.length) true
    have hs : (Heap.newBlock { h with objects := h.objects ++ [some WeakPtr.empty] }
        (some h.objects.length) true).1.slot (some h.objects.length) = some WeakPtr.empty := by
      unfold Heap.slot
      dsimp only
      rw [nb.2.2.2.2]
      simp
    have key := InitWeakThis_spec _ ⟨some h.blocks.length, some h.objects.length⟩
      (some h.objects.length) h.blocks.length WeakPtr.empty rfl
      (by rw [nb.2.1]; exact Nat.lt_succ_self _) hs (by simp [WeakPtr.empty])
    rw [MakeShared_true]
    dsimp only at nb key ⊢
    refine ⟨rfl, by rw [key.1, nb.2.1], ?_, ?_, fun _ => key.2.2.2⟩
    · rw [key.2.1]; exact nb.2.2.1
    · rw [key.2.2.1, nb.2.2.2.1]
      decide

/-- C1: in every state of a program the strong counter of each live control
block is the number of live `SharedPtr` handles that reference it; each handle
that has a block references a live one and its `UseCount()` is that number;
and destroying one of the handles is a step of the program after which the
block has one handle fewer. -/
theorem C1_strong_counter_counts_handles (w : World) (hw : Reachable w) :
    (∀ b, w.heap.live b = true → w.heap.strong b = w.sharedRefs b) ∧
    (∀ i s b, w.shared[i]? = some s → s.block_ = some b →
      w.heap.live b = true ∧ s.UseCount w.heap = w.sharedRefs b ∧
      ∃ w1, w.step (Op.dtor i) = some w1 ∧ w1.sharedRefs b + 1 = w.sharedRefs b ∧
        (∀ (j : Nat) (t : SharedPtr), w1.shared[j]? = some t → t.block_ = some b →
          t.UseCount w1.heap + 1 = s.UseCount w.heap)) := by
  have hi := inv_of_reachable w hw
  refine ⟨fun b hb => (hi.heap.counts b hb).1, ?_⟩
  intro i s b hs hb
  have hl := w.shared_block_live hi i s hs b hb
  have hu : s.UseCount w.heap = w.sharedRefs b := by
    unfold SharedPtr.UseCount GetCounter
    rw [hb]
    exact (hi.heap.counts b hl).1
  refine ⟨hl, hu, _, step_dtor w hi i s hs, ?_, ?_⟩
  · have := refs_map_eraseIdx SharedPtr.block_ w.shared i s b hs
    rw [hb, ind_some] at this
    simp only [if_true] at this
    exact this
  · intro j t ht htb
    have hw1 := Reachable.step w _ (Op.dtor i) hw (step_dtor w hi i s hs)
    have hi1 := inv_of_reachable _ hw1
    have hl1 := World.shared_block_live hi1 j t ht b htb
    have hu1 : t.UseCount (SharedPtr.dtor w.heap s)
        = refs ((w.shared.eraseIdx i).map SharedPtr.block_) b := by
      unfold SharedPtr.UseCount GetCounter
      rw [htb]
      exact (hi1.heap.counts b hl1).1
    have := refs_map_eraseIdx SharedPtr.block_ w.shared i s b hs
    rw [hb, ind_some] at this
    simp only [if_true] at this
    rw [hu]
    dsimp only at hu1 ⊢
    rw [hu1]
    exact this

theorem C1_witness : Reachable demoWorld ∧
    ((∀ b, demoWorld.heap.live b = true → demoWorld.heap.strong b = demoWorld.sharedRefs b) ∧
    (∀ i s b, demoWorld.shared[i]? = some s → s.block_ = some b →
      demoWorld.heap.live b = true ∧ s.UseCount demoWorld.heap = demoWorld.sharedRefs b ∧
      ∃ w1, demoWorld.step (Op.dtor i) = some w1 ∧
        w1.sharedRefs b + 1 = demoWorld.sharedRefs b ∧
        (∀ (j : Nat) (t : SharedPtr), w1.shared[j]? = some t → t.block_ = some b →
          t.UseCount w1.heap + 1 = s.UseCount demoWorld.heap))) :=
  ⟨reachable_run World.init demoWorld demoOps Reachable.init (by decide),
    C1_strong_counter_counts_handles demoWorld
      (reachable_run World.init demoWorld demoOps Reachable.init (by decide))⟩

theorem demoWorld_reachable : Reachable demoWorld :=
  reachable_run World.init demoWorld demoOps Reachable.init (by decide)

theorem pairWorld_reachable : Reachable pairWorld :=
  reachable_run World.init pairWorld pairOps Reachable.init (by decide)

/-- C2: for a control block of either kind and whatever its weak counter is,
`DecCounter(false)` destroys the payload of its block exactly when it takes the
strong counter from 1 to 0 and destroys no other payload, `DecCounter(true)`
destroys nothing, and in every state of a program the payload of a block has
been destroyed once if its strong counter is zero and never if it is
positive. -/
theorem C2_payload_destroyed_once (h : Heap) (b : Nat) (hs : h.strong b < SIZE_MOD)
    (w : World) (hw : Reachable w) :
    (∀ c, (DecCounter h b false).destroys c
      = h.destroys c + if c = b ∧ h.strong b = 1 then 1 else 0) ∧
    (∀ c, (DecCounter h b true).destroys c = h.destroys c) ∧
    (∀ c, c < w.heap.blocks.length →
      w.heap.destroys c = if w.heap.strong c = 0 then 1 else 0) := by
  refine ⟨fun c => ?_, fun c => ?_, fun c hc => ?_⟩
  · rw [(DecCounter_strong_spec h b).2.2 c]
    have hz := dec_eq_zero_iff _ hs
    by_cases hcb : c = b
    · by_cases h1 : h.strong b = 1
      · have h2 : b < h.blocks.length := strong_lt_of_pos h b (by omega)
        have h3 := hz.2 h1
        rw [if_pos ⟨hcb, h2, h3⟩, if_pos ⟨hcb, h1⟩]
      · have h3 : ¬ (h.strong b + SIZE_MOD - 1) % SIZE_MOD = 0 := fun e => h1 (hz.1 e)
        rw [if_neg (fun e => h3 e.2.2), if_neg (fun e => h1 e.2)]
    · rw [if_neg (fun e => hcb e.1), if_neg (fun e => hcb e.1)]
  · rw [DecCounter_true]
    exact (frame_DecCounterWeak h b).2.2 c
  · have := (inv_of_reachable w hw).once c
    rw [this]
    simp [hc]

theorem C2_witness :
    (demoWorld.heap.strong 0 < SIZE_MOD ∧ Reachable demoWorld) ∧
    ((∀ c, (DecCounter demoWorld.heap 0 false).destroys c
      = demoWorld.heap.destroys c + if c = 0 ∧ demoWorld.heap.strong 0 = 1 then 1 else 0) ∧
    (∀ c, (DecCounter demoWorld.heap 0 true).destroys c = demoWorld.heap.destroys c) ∧
    (∀ c, c < demoWorld.heap.blocks.length →
      demoWorld.heap.destroys c = if demoWorld.heap.strong c = 0 then 1 else 0)) :=
  ⟨⟨by decide, demoWorld_reachable⟩,
    C2_payload_destroyed_once demoWorld.heap 0 (by decide) demoWorld demoWorld_reachable⟩

/-- C3: in every state of a program, for every live handle with a block, the
release sequence of `~SharedPtr` (which is also that of `Reset()`) uses no
counter of a released block, and it releases the block, which was not released
before, once if both counters are zero after the call and not at all
otherwise. -/
theorem C3_destructor_releases_block_once (w : World) (hw : Reachable w) (i : Nat)
    (s : SharedPtr) (b : Nat) (hs : w.shared[i]? = some s) (hb : s.block_ = some b) :
    w.heap.releases b = 0 ∧
    (SharedPtr.dtor w.heap s).stales = w.heap.stales ∧
    (SharedPtr.dtor w.heap s).releases b
      = (if (SharedPtr.dtor w.heap s).strong b = 0 ∧ (SharedPtr.dtor w.heap s).weak b = 0
          then 1 else 0) ∧
    (SharedPtr.Reset w.heap s).1 = SharedPtr.dtor w.heap s := by
  have hi := inv_of_reachable w hw
  have hd : SharedPtr.dtor w.heap s = releaseStrong w.heap b := by
    unfold SharedPtr.dtor; rw [hb]
  have hr : (SharedPtr.Reset w.heap s).1 = releaseStrong w.heap b := by
    unfold SharedPtr.Reset; rw [hb]
  have hcs : ∀ c, w.sharedRefs c
      = refs ((w.shared.eraseIdx i).map SharedPtr.block_) c + if c = b then 1 else 0 := by
    intro c
    have := refs_map_eraseIdx SharedPtr.block_ w.shared i s c hs
    rw [hb, ind_some] at this
    dsimp only [World.sharedRefs]
    omega
  have key := releaseStrong_clean hi.good hcs (w.release_lim hi.size i s hs b)
  rw [hd, hr]
  exact ⟨key.1, key.2.1, key.2.2, rfl⟩

theorem C3_witness :
    (Reachable demoWorld ∧ demoWorld.shared[0]? = some ⟨some 0, some 0⟩ ∧
      (⟨some 0, some 0⟩ : SharedPtr).block_ = some 0) ∧
    (demoWorld.heap.releases 0 = 0 ∧
    (SharedPtr.dtor demoWorld.heap ⟨some 0, some 0⟩).stales = demoWorld.heap.stales ∧
    (SharedPtr.dtor demoWorld.heap ⟨some 0, some 0⟩).releases 0
      = (if (SharedPtr.dtor demoWorld.heap ⟨some 0, some 0⟩).strong 0 = 0 ∧
            (SharedPtr.dtor demoWorld.heap ⟨some 0, some 0⟩).weak 0 = 0
          then 1 else 0) ∧
    (SharedPtr.Reset demoWorld.heap ⟨some 0, some 0⟩).1
      = SharedPtr.dtor demoWorld.heap ⟨some 0, some 0⟩) :=
  ⟨⟨demoWorld_reachable, by decide, rfl⟩,
    C3_destructor_releases_block_once demoWorld demoWorld_reachable 0 ⟨some 0, some 0⟩ 0
      (by decide) rfl⟩

/-- C4: `pairWorld` holds two handles, each the only strong handle of a block
whose payload keeps the only weak reference in its self-observer slot. The
copy assignment `shared[0] = shared[1]` and the move assignment
`shared[0] = std::move(shared[1])` destroy the old payload once but execute
`delete this` on the old block twice and read its counters after the first
release; `Reset()` on the same handle releases the block once and uses no
released counter. -/
theorem C4_assignment_releases_block_twice :
    Reachable pairWorld ∧
    (SharedPtr.assign pairWorld.heap ⟨some 0, some 0⟩ ⟨some 1, some 1⟩).1.log
      = [Event.destroy 0, Event.release 0, Event.staleCounter 0, Event.release 0] ∧
    (SharedPtr.moveAssign pairWorld.heap ⟨some 0, some 0⟩ ⟨some 1, some 1⟩).1.log
      = [Event.destroy 0, Event.release 0, Event.staleCounter 0, Event.release 0] ∧
    (SharedPtr.assign pairWorld.heap ⟨some 0, some 0⟩ ⟨some 1, some 1⟩).1.releases 0 = 2 ∧
    (SharedPtr.Reset pairWorld.heap ⟨some 0, some 0⟩).1.log
      = [Event.destroy 0, Event.release 0] :=
  ⟨pairWorld_reachable, by decide, by decide, by decide, by decide⟩

theorem expired_iff (h : Heap) (x : WeakPtr) :
    x.Expired h = true ↔ (x.block_ = none ∨ ∃ b, x.block_ = some b ∧ h.strong b = 0) := by
  unfold WeakPtr.Expired WeakPtr.UseCount GetCounter
  cases hx : x.block_ with
  | none => simp
  | some b => simp

/-- What a promotion that does not throw returns. -/
theorem ofWeak_ok (h : Heap) (x : WeakPtr) (he : x.Expired h = false)
    (hlim : x.UseCount h + 1 < SIZE_MOD) :
    ∃ r, SharedPtr.ofWeak h x = Except.ok r ∧ r.2.block_ = x.block_ ∧
      r.2.observed_ = x.observed_ ∧
      (∀ b, x.block_ = some b → r.1.strong b = h.strong b + 1) ∧
      (∀ c, x.block_ ≠ some c → r.1.strong c = h.strong c) ∧
      (∀ c, r.1.weak c = h.weak c) := by
  unfold SharedPtr.ofWeak
  rw [he]
  simp only [Bool.false_eq_true, if_false]
  cases hx : x.block_ with
  | none =>
    exact ⟨_, rfl, rfl, rfl, fun b hb => absurd hb (by simp), fun _ _ => rfl, fun _ => rfl⟩
  | some b =>
    have hu : x.UseCount h = h.strong b := by
      unfold WeakPtr.UseCount GetCounter; rw [hx]; rfl
    have hpos : 0 < h.strong b := by
      unfold WeakPtr.Expired at he
      rw [hu] at he
      simp at he
      omega
    have hlt := strong_lt_of_pos h b hpos
    have sp := IncCounter_strong_spec h b
    refine ⟨_, rfl, rfl, rfl, fun b1 hb1 => ?_, fun c hc => ?_, fun c => sp.2.2.1 c⟩
    · injection hb1 with hb1
      subst hb1
      dsimp only
      rw [sp.2.1 b, if_pos ⟨rfl, hlt⟩]
      rw [hu] at hlim
      exact Nat.mod_eq_of_lt hlim
    · have hcb : c ≠ b := fun e => hc (by rw [e])
      dsimp only
      rw [sp.2.1 c, if_neg (fun e => hcb e.1)]

/-- C5: promotion throws `BadWeakPtr` exactly when the weak handle is expired,
that is, has no block or a block whose strong counter is zero; a promotion
that throws leaves the state of the program as it is; otherwise the new handle
has the block and the payload address of the weak handle, the strong counter
of that block is one more than before and no other counter changes. -/
theorem C5_promotion_throws_iff_expired (h : Heap) (x : WeakPtr)
    (hlim : x.UseCount h + 1 < SIZE_MOD) :
    (x.Expired h = true ↔ (x.block_ = none ∨ ∃ b, x.block_ = some b ∧ h.strong b = 0)) ∧
    (SharedPtr.ofWeak h x = Except.error Exn.BadWeakPtr ↔ x.Expired h = true) ∧
    (∀ (w : World) (k : Nat), w.heap = h → w.weak[k]? = some x → x.Expired h = true →
      w.exec (Op.promote k) = some w) ∧
    (x.Expired h = false →
      ∃ r, SharedPtr.ofWeak h x = Except.ok r ∧ r.2.block_ = x.block_ ∧
        r.2.observed_ = x.observed_ ∧
        (∀ b, x.block_ = some b → r.1.strong b = h.strong b + 1) ∧
        (∀ c, x.block_ ≠ some c → r.1.strong c = h.strong c) ∧
        (∀ c, r.1.weak c = h.weak c)) := by
  have herr : x.Expired h = true → SharedPtr.ofWeak h x = Except.error Exn.BadWeakPtr := by
    intro he
    unfold SharedPtr.ofWeak
    rw [if_pos he]
  refine ⟨expired_iff h x, ⟨fun e => ?_, herr⟩, ?_, fun he => ofWeak_ok h x he hlim⟩
  · cases he : x.Expired h with
    | true => rfl
    | false =>
      obtain ⟨r, hr, _⟩ := ofWeak_ok h x he hlim
      rw [hr] at e
      exact absurd e (by simp)
  · intro w k hw hk he
    subst hw
    simp only [World.exec, hk, herr he]

theorem C5_witness :
    (WeakPtr.UseCount demoWorld.heap ⟨some 0, some 0⟩ + 1 < SIZE_MOD) ∧
    (WeakPtr.Expired demoWorld.heap ⟨some 0, some 0⟩ = false →
      ∃ r, SharedPtr.ofWeak demoWorld.heap ⟨some 0, some 0⟩ = Except.ok r ∧
        r.2.block_ = some 0 ∧ r.2.observed_ = some 0 ∧
        (∀ b, (⟨some 0, some 0⟩ : WeakPtr).block_ = some b →
          r.1.strong b = demoWorld.heap.strong b + 1) ∧
        (∀ c, (⟨some 0, some 0⟩ : WeakPtr).block_ ≠ some c →
          r.1.strong c = demoWorld.heap.strong c) ∧
        (∀ c, r.1.weak c = demoWorld.heap.weak c)) :=
  ⟨by decide, (C5_promotion_throws_iff_expired demoWorld.heap ⟨some 0, some 0⟩ (by decide)).2.2.2⟩

/-- C6: `Lock()` never throws. On a handle that is not expired it returns a
handle with the block and payload address of the weak handle whose
`UseCount()` is one more than that of the weak handle before the call; on an
expired handle, a default-constructed one included, it returns the empty
handle (no block, null payload, `UseCount()` zero) and the heap as it was. -/
theorem C6_lock_never_throws (h : Heap) (x : WeakPtr)
    (hlim : x.UseCount h + 1 < SIZE_MOD) :
    (∃ r, WeakPtr.Lock h x = Except.ok r) ∧
    (x.Expired h = false →
      ∃ r, WeakPtr.Lock h x = Except.ok r ∧ r.2.block_ = x.block_ ∧
        r.2.observed_ = x.observed_ ∧ r.2.UseCount r.1 = x.UseCount h + 1) ∧
    (x.Expired h = true → WeakPtr.Lock h x = Except.ok (h, SharedPtr.empty)) ∧
    WeakPtr.empty.Expired h = true ∧
    SharedPtr.empty.block_ = none ∧ SharedPtr.empty.Get = none ∧
    SharedPtr.empty.UseCount h = 0 := by
  have hexp : x.Expired h = true → WeakPtr.Lock h x = Except.ok (h, SharedPtr.empty) := by
    intro he
    unfold WeakPtr.Lock
    rw [he]
    rfl
  have hok : x.Expired h = false →
      ∃ r, WeakPtr.Lock h x = Except.ok r ∧ r.2.block_ = x.block_ ∧
        r.2.observed_ = x.observed_ ∧ r.2.UseCount r.1 = x.UseCount h + 1 := by
    intro he
    obtain ⟨r, hr, hb, ho, hs, _, _⟩ := ofWeak_ok h x he hlim
    refine ⟨r, ?_, hb, ho, ?_⟩
    · unfold WeakPtr.Lock
      rw [he]
      exact hr
    · cases hx : x.block_ with
      | none =>
        exfalso
        have := (expired_iff h x).2 (Or.inl hx)
        rw [he] at this
        exact absurd this (by simp)
      | some b =>
        unfold SharedPtr.UseCount WeakPtr.UseCount GetCounter
        rw [hb, hx]
        exact hs b hx
  refine ⟨?_, hok, hexp, rfl, rfl, rfl, rfl⟩
  cases he : x.Expired h with
  | true => exact ⟨_, hexp he⟩
  | false =>
    obtain ⟨r, hr, _⟩ := hok he
    exact ⟨r, hr⟩

theorem C6_witness :
    (WeakPtr.UseCount demoWorld.heap ⟨some 0, some 0⟩ + 1 < SIZE_MOD) ∧
    (∃ r, WeakPtr.Lock demoWorld.heap ⟨some 0, some 0⟩ = Except.ok r ∧
      r.2.block_ = some 0 ∧ r.2.observed_ = some 0 ∧
      r.2.UseCount r.1 = WeakPtr.UseCount demoWorld.heap ⟨some 0, some 0⟩ + 1) :=
  ⟨by decide,
    (C6_lock_never_throws demoWorld.heap ⟨some 0, some 0⟩ (by decide)).2.1 (by decide)⟩

/-- C7 as stated fails: the block made by `MakeShared` for a self-observing
payload type has weak counter 1, not 0. -/
theorem C7_counterexample :
    (MakeShared Heap.empty true).2.block_ = some 0 ∧
    (MakeShared Heap.empty true).1.strong 0 = 1 ∧
    (MakeShared Heap.empty true).1.weak 0 = 1 ∧
    ¬ ((MakeShared Heap.empty true).1.strong 0 = 1 ∧
        (MakeShared Heap.empty true).1.weak 0 = 0) := by decide

/-- C7, amended: the handle returned by `MakeShared` and the handle made by
`SharedPtr(T*)` reference a new block whose strong counter is 1 and whose weak
counter is 0 for a payload type that is not self-observing and 1 for a
self-observing one, the reference held by the member `weak_this_` of the
payload. For `SharedPtr(T*)` on a self-observing type a live object is at
`ptr` and its `weak_this_` does not point to the new block already. -/
theorem C7_fresh_block_counters (h : Heap) (ptr : Option Nat) (esft : Bool)
    (hobj : esft = true → ∃ w, h.slot ptr = some w ∧ w.block_ ≠ some h.blocks.length) :
    ((MakeShared h esft).2.block_ = some h.blocks.length ∧
      (MakeShared h esft).1.strong h.blocks.length = 1 ∧
      (MakeShared h esft).1.weak h.blocks.length = (if esft then 1 else 0)) ∧
    ((SharedPtr.ofPtr h ptr esft).2.block_ = some h.blocks.length ∧
      (SharedPtr.ofPtr h ptr esft).1.strong h.blocks.length = 1 ∧
      (SharedPtr.ofPtr h ptr esft).1.weak h.blocks.length = (if esft then 1 else 0)) := by
  have m := MakeShared_spec h esft
  have o := ofPtr_spec h ptr esft hobj
  exact ⟨⟨by rw [m.1], m.2.2.1, m.2.2.2.1⟩, ⟨by rw [o.1], o.2.2.1, o.2.2.2.1⟩⟩

theorem C7_witness :
    (true = true → ∃ w, (newObject Heap.empty true).1.slot (some 0) = some w ∧
      w.block_ ≠ some (newObject Heap.empty true).1.blocks.length) ∧
    ((SharedPtr.ofPtr (newObject Heap.empty true).1 (some 0) true).2.block_ = some 0 ∧
      (SharedPtr.ofPtr (newObject Heap.empty true).1 (some 0) true).1.strong 0 = 1 ∧
      (SharedPtr.ofPtr (newObject Heap.empty true).1 (some 0) true).1.weak 0 = 1) :=
  ⟨fun _ => ⟨WeakPtr.empty, by decide, by decide⟩,
    (C7_fresh_block_counters (newObject Heap.empty true).1 (some 0) true
      (fun _ => ⟨WeakPtr.empty, by decide, by decide⟩)).2⟩

theorem length_ofShared (h : Heap) (s : SharedPtr) :
    (WeakPtr.ofShared h s).1.blocks.length = h.blocks.length := by
  unfold WeakPtr.ofShared
  split
  · exact (IncCounter_weak_spec h _).1
  · rfl

theorem length_weakMoveAssign (h : Heap) (x o : WeakPtr) :
    (WeakPtr.moveAssign h x o).1.blocks.length = h.blocks.length := by
  unfold WeakPtr.moveAssign
  split
  · rfl
  · dsimp only
    split
    · rw [DecCounter_true]; exact (DecCounterWeak_spec h _).1
    · rfl

theorem length_InitWeakThis (h : Heap) (this : SharedPtr) (e : Option Nat) :
    (SharedPtr.InitWeakThis h this e).blocks.length = h.blocks.length := by
  unfold SharedPtr.InitWeakThis
  dsimp only
  split
  · rw [(frame_WeakPtr_dtor _ _).1, length_objs, length_weakMoveAssign, length_ofShared]
  · rw [(frame_WeakPtr_dtor _ _).1]
    exact length_ofShared h this

theorem length_ofPtr (h : Heap) (ptr : Option Nat) (esft : Bool) :
    (SharedPtr.ofPtr h ptr esft).1.blocks.length = h.blocks.length + 1 ∧
    (SharedPtr.ofPtr h ptr esft).2.block_ = some h.blocks.length := by
  cases esft with
  | false => rw [ofPtr_false]; exact ⟨(newBlock_spec h ptr false).2.1, rfl⟩
  | true =>
    rw [ofPtr_true]
    dsimp only
    rw [length_InitWeakThis]
    exact ⟨(newBlock_spec h ptr false).2.1, rfl⟩

/-- C9: `operator==` on two handles is true exactly when their block pointers
are equal, so two handles without a block are equal; a handle and an aliasing
handle built from it are equal whatever the payload address; two handles made
by adopting two pointers are not equal. -/
theorem C9_equality_is_block_identity (a b : SharedPtr) (h : Heap)
    (ptr p q : Option Nat) (e1 e2 : Bool) :
    (SharedPtr.eq a b = true ↔ a.block_ = b.block_) ∧
    SharedPtr.eq SharedPtr.empty ⟨none, ptr⟩ = true ∧
    SharedPtr.eq a (SharedPtr.alias h a ptr).2 = true ∧
    SharedPtr.eq (SharedPtr.ofPtr h p e1).2
      (SharedPtr.ofPtr (SharedPtr.ofPtr h p e1).1 q e2).2 = false := by
  refine ⟨?_, rfl, ?_, ?_⟩
  · unfold SharedPtr.eq
    simp
  · have hb : (SharedPtr.alias h a ptr).2.block_ = a.block_ := by
      unfold SharedPtr.alias; split <;> rfl
    unfold SharedPtr.eq
    rw [hb]
    simp
  · have h1 := length_ofPtr h p e1
    have h2 := length_ofPtr (SharedPtr.ofPtr h p e1).1 q e2
    unfold SharedPtr.eq
    rw [h1.2, h2.2, h1.1]
    simp

theorem alias_spec (h : Heap) (other : SharedPtr) (ptr : Option Nat) (b : Nat)
    (hb : other.block_ = some b) :
    SharedPtr.alias h other ptr = (IncCounter h b false, ⟨some b, ptr⟩) := by
  unfold SharedPtr.alias
  rw [hb]

/-- C10: the aliasing constructor on a handle `other` that references block
`b`: the new handle references `b` and `Get()` on it is `ptr`; the strong
counter of `b` is one more than before and no other counter changes; then
destroying `other` destroys no payload and leaves the strong counter at its
value before the aliasing, and when `other` was the only handle, destroying
the alias afterwards destroys the payload of `b`, once. An aliasing handle
built from a handle without a block has no block and leaves the heap as it
is. -/
theorem C10_aliasing_shares_block (h : Heap) (other : SharedPtr) (ptr : Option Nat) (b : Nat)
    (hb : other.block_ = some b) (hpos : 0 < h.strong b)
    (hlim : h.strong b + 1 < SIZE_MOD) :
    (SharedPtr.alias h other ptr).2.block_ = other.block_ ∧
    (SharedPtr.alias h other ptr).2.Get = ptr ∧
    (SharedPtr.alias h other ptr).1.strong b = h.strong b + 1 ∧
    (∀ c, c ≠ b → (SharedPtr.alias h other ptr).1.strong c = h.strong c) ∧
    (∀ c, (SharedPtr.alias h other ptr).1.weak c = h.weak c) ∧
    (∀ c, (SharedPtr.dtor (SharedPtr.alias h other ptr).1 other).destroys c = h.destroys c) ∧
    (SharedPtr.dtor (SharedPtr.alias h other ptr).1 other).strong b = h.strong b ∧
    (h.strong b = 1 →
      (SharedPtr.dtor (SharedPtr.dtor (SharedPtr.alias h other ptr).1 other)
        (SharedPtr.alias h other ptr).2).destroys b = h.destroys b + 1 ∧
      (SharedPtr.dtor (SharedPtr.dtor (SharedPtr.alias h other ptr).1 other)
        (SharedPtr.alias h other ptr).2).strong b = 0) ∧
    (∀ (o : SharedPtr) (q : Option Nat), o.block_ = none →
      SharedPtr.alias h o q = (h, ⟨none, q⟩)) := by
  have hlt := strong_lt_of_pos h b hpos
  have sp := IncCounter_strong_spec h b
  have hS := SIZE_MOD_eq
  have hst : (IncCounter h b false).strong b = h.strong b + 1 := by
    rw [sp.2.1 b, if_pos ⟨rfl, hlt⟩]
    exact Nat.mod_eq_of_lt hlim
  have rs := releaseStrong_spec (IncCounter h b false) b
  have hd1 : SharedPtr.dtor (IncCounter h b false) other
      = releaseStrong (IncCounter h b false) b := by
    unfold SharedPtr.dtor; rw [hb]
  have hst2 : (releaseStrong (IncCounter h b false) b).strong b = h.strong b := by
    rw [rs.2.1 b, sp.1, if_pos ⟨rfl, hlt⟩, hst]
    rw [hS] at hlim ⊢
    omega
  rw [alias_spec h other ptr b hb]
  dsimp only
  rw [hd1]
  refine ⟨hb.symm, rfl, hst, fun c hc => ?_, sp.2.2.1, fun c => ?_, hst2, fun h1 => ?_,
    fun o q ho => ?_⟩
  · rw [sp.2.1 c, if_neg (fun e => hc e.1)]
  · rw [rs.2.2 c, sp.2.2.2 c, hst, sp.1]
    have : ¬ (h.strong b + 1 + SIZE_MOD - 1) % SIZE_MOD = 0 := by
      rw [hS] at hlim ⊢
      omega
    rw [if_neg (fun e => this e.2.2)]
    rfl
  · have rs2 := releaseStrong_spec (releaseStrong (IncCounter h b false) b) b
    have hd2 : SharedPtr.dtor (releaseStrong (IncCounter h b false) b) ⟨some b, ptr⟩
        = releaseStrong (releaseStrong (IncCounter h b false) b) b := rfl
    have hz : (h.strong b + SIZE_MOD - 1) % SIZE_MOD = 0 := by
      rw [h1, hS]
    rw [hd2, rs2.2.2 b, rs2.2.1 b, rs.1, sp.1, hst2, if_pos ⟨rfl, hlt, hz⟩,
      if_pos ⟨rfl, hlt⟩, rs.2.2 b, sp.2.2.2 b, hst, sp.1]
    have : ¬ (h.strong b + 1 + SIZE_MOD - 1) % SIZE_MOD = 0 := by
      rw [hS] at hlim ⊢
      omega
    rw [if_neg (fun e => this e.2.2)]
    exact ⟨rfl, hz⟩
  · unfold SharedPtr.alias
    rw [ho]

theorem C10_witness :
    ((⟨some 0, some 0⟩ : SharedPtr).block_ = some 0 ∧ 0 < pairWorld.heap.strong 0 ∧
      pairWorld.heap.strong 0 + 1 < SIZE_MOD ∧ pairWorld.heap.strong 0 = 1) ∧
    ((SharedPtr.dtor (SharedPtr.dtor
        (SharedPtr.alias pairWorld.heap ⟨some 0, some 0⟩ (some 7)).1 ⟨some 0, some 0⟩)
        (SharedPtr.alias pairWorld.heap ⟨some 0, some 0⟩ (some 7)).2).destroys 0
        = pairWorld.heap.destroys 0 + 1 ∧
      (SharedPtr.dtor (SharedPtr.dtor
        (SharedPtr.alias pairWorld.heap ⟨some 0, some 0⟩ (some 7)).1 ⟨some 0, some 0⟩)
        (SharedPtr.alias pairWorld.heap ⟨some 0, some 0⟩ (some 7)).2).strong 0 = 0) :=
  ⟨⟨rfl, by decide, by decide, by decide⟩,
    (C10_aliasing_shares_block pairWorld.heap ⟨some 0, some 0⟩ (some 7) 0 rfl (by decide)
      (by decide)).2.2.2.2.2.2.2.1 (by decide)⟩

/-! ## The field `pointer_` after a write -/

theorem pointer_update_of (h : Heap) (b : Nat) (f : ControlBlock → ControlBlock) (c : Nat)
    (hf : ∀ x, (f x).pointer_ = x.pointer_) :
    (h.update b f).pointer c = h.pointer c := by
  unfold Heap.pointer
  rw [blocks_update]
  by_cases hc : c = b
  · subst hc
    cases h.blocks[c]? <;> simp [hf]
  · simp [hc]

@[simp] theorem pointer_record (h : Heap) (e : Event) (c : Nat) :
    (h.record e).pointer c = h.pointer c := rfl

@[simp] theorem pointer_useCounter (h : Heap) (b c : Nat) :
    (h.useCounter b).pointer c = h.pointer c := by
  unfold Heap.useCounter; split <;> rfl

@[simp] theorem pointer_setStrong (h : Heap) (b n c : Nat) :
    (h.setStrong b n).pointer c = h.pointer c :=
  pointer_update_of h b _ c (fun _ => rfl)

@[simp] theorem pointer_setWeak (h : Heap) (b n c : Nat) :
    (h.setWeak b n).pointer c = h.pointer c :=
  pointer_update_of h b _ c (fun _ => rfl)

@[simp] theorem pointer_releaseBlock (h : Heap) (b c : Nat) :
    (h.releaseBlock b).pointer c = h.pointer c := by
  unfold Heap.releaseBlock
  rw [pointer_record]
  exact pointer_update_of h b _ c (fun _ => rfl)

theorem pointer_objs (h : Heap) (o : List (Option WeakPtr)) (c : Nat) :
    ({ h with objects := o } : Heap).pointer c = h.pointer c := rfl

theorem pointer_clearPointer (h : Heap) (b c : Nat) (hc : c ≠ b) :
    (h.clearPointer b).pointer c = h.pointer c := by
  unfold Heap.clearPointer
  have e : ∀ g : Heap,
      (g.update b (fun c => { c with pointer_ := none })).pointer c = g.pointer c := by
    intro g
    unfold Heap.pointer
    rw [blocks_update, if_neg hc]
  rw [e]
  split <;> rfl

theorem pointer_none_of_not_lt (h : Heap) (b : Nat) (hb : ¬ b < h.blocks.length) :
    h.pointer b = none := by
  unfold Heap.pointer
  rw [List.getElem?_eq_none (by omega)]

theorem pointer_newBlock (h : Heap) (p : Option Nat) (k : Bool) (c : Nat) :
    (h.newBlock p k).1.pointer c = if c = h.blocks.length then p else h.pointer c := by
  unfold Heap.pointer
  rw [getElem?_newBlock]
  by_cases hc : c = h.blocks.length
  · rw [if_pos hc, if_pos hc]
  · rw [if_neg hc, if_neg hc]

/-! ## Steps that keep objects, `pointer_` and strong counters -/

theorem keeps_refl (h : Heap) : h.Keeps h := ⟨rfl, fun _ => rfl, fun _ => rfl⟩

theorem keeps_trans {h h1 h2 : Heap} (a : h.Keeps h1) (b : h1.Keeps h2) : h.Keeps h2 :=
  ⟨b.1.trans a.1, fun c => (b.2.1 c).trans (a.2.1 c), fun c => (b.2.2 c).trans (a.2.2 c)⟩

theorem keeps_record (h : Heap) (e : Event) : h.Keeps (h.record e) :=
  ⟨rfl, fun _ => rfl, fun _ => rfl⟩

theorem keeps_useCounter (h : Heap) (b : Nat) : h.Keeps (h.useCounter b) :=
  ⟨objects_useCounter h b, pointer_useCounter h b, strong_useCounter h b⟩

theorem keeps_setWeak (h : Heap) (b n : Nat) : h.Keeps (h.setWeak b n) :=
  ⟨objects_setWeak h b n, pointer_setWeak h b n, strong_setWeak h b n⟩

theorem keeps_releaseBlock (h : Heap) (b : Nat) : h.Keeps (h.releaseBlock b) :=
  ⟨objects_releaseBlock h b, pointer_releaseBlock h b, strong_releaseBlock h b⟩

theorem keeps_releaseIfUnused (h : Heap) (b : Nat) : h.Keeps (releaseIfUnused h b) := by
  unfold releaseIfUnused
  simp only
  split
  · exact keeps_trans (keeps_useCounter h b) (keeps_releaseBlock _ b)
  · exact keeps_useCounter h b

theorem keeps_DecCounterWeak (h : Heap) (b : Nat) : h.Keeps (DecCounterWeak h b) := by
  unfold DecCounterWeak
  exact keeps_trans (keeps_trans (keeps_useCounter h b) (keeps_setWeak _ b _))
    (keeps_releaseIfUnused _ b)

theorem keeps_WeakPtr_dtor (h : Heap) (w : WeakPtr) : h.Keeps (WeakPtr.dtor h w) := by
  unfold WeakPtr.dtor
  split
  · exact keeps_DecCounterWeak h _
  · exact keeps_refl h

theorem keeps_IncCounter_weak (h : Heap) (b : Nat) : h.Keeps (IncCounter h b true) := by
  unfold IncCounter
  simp only [if_true]
  exact keeps_trans (keeps_useCounter h b) (keeps_setWeak _ b _)

theorem keeps_DecCounter_weak (h : Heap) (b : Nat) : h.Keeps (DecCounter h b true) := by
  rw [DecCounter_true]
  exact keeps_DecCounterWeak h b

/-! ## Ownership of slots through the primitives -/

theorem owned_of_keeps {h h1 : Heap} {x : Option Nat} (ho : h.OwnedBut x) (k : h.Keeps h1) :
    h1.OwnedBut x := by
  intro a w b ha hb
  rw [k.1] at ha
  rw [k.2.1 b, k.2.2 b]
  exact ho a w b ha hb

theorem owned_weaken {h : Heap} (ho : h.SlotsOwned) (x : Option Nat) : h.OwnedBut x := by
  intro a w b ha hb
  exact ⟨(ho a w b ha hb).1, fun _ => (ho a w b ha hb).2 (by simp)⟩

theorem owned_setStrong {h : Heap} {x : Option Nat} (ho : h.OwnedBut x) (b n : Nat)
    (hn : b < h.blocks.length → 0 < n ∨ x = some b) :
    (h.setStrong b n).OwnedBut x := by
  intro a w c ha hc
  rw [objects_setStrong] at ha
  rw [pointer_setStrong, strong_setStrong]
  refine ⟨(ho a w c ha hc).1, fun hx => ?_⟩
  split
  · rename_i hcb
    rcases hn hcb.2 with h1 | h1
    · exact h1
    · exact absurd (by rw [h1, hcb.1]) hx
  · exact (ho a w c ha hc).2 hx

theorem owned_IncCounter_strong {h : Heap} (ho : h.SlotsOwned) (b : Nat)
    (hlim : h.strong b + 1 < SIZE_MOD) : (IncCounter h b false).SlotsOwned := by
  unfold IncCounter
  simp only [Bool.false_eq_true, if_false]
  refine owned_setStrong (owned_of_keeps ho (keeps_useCounter h b)) b _ (fun _ => Or.inl ?_)
  rw [strong_useCounter, Nat.mod_eq_of_lt hlim]
  omega

theorem owned_newBlock {h : Heap} (ho : h.SlotsOwned) (p : Option Nat) (k : Bool) :
    (h.newBlock p k).1.SlotsOwned := by
  intro a w b ha hb
  have hobj : (h.newBlock p k).1.objects = h.objects := rfl
  rw [hobj] at ha
  have hp := ho a w b ha hb
  have hlt : b < h.blocks.length := by
    by_contra hn
    rw [pointer_none_of_not_lt h b hn] at hp
    exact absurd hp.1 (by simp)
  have hne : b ≠ h.blocks.length := by omega
  rw [pointer_newBlock, if_neg hne]
  refine ⟨hp.1, fun hx => ?_⟩
  have : (h.newBlock p k).1.strong b = h.strong b := by
    unfold Heap.strong
    rw [getElem?_newBlock, if_neg hne]
  rw [this]
  exact hp.2 hx

theorem owned_append {h : Heap} (ho : h.SlotsOwned) (v : Option WeakPtr)
    (hv : slotBlock v = none) :
    ({ h with objects := h.objects ++ [v] } : Heap).SlotsOwned := by
  intro a w b ha hb
  have ha2 : (h.objects ++ [v])[a]? = some (some w) := ha
  rw [List.getElem?_append] at ha2
  split at ha2
  · exact ho a w b ha2 hb
  · rename_i hlt
    by_cases h0 : a - h.objects.length = 0
    · rw [h0] at ha2
      simp only [List.getElem?_cons_zero, Option.some.injEq] at ha2
      rw [ha2] at hv
      simp only [slotBlock] at hv
      rw [hv] at hb
      exact absurd hb (by simp)
    · have : ([v] : List (Option WeakPtr))[a - h.objects.length]? = none := by
        apply List.getElem?_eq_none
        simp only [List.length_singleton]
        omega
      rw [this] at ha2
      exact absurd ha2 (by simp)

theorem owned_set_slot {h : Heap} (ho : h.SlotsOwned) (a : Nat) (v : WeakPtr) (n : Nat)
    (hv : v.block_ = some n) (hp : h.pointer n = some a) (hs : 0 < h.strong n) :
    ({ h with objects := h.objects.set a (some v) } : Heap).SlotsOwned := by
  intro a1 w b ha hb
  have ha2 : (h.objects.set a (some v))[a1]? = some (some w) := ha
  rw [List.getElem?_set] at ha2
  show h.pointer b = some a1 ∧ (none ≠ some b → 0 < h.strong b)
  split at ha2
  · rename_i heq
    split at ha2
    · simp only [Option.some.injEq] at ha2
      subst ha2
      rw [hv] at hb
      injection hb with hb
      subst hb
      subst heq
      exact ⟨hp, fun _ => hs⟩
    · exact absurd ha2 (by simp)
  · exact ho a1 w b ha2 hb

/-! ## Ownership of slots through the destruction of a payload -/

theorem owned_strengthen {h : Heap} {b : Nat} (ho : h.OwnedBut (some b))
    (hs : 0 < h.strong b) : h.SlotsOwned := by
  intro a w c ha hc
  refine ⟨(ho a w c ha hc).1, fun _ => ?_⟩
  by_cases e : c = b
  · rw [e]
    exact hs
  · exact (ho a w c ha hc).2 (fun x => e (by injection x with x; exact x.symm))

theorem owned_of_no_slot {h : Heap} {b : Nat} (ho : h.OwnedBut (some b))
    (hn : ∀ (a : Nat) (w : WeakPtr), h.objects[a]? = some (some w) → w.block_ ≠ some b) :
    h.SlotsOwned := by
  intro a w c ha hc
  refine ⟨(ho a w c ha hc).1, fun _ => ?_⟩
  have e : c ≠ b := by
    intro e
    rw [e] at hc
    exact hn a w ha hc
  exact (ho a w c ha hc).2 (fun x => e (by injection x with x; exact x.symm))

theorem owned_destroyObject {h : Heap} {b : Nat} (p : Option Nat) (hp : h.pointer b = p)
    (ho : h.OwnedBut (some b)) :
    (destroyObject h p).SlotsOwned ∧
    ∀ (a : Nat) (w : WeakPtr), (destroyObject h p).objects[a]? = some (some w) →
      w.block_ ≠ some b := by
  cases p with
  | none =>
    have hn : ∀ (a : Nat) (w : WeakPtr), h.objects[a]? = some (some w) →
        w.block_ ≠ some b := by
      intro a w ha hc
      have := (ho a w b ha hc).1
      rw [hp] at this
      exact absurd this (by simp)
    exact ⟨owned_of_no_slot ho hn, hn⟩
  | some a0 =>
    unfold destroyObject
    simp only
    split
    · rename_i w0 hw0
      have hobj : (WeakPtr.dtor { h with objects := h.objects.set a0 none } w0).objects
          = h.objects.set a0 none := objects_WeakPtr_dtor _ w0
      have hsl : ∀ (a : Nat) (w : WeakPtr), (h.objects.set a0 none)[a]? = some (some w) →
          a ≠ a0 ∧ h.objects[a]? = some (some w) := by
        intro a w ha
        rw [List.getElem?_set] at ha
        split at ha
        · split at ha
          · exact absurd ha (by simp)
          · exact absurd ha (by simp)
        · rename_i hne
          exact ⟨fun e => hne e.symm, ha⟩
      have hn : ∀ (a : Nat) (w : WeakPtr), (h.objects.set a0 none)[a]? = some (some w) →
          w.block_ ≠ some b := by
        intro a w ha hc
        have h1 := hsl a w ha
        have h2 := (ho a w b h1.2 hc).1
        rw [hp] at h2
        injection h2 with h2
        exact h1.1 h2.symm
      have o1 : ({ h with objects := h.objects.set a0 none } : Heap).OwnedBut (some b) := by
        intro a w c ha hc
        exact ho a w c (hsl a w ha).2 hc
      have o2 : ({ h with objects := h.objects.set a0 none } : Heap).SlotsOwned :=
        owned_of_no_slot o1 hn
      refine ⟨owned_of_keeps o2 (keeps_WeakPtr_dtor _ w0), ?_⟩
      intro a w ha
      rw [hobj] at ha
      exact hn a w ha
    · rename_i hno
      have hn : ∀ (a : Nat) (w : WeakPtr), h.objects[a]? = some (some w) →
          w.block_ ≠ some b := by
        intro a w ha hc
        have h2 := (ho a w b ha hc).1
        rw [hp] at h2
        injection h2 with h2
        subst h2
        exact hno w ha
      exact ⟨owned_of_no_slot ho hn, hn⟩

theorem owned_clearPointer {h : Heap} {b : Nat} (ho : h.SlotsOwned)
    (hn : ∀ (a : Nat) (w : WeakPtr), h.objects[a]? = some (some w) → w.block_ ≠ some b) :
    (h.clearPointer b).SlotsOwned := by
  intro a w c ha hc
  rw [objects_clearPointer] at ha
  have e : c ≠ b := by
    intro e
    rw [e] at hc
    exact hn a w ha hc
  rw [pointer_clearPointer h b c e, strong_clearPointer]
  exact ho a w c ha hc

theorem owned_destroyPayload {h : Heap} {b : Nat} (ho : h.OwnedBut (some b)) :
    (destroyPayload h b).SlotsOwned := by
  unfold destroyPayload
  cases hb : h.blocks[b]? with
  | none =>
    simp only
    refine owned_of_no_slot ho ?_
    intro a w ha hc
    have := (ho a w b ha hc).1
    unfold Heap.pointer at this
    rw [hb] at this
    exact absurd this (by simp)
  | some c =>
    simp only
    have hp : (h.record (Event.destroy b)).pointer b = c.pointer_ := by
      rw [pointer_record]
      unfold Heap.pointer
      rw [hb]
    have o1 := owned_destroyObject c.pointer_ hp (owned_of_keeps ho (keeps_record h _))
    split
    · exact o1.1
    · exact owned_clearPointer o1.1 o1.2

theorem owned_DecCounter_strong {h : Heap} (ho : h.SlotsOwned) (b : Nat) :
    (DecCounter h b false).SlotsOwned := by
  unfold DecCounter
  simp only [Bool.false_eq_true, if_false]
  have o1 : ((h.useCounter b).setStrong b
      (((h.useCounter b).strong b + SIZE_MOD - 1) % SIZE_MOD)).OwnedBut (some b) :=
    owned_setStrong (owned_of_keeps (owned_weaken ho (some b)) (keeps_useCounter h b)) b _
      (fun _ => Or.inr rfl)
  have o2 := owned_of_keeps o1 (keeps_useCounter _ b)
  refine owned_of_keeps ?_ (keeps_releaseIfUnused _ b)
  split
  · exact owned_destroyPayload o2
  · rename_i hs
    exact owned_strengthen o2 (by omega)

theorem owned_releaseStrong {h : Heap} (ho : h.SlotsOwned) (b : Nat) :
    (releaseStrong h b).SlotsOwned := by
  unfold releaseStrong
  exact owned_of_keeps
    (owned_DecCounter_strong (owned_of_keeps ho (keeps_IncCounter_weak h b)) b)
    (keeps_DecCounter_weak _ b)

theorem owned_InitWeakThis {h : Heap} {n : Nat} (ho : h.SlotsOwned) (this : SharedPtr)
    (e : Option Nat) (hb : this.block_ = some n) (hp : h.pointer n = e)
    (hs : 0 < h.strong n) : (SharedPtr.InitWeakThis h this e).SlotsOwned := by
  have k1 := keeps_IncCounter_weak h n
  unfold SharedPtr.InitWeakThis WeakPtr.ofShared
  rw [hb]
  simp only
  split
  · rename_i a w hsl
    unfold WeakPtr.moveAssign
    simp only
    by_cases hwb : w.block_ = some n
    · simp only [hwb, if_true]
      refine owned_of_keeps ?_ (keeps_WeakPtr_dtor _ _)
      refine owned_set_slot (owned_of_keeps ho k1) a w n hwb ?_ ?_
      · rw [k1.2.1, hp]
      · rw [k1.2.2]
        exact hs
    · simp only [hwb, if_false]
      refine owned_of_keeps ?_ (keeps_WeakPtr_dtor _ _)
      cases hwc : w.block_ with
      | none =>
        simp only
        refine owned_set_slot (owned_of_keeps ho k1) a _ n rfl ?_ ?_
        · rw [k1.2.1, hp]
        · rw [k1.2.2]
          exact hs
      | some c0 =>
        simp only
        have k2 := keeps_trans k1 (keeps_DecCounter_weak (IncCounter h n true) c0)
        refine owned_set_slot (owned_of_keeps ho k2) a _ n rfl ?_ ?_
        · rw [k2.2.1, hp]
        · rw [k2.2.2]
          exact hs
  · exact owned_of_keeps ho
      (keeps_trans (keeps_trans k1 (keeps_record _ _)) (keeps_WeakPtr_dtor _ _))

/-! ## Ownership of slots through the operations on handles -/

theorem owned_addStrong {h : Heap} (ho : h.SlotsOwned) (o : Option Nat)
    (hlim : ∀ b, o = some b → h.strong b + 1 < SIZE_MOD) :
    (match o with
      | some b => IncCounter h b false
      | none => h).SlotsOwned := by
  cases o with
  | none => exact ho
  | some b => exact owned_IncCounter_strong ho b (hlim b rfl)

theorem owned_copy {h : Heap} (ho : h.SlotsOwned) (s : SharedPtr)
    (hlim : ∀ b, s.block_ = some b → h.strong b + 1 < SIZE_MOD) :
    (SharedPtr.copy h s).1.SlotsOwned := by
  unfold SharedPtr.copy
  cases hb : s.block_ with
  | none => exact ho
  | some b => exact owned_IncCounter_strong ho b (hlim b hb)

theorem owned_alias {h : Heap} (ho : h.SlotsOwned) (s : SharedPtr) (ptr : Option Nat)
    (hlim : ∀ b, s.block_ = some b → h.strong b + 1 < SIZE_MOD) :
    (SharedPtr.alias h s ptr).1.SlotsOwned := by
  unfold SharedPtr.alias
  cases hb : s.block_ with
  | none => exact ho
  | some b => exact owned_IncCounter_strong ho b (hlim b hb)

theorem owned_ofWeak {h : Heap} (ho : h.SlotsOwned) (x : WeakPtr) (r : Heap × SharedPtr)
    (hok : SharedPtr.ofWeak h x = Except.ok r)
    (hlim : ∀ b, x.block_ = some b → h.strong b + 1 < SIZE_MOD) : r.1.SlotsOwned := by
  unfold SharedPtr.ofWeak at hok
  split at hok
  · exact absurd hok (by simp)
  · cases hb : x.block_ with
    | none =>
      rw [hb] at hok
      simp only at hok
      injection hok with hok
      rw [← hok]
      exact ho
    | some b =>
      rw [hb] at hok
      simp only at hok
      injection hok with hok
      rw [← hok]
      exact owned_IncCounter_strong ho b (hlim b hb)

theorem owned_Lock {h : Heap} (ho : h.SlotsOwned) (x : WeakPtr) (r : Heap × SharedPtr)
    (hok : WeakPtr.Lock h x = Except.ok r)
    (hlim : ∀ b, x.block_ = some b → h.strong b + 1 < SIZE_MOD) : r.1.SlotsOwned := by
  unfold WeakPtr.Lock at hok
  split at hok
  · exact owned_ofWeak ho x r hok hlim
  · injection hok with hok
    rw [← hok]
    exact ho

theorem owned_dropStrong {h : Heap} (ho : h.SlotsOwned) (o : Option Nat) :
    (match o with
      | some b => DecCounter h b false
      | none => h).SlotsOwned := by
  cases o with
  | none => exact ho
  | some b => exact owned_DecCounter_strong ho b

theorem strong_dropStrong (h : Heap) (o : Option Nat) (c : Nat) (hc : o ≠ some c) :
    (match o with
      | some b => DecCounter h b false
      | none => h).strong c = h.strong c := by
  cases o with
  | none => rfl
  | some b =>
    simp only
    rw [(DecCounter_strong_spec h b).2.1 c, if_neg]
    intro x
    exact hc (by rw [x.1])

theorem owned_assign {h : Heap} (ho : h.SlotsOwned) (s o : SharedPtr)
    (hlim : ∀ c, o.block_ = some c → s.block_ ≠ some c → h.strong c + 1 < SIZE_MOD) :
    (SharedPtr.assign h s o).1.SlotsOwned := by
  unfold SharedPtr.assign
  split
  · exact ho
  · rename_i hne
    have o1 := owned_dropStrong ho s.block_
    cases hc : o.block_ with
    | none => exact o1
    | some c =>
      simp only
      refine owned_IncCounter_strong o1 c ?_
      have hsc : s.block_ ≠ some c := by rw [← hc]; exact hne
      rw [strong_dropStrong h s.block_ c hsc]
      exact hlim c hc hsc

theorem owned_moveAssign {h : Heap} (ho : h.SlotsOwned) (s o : SharedPtr) :
    (SharedPtr.moveAssign h s o).1.SlotsOwned := by
  unfold SharedPtr.moveAssign
  split
  · exact ho
  · exact owned_dropStrong ho s.block_

theorem owned_dtor {h : Heap} (ho : h.SlotsOwned) (s : SharedPtr) :
    (SharedPtr.dtor h s).SlotsOwned := by
  unfold SharedPtr.dtor
  cases s.block_ with
  | none => exact ho
  | some b => exact owned_releaseStrong ho b

theorem owned_Reset {h : Heap} (ho : h.SlotsOwned) (s : SharedPtr) :
    (SharedPtr.Reset h s).1.SlotsOwned := by
  unfold SharedPtr.Reset
  cases s.block_ with
  | none => exact ho
  | some b =>
    dsimp only
    exact owned_releaseStrong ho b

theorem owned_ResetPtr {h : Heap} (ho : h.SlotsOwned) (s : SharedPtr) (ptr : Option Nat) :
    (SharedPtr.ResetPtr h s ptr).1.SlotsOwned := by
  unfold SharedPtr.ResetPtr
  cases s.block_ with
  | none =>
    dsimp only
    exact owned_newBlock ho ptr false
  | some b =>
    dsimp only
    exact owned_newBlock (owned_releaseStrong ho b) ptr false

theorem owned_ofPtr {h : Heap} (ho : h.SlotsOwned) (ptr : Option Nat) (esft : Bool) :
    (SharedPtr.ofPtr h ptr esft).1.SlotsOwned := by
  cases esft with
  | false =>
    rw [ofPtr_false]
    exact owned_newBlock ho ptr false
  | true =>
    rw [ofPtr_true]
    refine owned_InitWeakThis (owned_newBlock ho ptr false) _ ptr rfl ?_ ?_
    · rw [pointer_newBlock, if_pos rfl]
    · rw [(newBlock_spec h ptr false).2.2.1]
      exact Nat.one_pos

theorem owned_MakeShared {h : Heap} (ho : h.SlotsOwned) (esft : Bool) :
    (MakeShared h esft).1.SlotsOwned := by
  cases esft with
  | false =>
    rw [MakeShared_false]
    exact owned_newBlock (owned_append ho none rfl) _ true
  | true =>
    rw [MakeShared_true]
    refine owned_InitWeakThis (owned_newBlock (owned_append ho (some WeakPtr.empty) rfl) _ true)
      _ _ rfl ?_ ?_
    · rw [pointer_newBlock, if_pos rfl]
    · rw [(newBlock_spec _ _ true).2.2.1]
      exact Nat.one_pos

theorem keeps_weakCopy (h : Heap) (x : WeakPtr) : h.Keeps (WeakPtr.copy h x).1 := by
  unfold WeakPtr.copy
  cases x.block_ with
  | none => exact keeps_refl h
  | some b => exact keeps_IncCounter_weak h b

theorem keeps_ofShared (h : Heap) (s : SharedPtr) : h.Keeps (WeakPtr.ofShared h s).1 := by
  unfold WeakPtr.ofShared
  cases s.block_ with
  | none => exact keeps_refl h
  | some b => exact keeps_IncCounter_weak h b

theorem keeps_WeakFromThis (h : Heap) (p : Option Nat) : h.Keeps (WeakFromThis h p).1 := by
  unfold WeakFromThis
  split
  · exact keeps_weakCopy h _
  · exact keeps_weakCopy h _

theorem keeps_dropWeak (h : Heap) (o : Option Nat) :
    h.Keeps (match o with
      | some b => DecCounter h b true
      | none => h) := by
  cases o with
  | none => exact keeps_refl h
  | some b => exact keeps_DecCounter_weak h b

theorem keeps_weakAssign (h : Heap) (x o : WeakPtr) : h.Keeps (WeakPtr.assign h x o).1 := by
  unfold WeakPtr.assign
  split
  · exact keeps_refl h
  · cases o.block_ with
    | none => exact keeps_dropWeak h x.block_
    | some c => exact keeps_trans (keeps_dropWeak h x.block_) (keeps_IncCounter_weak _ c)

theorem keeps_weakMoveAssign (h : Heap) (x o : WeakPtr) :
    h.Keeps (WeakPtr.moveAssign h x o).1 := by
  unfold WeakPtr.moveAssign
  split
  · exact keeps_refl h
  · exact keeps_dropWeak h x.block_

theorem keeps_weakReset (h : Heap) (x : WeakPtr) : h.Keeps (WeakPtr.Reset h x).1 := by
  unfold WeakPtr.Reset
  cases x.block_ with
  | none => exact keeps_refl h
  | some b => exact keeps_DecCounter_weak h b

/-! ## Ownership of slots is an invariant of programs -/

theorem copy_block (h : Heap) (s : SharedPtr) : (SharedPtr.copy h s).2.block_ = s.block_ := by
  unfold SharedPtr.copy
  cases s.block_ <;> rfl

theorem alias_block (h : Heap) (s : SharedPtr) (ptr : Option Nat) :
    (SharedPtr.alias h s ptr).2.block_ = s.block_ := by
  unfold SharedPtr.alias
  cases s.block_ <;> rfl

theorem ofWeak_block (h : Heap) (x : WeakPtr) (r : Heap × SharedPtr)
    (hok : SharedPtr.ofWeak h x = Except.ok r) : r.2.block_ = x.block_ := by
  unfold SharedPtr.ofWeak at hok
  split at hok
  · exact absurd hok (by simp)
  · cases hb : x.block_ with
    | none =>
      rw [hb] at hok
      simp only at hok
      injection hok with hok
      rw [← hok]
    | some b =>
      rw [hb] at hok
      simp only at hok
      injection hok with hok
      rw [← hok]

theorem lim_of_append (w : World) (hw : w.Inv) (t : SharedPtr) (b : Nat)
    (hl : ∀ c, refs ((w.shared ++ [t]).map SharedPtr.block_) c < SIZE_MOD)
    (ht : t.block_ = some b) (hlive : w.heap.live b = true) :
    w.heap.strong b + 1 < SIZE_MOD := by
  have h1 := hl b
  rw [refs_map_append, ht, ind_some, if_pos rfl] at h1
  rw [(hw.heap.counts b hlive).1]
  exact h1

theorem lim_of_set (w : World) (hw : w.Inv) (i : Nat) (s t : SharedPtr) (b : Nat)
    (hs : w.shared[i]? = some s)
    (hl : ∀ c, refs ((w.shared.set i t).map SharedPtr.block_) c < SIZE_MOD)
    (ht : t.block_ = some b) (hne : s.block_ ≠ some b) (hlive : w.heap.live b = true) :
    w.heap.strong b + 1 < SIZE_MOD := by
  have h1 := hl b
  have h2 := refs_map_set SharedPtr.block_ w.shared i s t b hs
  rw [ht, ind_some, if_pos rfl] at h2
  have h3 : ind s.block_ b = 0 := by
    unfold ind
    rw [if_neg hne]
  rw [(hw.heap.counts b hlive).1]
  dsimp only [World.sharedRefs]
  omega

theorem owned_of_pointer (h : Heap) (b a : Nat) (hp : h.pointer b = some a)
    (hs : 0 < h.strong b) : h.owned (some a) = true := by
  unfold Heap.owned
  rw [List.any_eq_true]
  unfold Heap.pointer at hp
  unfold Heap.strong at hs
  cases hb : h.blocks[b]? with
  | none =>
    rw [hb] at hs
    exact absurd hs (by simp)
  | some c =>
    rw [hb] at hp hs
    simp only at hp hs
    refine ⟨c, List.getElem?_mem hb, ?_⟩
    simp [hp]
    omega

/-- Deleting a payload that no control block owns removes a `weak_this_` that
points to no block. -/
theorem owned_deleteObject {h : Heap} (ho : h.SlotsOwned) (p : Option Nat)
    (hp : h.owned p = false) : (destroyObject h p).SlotsOwned := by
  unfold destroyObject
  cases p with
  | none => exact ho
  | some a =>
    dsimp only
    cases hobj : h.objects[a]? with
    | none => exact ho
    | some v =>
      cases v with
      | none => exact ho
      | some w =>
        dsimp only
        have hwb : w.block_ = none := by
          rcases Option.eq_none_or_eq_some w.block_ with e | ⟨b, e⟩
          · exact e
          · have h1 := ho a w b hobj e
            have h2 := owned_of_pointer h b a h1.1 (h1.2 (by simp))
            rw [hp] at h2
            exact absurd h2 (by simp)
        unfold WeakPtr.dtor
        rw [hwb]
        dsimp only
        intro a1 w1 b1 h1 hb1
        have h2 : h.objects[a1]? = some (some w1) := by
          rw [List.getElem?_set] at h1
          split at h1
          · split at h1 <;> exact absurd h1 (by simp)
          · exact h1
        exact ho a1 w1 b1 h2 hb1

theorem owned_exec (w w1 : World) (hw : w.Inv) (ho : w.heap.SlotsOwned) (op : Op)
    (hop : op.copiesPayload = false)
    (he : w.exec op = some w1) (hsz : w1.size < SIZE_MOD) : w1.heap.SlotsOwned := by
  have hl1 := w1.strong_lim hsz
  cases op with
  | copyObject p => exact absurd hop (by simp [Op.copiesPayload])
  | makeSharedFrom p esft => exact absurd hop (by simp [Op.copiesPayload])
  | moveObject p => exact absurd hop (by simp [Op.copiesPayload])
  | assignObject p q => exact absurd hop (by simp [Op.copiesPayload])
  | moveAssignObject p q => exact absurd hop (by simp [Op.copiesPayload])
  | deleteObject p =>
    simp only [World.exec] at he
    split at he
    · exact absurd he (by simp)
    · rename_i hown
      injection he with he
      subst he
      exact owned_deleteObject ho p (by simpa using hown)
  | newObject esft =>
    simp only [World.exec] at he
    injection he with he
    subst he
    unfold newObject
    refine owned_append ho _ ?_
    cases esft <;> rfl
  | emptyShared =>
    simp only [World.exec] at he
    injection he with he
    subst he
    exact ho
  | ofPtr ptr esft =>
    simp only [World.exec] at he
    injection he with he
    subst he
    exact owned_ofPtr ho ptr esft
  | makeShared esft =>
    simp only [World.exec] at he
    injection he with he
    subst he
    exact owned_MakeShared ho esft
  | copy i =>
    simp only [World.exec] at he
    split at he
    · rename_i s hs
      injection he with he
      subst he
      refine owned_copy ho s (fun b hb => ?_)
      exact lim_of_append w hw _ b hl1 (by rw [copy_block]; exact hb)
        (w.shared_block_live hw i s hs b hb)
    · exact absurd he (by simp)
  | aliasing i ptr =>
    simp only [World.exec] at he
    split at he
    · rename_i s hs
      injection he with he
      subst he
      refine owned_alias ho s ptr (fun b hb => ?_)
      exact lim_of_append w hw _ b hl1 (by rw [alias_block]; exact hb)
        (w.shared_block_live hw i s hs b hb)
    · exact absurd he (by simp)
  | move i =>
    simp only [World.exec] at he
    split at he
    · injection he with he
      subst he
      exact ho
    · exact absurd he (by simp)
  | promote k =>
    simp only [World.exec] at he
    split at he
    · rename_i x hx
      split at he
      · rename_i r hr
        injection he with he
        subst he
        refine owned_ofWeak ho x r hr (fun b hb => ?_)
        exact lim_of_append w hw _ b hl1 (by rw [ofWeak_block _ x r hr]; exact hb)
          (w.weak_block_live hw k x hx b hb)
      · injection he with he
        subst he
        exact ho
    · exact absurd he (by simp)
  | lock k =>
    simp only [World.exec] at he
    split at he
    · rename_i x hx
      split at he
      · rename_i r hr
        injection he with he
        subst he
        refine owned_Lock ho x r hr (fun b hb => ?_)
        have hr2 : SharedPtr.ofWeak w.heap x = Except.ok r ∨ r = (w.heap, SharedPtr.empty) := by
          unfold WeakPtr.Lock at hr
          split at hr
          · exact Or.inl hr
          · injection hr with hr
            exact Or.inr hr.symm
        rcases hr2 with hr2 | hr2
        · exact lim_of_append w hw _ b hl1 (by rw [ofWeak_block _ x r hr2]; exact hb)
            (w.weak_block_live hw k x hx b hb)
        · have hlive := w.weak_block_live hw k x hx b hb
          rw [(hw.heap.counts b hlive).1]
          have h3 := World.sharedRefs_le w b
          have h4 := hsz
          unfold World.size at h4
          simp only [List.length_append, List.length_singleton] at h4
          omega
      · injection he with he
        subst he
        exact ho
    · exact absurd he (by simp)
  | sharedFromThis p =>
    simp only [World.exec] at he
    split at he
    · rename_i r hr
      injection he with he
      subst he
      unfold SharedFromThis at hr
      split at hr
      · rename_i x hx
        refine owned_ofWeak ho x r hr (fun b hb => ?_)
        exact lim_of_append w hw _ b hl1 (by rw [ofWeak_block _ x r hr]; exact hb)
          (slot_block_live hw.good p x hx b hb)
      · refine owned_ofWeak ho _ r hr (fun b hb => ?_)
        exact absurd hb (by simp [WeakPtr.empty])
    · injection he with he
      subst he
      exact ho
  | assign i j =>
    simp only [World.exec] at he
    split at he
    · rename_i s o hs hso
      injection he with he
      subst he
      refine owned_assign ho s o (fun c hc hne => ?_)
      exact lim_of_set w hw i s _ c hs hl1 (by rw [assign_block]; exact hc) hne
        (w.shared_block_live hw j o hso c hc)
    · exact absurd he (by simp)
  | moveAssign i j =>
    simp only [World.exec] at he
    split at he
    · injection he with he
      subst he
      exact owned_moveAssign ho _ _
    · exact absurd he (by simp)
  | dtor i =>
    simp only [World.exec] at he
    split at he
    · injection he with he
      subst he
      exact owned_dtor ho _
    · exact absurd he (by simp)
  | reset i =>
    simp only [World.exec] at he
    split at he
    · injection he with he
      subst he
      exact owned_Reset ho _
    · exact absurd he (by simp)
  | resetPtr i ptr =>
    simp only [World.exec] at he
    split at he
    · injection he with he
      subst he
      exact owned_ResetPtr ho _ ptr
    · exact absurd he (by simp)
  | swap i j =>
    simp only [World.exec] at he
    split at he
    · injection he with he
      subst he
      exact ho
    · exact absurd he (by simp)
  | weakFromThis p =>
    simp only [World.exec] at he
    injection he with he
    subst he
    exact owned_of_keeps ho (keeps_WeakFromThis _ p)
  | emptyWeak =>
    simp only [World.exec] at he
    injection he with he
    subst he
    exact ho
  | demote i =>
    simp only [World.exec] at he
    split at he
    · injection he with he
      subst he
      exact owned_of_keeps ho (keeps_ofShared _ _)
    · exact absurd he (by simp)
  | weakCopy k =>
    simp only [World.exec] at he
    split at he
    · injection he with he
      subst he
      exact owned_of_keeps ho (keeps_weakCopy _ _)
    · exact absurd he (by simp)
  | weakMove k =>
    simp only [World.exec] at he
    split at he
    · injection he with he
      subst he
      exact ho
    · exact absurd he (by simp)
  | weakAssign k l =>
    simp only [World.exec] at he
    split at he
    · injection he with he
      subst he
      exact owned_of_keeps ho (keeps_weakAssign _ _ _)
    · exact absurd he (by simp)
  | weakMoveAssign k l =>
    simp only [World.exec] at he
    split at he
    · injection he with he
      subst he
      exact owned_of_keeps ho (keeps_weakMoveAssign _ _ _)
    · exact absurd he (by simp)
  | weakDtor k =>
    simp only [World.exec] at he
    split at he
    · injection he with he
      subst he
      exact owned_of_keeps ho (keeps_WeakPtr_dtor _ _)
    · exact absurd he (by simp)
  | weakReset k =>
    simp only [World.exec] at he
    split at he
    · injection he with he
      subst he
      exact owned_of_keeps ho (keeps_weakReset _ _)
    · exact absurd he (by simp)
  | weakSwap k l =>
    simp only [World.exec] at he
    split at he
    · injection he with he
      subst he
      exact ho
    · exact absurd he (by simp)

theorem plain_reachable (w : World) (hw : Plain w) : Reachable w := by
  induction hw with
  | init => exact Reachable.init
  | step w w1 op _ _ he ih => exact Reachable.step w w1 op ih he

/-- In a program that never copies, moves or assigns a payload object, every
`weak_this_` that points to a block lives in the payload of that block, and
that payload is alive. -/
theorem owned_of_plain (w : World) (hw : Plain w) : w.heap.SlotsOwned := by
  induction hw with
  | init =>
    intro a w b ha hb
    exact absurd ha (by simp [World.init, Heap.empty])
  | step w w1 op hr hop he ih =>
    unfold World.step at he
    split at he
    · rename_i w2 hex
      split at he
      · rename_i hsz
        injection he with he
        subst he
        exact owned_exec w w2 (inv_of_reachable w (plain_reachable w hr)) ih op hop hex hsz
      · exact absurd he (by simp)
    · exact absurd he (by simp)

/-- In a state of a program that never copies, moves or assigns a payload
object, no `weak_this_` points to a block whose strong counter is zero. -/
theorem slotRefs_zero_of_strong_zero (w : World) (hw : Plain w) (b : Nat)
    (hs : w.heap.strong b = 0) : w.heap.slotRefs b = 0 := by
  have ho := owned_of_plain w hw
  unfold Heap.slotRefs refs
  rw [List.count_eq_zero]
  intro hmem
  rw [List.mem_map] at hmem
  rcases hmem with ⟨v, hv, hvb⟩
  rcases List.getElem?_of_mem hv with ⟨a, ha⟩
  cases v with
  | none => exact absurd hvb (by simp [slotBlock])
  | some x =>
    have := (ho a x b ha hvb).2 (by simp)
    omega

/-! ## Counters after single calls, continued -/

theorem dec_succ (n : Nat) (hp : 0 < n) (hn : n < SIZE_MOD) :
    (n + SIZE_MOD - 1) % SIZE_MOD + 1 = n := by
  rw [SIZE_MOD_eq] at hn ⊢
  omega

theorem weak_lt_of_pos (h : Heap) (b : Nat) (hb : 0 < h.weak b) : b < h.blocks.length := by
  by_contra hlt
  rw [weak_zero_of_not_lt h b hlt] at hb
  omega

theorem IncCounter_weak_inc (h : Heap) (b : Nat) (hlt : b < h.blocks.length)
    (hlim : h.weak b + 1 < SIZE_MOD) :
    (IncCounter h b true).weak b = h.weak b + 1 ∧
    (∀ c, c ≠ b → (IncCounter h b true).weak c = h.weak c) ∧
    (∀ c, (IncCounter h b true).strong c = h.strong c) := by
  have sp := IncCounter_weak_spec h b
  refine ⟨?_, fun c hc => ?_, sp.2.1⟩
  · rw [sp.2.2.1 b, if_pos ⟨rfl, hlt⟩]
    exact Nat.mod_eq_of_lt hlim
  · rw [sp.2.2.1 c, if_neg (fun x => hc x.1)]

theorem DecCounterWeak_dec (h : Heap) (b : Nat) (hp : 0 < h.weak b)
    (hn : h.weak b < SIZE_MOD) :
    (DecCounterWeak h b).weak b + 1 = h.weak b ∧
    (∀ c, c ≠ b → (DecCounterWeak h b).weak c = h.weak c) ∧
    (∀ c, (DecCounterWeak h b).strong c = h.strong c) := by
  have sp := DecCounterWeak_spec h b
  refine ⟨?_, fun c hc => ?_, sp.2.1⟩
  · rw [sp.2.2 b, if_pos ⟨rfl, weak_lt_of_pos h b hp⟩]
    exact dec_succ _ hp hn
  · rw [sp.2.2 c, if_neg (fun x => hc x.1)]

theorem step_weakDtor (w : World) (hw : w.Inv) (k : Nat) (x : WeakPtr)
    (hx : w.weak[k]? = some x) :
    w.step (Op.weakDtor k)
      = some { w with heap := WeakPtr.dtor w.heap x, weak := w.weak.eraseIdx k } := by
  unfold World.step
  simp only [World.exec, hx]
  rw [if_pos]
  have h1 := objects_WeakPtr_dtor w.heap x
  have h2 := hw.size
  have h3 := List.length_eraseIdx_le w.weak k
  unfold World.size at h2 ⊢
  dsimp only
  rw [h1]
  omega

theorem slots_ResetPtr (h : Heap) (s : SharedPtr) (ptr : Option Nat) :
    (SharedPtr.ResetPtr h s ptr).1.objects.countP Option.isSome
      ≤ h.objects.countP Option.isSome := by
  unfold SharedPtr.ResetPtr
  cases s.block_ with
  | none =>
    dsimp only [Heap.newBlock]
    exact Nat.le_refl _
  | some b =>
    dsimp only [Heap.newBlock]
    exact slots_releaseStrong h b

theorem step_resetPtr (w : World) (hw : w.Inv) (i : Nat) (s : SharedPtr) (ptr : Option Nat)
    (hs : w.shared[i]? = some s) :
    w.step (Op.resetPtr i ptr)
      = some { w with heap := (SharedPtr.ResetPtr w.heap s ptr).1,
                      shared := w.shared.set i (SharedPtr.ResetPtr w.heap s ptr).2 } := by
  unfold World.step
  simp only [World.exec, hs]
  rw [if_pos]
  have h1 := slots_ResetPtr w.heap s ptr
  have h2 := hw.size
  unfold World.size at h2 ⊢
  dsimp only
  rw [List.length_set]
  omega

theorem strong_newBlock (h : Heap) (p : Option Nat) (k : Bool) (c : Nat) :
    (h.newBlock p k).1.strong c = if c = h.blocks.length then 1 else h.strong c := by
  unfold Heap.strong
  rw [getElem?_newBlock]
  by_cases hc : c = h.blocks.length
  · rw [if_pos hc, if_pos hc]
  · rw [if_neg hc, if_neg hc]

theorem UseCount_mk (h : Heap) (n : Nat) (p : Option Nat) :
    (⟨some n, p⟩ : SharedPtr).UseCount h = h.strong n := rfl

theorem destroys_newBlock (h : Heap) (p : Option Nat) (k : Bool) (c : Nat) :
    (h.newBlock p k).1.destroys c = h.destroys c := rfl

/-- What the release sequence does to the strong counter and to the log of
destroyed payloads, for a block whose strong counter is positive. -/
theorem releaseStrong_dec (h : Heap) (b : Nat) (hpos : 0 < h.strong b)
    (hlim : h.strong b < SIZE_MOD) :
    (releaseStrong h b).blocks.length = h.blocks.length ∧
    (releaseStrong h b).strong b + 1 = h.strong b ∧
    (∀ c, c ≠ b → (releaseStrong h b).strong c = h.strong c) ∧
    (∀ c, (releaseStrong h b).destroys c
      = h.destroys c + if c = b ∧ h.strong b = 1 then 1 else 0) := by
  have sp := releaseStrong_spec h b
  have hlt := strong_lt_of_pos h b hpos
  have hz := dec_eq_zero_iff _ hlim
  refine ⟨sp.1, ?_, fun c hc => ?_, fun c => ?_⟩
  · rw [sp.2.1 b, if_pos ⟨rfl, hlt⟩]
    exact dec_succ _ hpos hlim
  · rw [sp.2.1 c, if_neg (fun x => hc x.1)]
  · rw [sp.2.2 c]
    by_cases hcb : c = b
    · by_cases h1 : h.strong b = 1
      · rw [if_pos ⟨hcb, hlt, hz.2 h1⟩, if_pos ⟨hcb, h1⟩]
      · rw [if_neg (fun x => h1 (hz.1 x.2.2)), if_neg (fun x => h1 x.2)]
    · rw [if_neg (fun x => hcb x.1), if_neg (fun x => hcb x.1)]

theorem loneWorld_reachable : Reachable loneWorld :=
  reachable_run World.init loneWorld loneOps Reachable.init (by decide)

theorem expiredWorld_reachable : Reachable expiredWorld :=
  reachable_run loneWorld expiredWorld [Op.dtor 0] loneWorld_reachable (by decide)

theorem selfWorld_reachable : Reachable selfWorld :=
  reachable_run World.init selfWorld selfOps Reachable.init (by decide)

theorem copyWorld_reachable : Reachable copyWorld :=
  reachable_run World.init copyWorld copyOps Reachable.init (by decide)

theorem orphanWorld_reachable : Reachable orphanWorld :=
  reachable_run copyWorld orphanWorld [Op.dtor 0, Op.weakDtor 0] copyWorld_reachable
    (by decide)

theorem step_deleteObject (w : World) (hw : w.Inv) (p : Option Nat)
    (hown : w.heap.owned p = false) :
    w.step (Op.deleteObject p) = some { w with heap := destroyObject w.heap p } := by
  unfold World.step
  simp only [World.exec, hown, Bool.false_eq_true, if_false]
  rw [if_pos]
  have h1 := slots_destroyObject w.heap p
  have h2 := hw.size
  unfold World.size at h2 ⊢
  dsimp only
  omega

theorem slot_copyObject (h : Heap) (p : Option Nat) (w : WeakPtr) (hs : h.slot p = some w) :
    (copyObject h p).1.slot (some (copyObject h p).2) = some w := by
  rw [copyObject_some h p w hs]
  unfold Heap.slot
  dsimp only
  have e : (WeakPtr.copy h w).2 = w := by
    unfold WeakPtr.copy
    cases w with
    | mk blk obs => cases blk <;> rfl
  rw [List.getElem?_append_right (Nat.le_refl _), Nat.sub_self, e]
  rfl

/-! ## The log of destroyed payloads only grows -/

theorem frame_DecCounter_weak (h : Heap) (b : Nat) : h.Frame (DecCounter h b true) := by
  rw [DecCounter_true]
  exact frame_DecCounterWeak h b

theorem frame_InitWeakThis (h : Heap) (this : SharedPtr) (e : Option Nat) :
    h.Frame (SharedPtr.InitWeakThis h this e) := by
  unfold SharedPtr.InitWeakThis WeakPtr.ofShared
  cases hb : this.block_ with
  | none =>
    simp only
    split
    · unfold WeakPtr.moveAssign
      simp only
      split
      · exact frame_trans (frame_objects h _) (frame_WeakPtr_dtor _ _)
      · refine frame_trans ?_ (frame_WeakPtr_dtor _ _)
        rename_i a w hsl hne
        cases w.block_ with
        | none => exact frame_objects h _
        | some c0 => exact frame_trans (frame_DecCounter_weak h c0) (frame_objects _ _)
    · exact frame_trans (frame_record h _ (fun c => by simp)) (frame_WeakPtr_dtor _ _)
  | some n =>
    have f1 := frame_IncCounter_weak h n
    simp only
    split
    · unfold WeakPtr.moveAssign
      simp only
      split
      · exact frame_trans (frame_trans f1 (frame_objects _ _)) (frame_WeakPtr_dtor _ _)
      · refine frame_trans ?_ (frame_WeakPtr_dtor _ _)
        rename_i a w hsl hne
        cases w.block_ with
        | none => exact frame_trans f1 (frame_objects _ _)
        | some c0 =>
          exact frame_trans (frame_trans f1 (frame_DecCounter_weak _ c0)) (frame_objects _ _)
    · exact frame_trans (frame_trans f1 (frame_record _ _ (fun c => by simp)))
        (frame_WeakPtr_dtor _ _)

theorem mono_of_frame {h h1 : Heap} (f : h.Frame h1) (c : Nat) :
    h.destroys c ≤ h1.destroys c := by
  rw [f.2.2 c]

theorem mono_addStrong (h : Heap) (o : Option Nat) (c : Nat) :
    h.destroys c ≤ (match o with
      | some b => IncCounter h b false
      | none => h).destroys c := by
  cases o with
  | none => exact Nat.le_refl _
  | some b =>
    dsimp only
    rw [(IncCounter_strong_spec h b).2.2.2 c]

theorem mono_dropStrong (h : Heap) (o : Option Nat) (c : Nat) :
    h.destroys c ≤ (match o with
      | some b => DecCounter h b false
      | none => h).destroys c := by
  cases o with
  | none => exact Nat.le_refl _
  | some b =>
    dsimp only
    rw [(DecCounter_strong_spec h b).2.2 c]
    exact Nat.le_add_right _ _

theorem mono_releaseOpt (h : Heap) (o : Option Nat) (c : Nat) :
    h.destroys c ≤ (match o with
      | some b => releaseStrong h b
      | none => h).destroys c := by
  cases o with
  | none => exact Nat.le_refl _
  | some b =>
    dsimp only
    rw [(releaseStrong_spec h b).2.2 c]
    exact Nat.le_add_right _ _

theorem mono_copy (h : Heap) (s : SharedPtr) (c : Nat) :
    h.destroys c ≤ (SharedPtr.copy h s).1.destroys c := by
  unfold SharedPtr.copy
  cases s.block_ with
  | none => exact Nat.le_refl _
  | some b => exact mono_addStrong h (some b) c

theorem mono_alias (h : Heap) (s : SharedPtr) (ptr : Option Nat) (c : Nat) :
    h.destroys c ≤ (SharedPtr.alias h s ptr).1.destroys c := by
  unfold SharedPtr.alias
  cases s.block_ with
  | none => exact Nat.le_refl _
  | some b => exact mono_addStrong h (some b) c

theorem mono_ofWeak (h : Heap) (x : WeakPtr) (r : Heap × SharedPtr)
    (hok : SharedPtr.ofWeak h x = Except.ok r) (c : Nat) :
    h.destroys c ≤ r.1.destroys c := by
  unfold SharedPtr.ofWeak at hok
  split at hok
  · exact absurd hok (by simp)
  · rcases Option.eq_none_or_eq_some x.block_ with hb | ⟨b, hb⟩
    · rw [hb] at hok
      simp only at hok
      have e := (Except.ok.inj hok)
      rw [← e]
    · rw [hb] at hok
      simp only at hok
      have e := (Except.ok.inj hok)
      rw [← e]
      exact mono_addStrong h (some b) c

theorem mono_Lock (h : Heap) (x : WeakPtr) (r : Heap × SharedPtr)
    (hok : WeakPtr.Lock h x = Except.ok r) (c : Nat) :
    h.destroys c ≤ r.1.destroys c := by
  unfold WeakPtr.Lock at hok
  split at hok
  · exact mono_ofWeak h x r hok c
  · have e := (Except.ok.inj hok)
    rw [← e]

theorem mono_SharedFromThis (h : Heap) (p : Option Nat) (r : Heap × SharedPtr)
    (hok : SharedFromThis h p = Except.ok r) (c : Nat) :
    h.destroys c ≤ r.1.destroys c := by
  unfold SharedFromThis at hok
  split at hok
  · exact mono_ofWeak h _ r hok c
  · exact mono_ofWeak h _ r hok c

theorem mono_assign (h : Heap) (s o : SharedPtr) (c : Nat) :
    h.destroys c ≤ (SharedPtr.assign h s o).1.destroys c := by
  unfold SharedPtr.assign
  split
  · exact Nat.le_refl _
  · have h1 := mono_dropStrong h s.block_ c
    cases o.block_ with
    | none => exact h1
    | some d =>
      dsimp only
      rw [(IncCounter_strong_spec _ d).2.2.2 c]
      exact h1

theorem mono_moveAssign (h : Heap) (s o : SharedPtr) (c : Nat) :
    h.destroys c ≤ (SharedPtr.moveAssign h s o).1.destroys c := by
  unfold SharedPtr.moveAssign
  split
  · exact Nat.le_refl _
  · exact mono_dropStrong h s.block_ c

theorem mono_dtor (h : Heap) (s : SharedPtr) (c : Nat) :
    h.destroys c ≤ (SharedPtr.dtor h s).destroys c := by
  unfold SharedPtr.dtor
  exact mono_releaseOpt h s.block_ c

theorem mono_Reset (h : Heap) (s : SharedPtr) (c : Nat) :
    h.destroys c ≤ (SharedPtr.Reset h s).1.destroys c := by
  unfold SharedPtr.Reset
  cases s.block_ with
  | none => exact Nat.le_refl _
  | some b =>
    dsimp only
    exact mono_releaseOpt h (some b) c

theorem mono_ResetPtr (h : Heap) (s : SharedPtr) (ptr : Option Nat) (c : Nat) :
    h.destroys c ≤ (SharedPtr.ResetPtr h s ptr).1.destroys c := by
  unfold SharedPtr.ResetPtr
  dsimp only
  rw [destroys_newBlock]
  exact mono_releaseOpt h s.block_ c

theorem mono_ofPtr (h : Heap) (ptr : Option Nat) (esft : Bool) (c : Nat) :
    h.destroys c ≤ (SharedPtr.ofPtr h ptr esft).1.destroys c := by
  cases esft with
  | false =>
    rw [ofPtr_false]
    exact Nat.le_refl _
  | true =>
    rw [ofPtr_true]
    dsimp only
    rw [(frame_InitWeakThis _ _ _).2.2 c, destroys_newBlock]

theorem mono_MakeShared (h : Heap) (esft : Bool) (c : Nat) :
    h.destroys c ≤ (MakeShared h esft).1.destroys c := by
  cases esft with
  | false =>
    rw [MakeShared_false]
    exact Nat.le_refl _
  | true =>
    rw [MakeShared_true]
    dsimp only
    rw [(frame_InitWeakThis _ _ _).2.2 c, destroys_newBlock]
    exact Nat.le_refl _

theorem frame_weakCopy (h : Heap) (x : WeakPtr) : h.Frame (WeakPtr.copy h x).1 := by
  unfold WeakPtr.copy
  cases x.block_ with
  | none => exact frame_refl h
  | some b => exact frame_IncCounter_weak h b

theorem frame_ofShared (h : Heap) (s : SharedPtr) : h.Frame (WeakPtr.ofShared h s).1 := by
  unfold WeakPtr.ofShared
  cases s.block_ with
  | none => exact frame_refl h
  | some b => exact frame_IncCounter_weak h b

theorem frame_WeakFromThis (h : Heap) (p : Option Nat) : h.Frame (WeakFromThis h p).1 := by
  unfold WeakFromThis
  split
  · exact frame_weakCopy h _
  · exact frame_weakCopy h _

theorem frame_dropWeak (h : Heap) (o : Option Nat) :
    h.Frame (match o with
      | some b => DecCounter h b true
      | none => h) := by
  cases o with
  | none => exact frame_refl h
  | some b => exact frame_DecCounter_weak h b

theorem frame_weakAssign (h : Heap) (x o : WeakPtr) : h.Frame (WeakPtr.assign h x o).1 := by
  unfold WeakPtr.assign
  split
  · exact frame_refl h
  · cases o.block_ with
    | none => exact frame_dropWeak h x.block_
    | some c => exact frame_trans (frame_dropWeak h x.block_) (frame_IncCounter_weak _ c)

theorem frame_weakMoveAssign (h : Heap) (x o : WeakPtr) :
    h.Frame (WeakPtr.moveAssign h x o).1 := by
  unfold WeakPtr.moveAssign
  split
  · exact frame_refl h
  · exact frame_dropWeak h x.block_

theorem frame_weakReset (h : Heap) (x : WeakPtr) : h.Frame (WeakPtr.Reset h x).1 := by
  unfold WeakPtr.Reset
  cases x.block_ with
  | none => exact frame_refl h
  | some b => exact frame_DecCounter_weak h b

theorem frame_copyObject (h : Heap) (p : Option Nat) : h.Frame (copyObject h p).1 := by
  rcases Option.eq_none_or_eq_some (h.slot p) with hs | ⟨w, hs⟩
  · rw [copyObject_none h p hs]
    exact frame_objects h _
  · rw [copyObject_some h p w hs]
    exact frame_trans (frame_weakCopy h w) (frame_objects _ _)

theorem frame_moveObject (h : Heap) (p : Option Nat) : h.Frame (moveObject h p).1 := by
  rcases Option.eq_none_or_eq_some (h.slot p) with hs | ⟨w, hs⟩
  · rw [moveObject_none h p hs]
    exact frame_objects h _
  · cases p with
    | none => exact absurd hs (by simp [Heap.slot])
    | some a =>
      rw [moveObject_some h a w hs]
      exact frame_objects h _

theorem frame_assignObject (h : Heap) (p q : Option Nat) : h.Frame (assignObject h p q) := by
  rcases Option.eq_none_or_eq_some (h.slot p) with hx | ⟨x, hx⟩
  · rw [assignObject_none h p q (Or.inl hx)]
    exact frame_refl h
  rcases Option.eq_none_or_eq_some (h.slot q) with ho | ⟨o, ho⟩
  · rw [assignObject_none h p q (Or.inr ho)]
    exact frame_refl h
  cases p with
  | none => exact absurd hx (by simp [Heap.slot])
  | some a =>
    rw [assignObject_some h a q x o hx ho]
    exact frame_trans (frame_weakAssign h x o) (frame_objects _ _)

theorem frame_moveAssignObject (h : Heap) (p q : Option Nat) :
    h.Frame (moveAssignObject h p q) := by
  rcases Option.eq_none_or_eq_some (h.slot p) with hx | ⟨x, hx⟩
  · rw [moveAssignObject_none h p q (Or.inl hx)]
    exact frame_refl h
  rcases Option.eq_none_or_eq_some (h.slot q) with ho | ⟨o, ho⟩
  · rw [moveAssignObject_none h p q (Or.inr ho)]
    exact frame_refl h
  cases p with
  | none => exact absurd hx (by simp [Heap.slot])
  | some a =>
    cases q with
    | none => exact absurd ho (by simp [Heap.slot])
    | some d =>
      rw [moveAssignObject_some h a d x o hx ho]
      exact frame_trans (frame_weakMoveAssign h x o) (frame_objects _ _)

theorem mono_MakeSharedFrom (h : Heap) (p : Option Nat) (esft : Bool) (c : Nat) :
    h.destroys c ≤ (MakeSharedFrom h p esft).1.destroys c := by
  have e0 : ((copyObject h p).1.newBlock (some (copyObject h p).2) true).1.destroys c
      = h.destroys c := by
    rw [destroys_newBlock, (frame_copyObject h p).2.2 c]
  unfold MakeSharedFrom
  cases esft with
  | false =>
    dsimp only
    rw [if_neg (by simp)]
    dsimp only
    rw [e0]
  | true =>
    dsimp only
    rw [if_pos rfl]
    dsimp only
    rw [(frame_InitWeakThis _ _ _).2.2 c, e0]

/-! ## A payload that was destroyed stays destroyed -/

theorem mono_exec (w w1 : World) (op : Op) (he : w.exec op = some w1) (c : Nat) :
    w.heap.destroys c ≤ w1.heap.destroys c := by
  cases op with
  | newObject esft =>
    simp only [World.exec] at he
    injection he with he
    subst he
    exact Nat.le_refl _
  | emptyShared =>
    simp only [World.exec] at he
    injection he with he
    subst he
    exact Nat.le_refl _
  | ofPtr ptr esft =>
    simp only [World.exec] at he
    injection he with he
    subst he
    exact mono_ofPtr _ ptr esft c
  | makeShared esft =>
    simp only [World.exec] at he
    injection he with he
    subst he
    exact mono_MakeShared _ esft c
  | copy i =>
    simp only [World.exec] at he
    split at he
    · injection he with he
      subst he
      exact mono_copy _ _ c
    · exact absurd he (by simp)
  | aliasing i ptr =>
    simp only [World.exec] at he
    split at he
    · injection he with he
      subst he
      exact mono_alias _ _ ptr c
    · exact absurd he (by simp)
  | move i =>
    simp only [World.exec] at he
    split at he
    · injection he with he
      subst he
      exact Nat.le_refl _
    · exact absurd he (by simp)
  | promote k =>
    simp only [World.exec] at he
    split at he
    · split at he
      · rename_i r hr
        injection he with he
        subst he
        exact mono_ofWeak _ _ r hr c
      · injection he with he
        subst he
        exact Nat.le_refl _
    · exact absurd he (by simp)
  | lock k =>
    simp only [World.exec] at he
    split at he
    · split at he
      · rename_i r hr
        injection he with he
        subst he
        exact mono_Lock _ _ r hr c
      · injection he with he
        subst he
        exact Nat.le_refl _
    · exact absurd he (by simp)
  | sharedFromThis p =>
    simp only [World.exec] at he
    split at he
    · rename_i r hr
      injection he with he
      subst he
      exact mono_SharedFromThis _ p r hr c
    · injection he with he
      subst he
      exact Nat.le_refl _
  | assign i j =>
    simp only [World.exec] at he
    split at he
    · injection he with he
      subst he
      exact mono_assign _ _ _ c
    · exact absurd he (by simp)
  | moveAssign i j =>
    simp only [World.exec] at he
    split at he
    · injection he with he
      subst he
      exact mono_moveAssign _ _ _ c
    · exact absurd he (by simp)
  | dtor i =>
    simp only [World.exec] at he
    split at he
    · injection he with he
      subst he
      exact mono_dtor _ _ c
    · exact absurd he (by simp)
  | reset i =>
    simp only [World.exec] at he
    split at he
    · injection he with he
      subst he
      exact mono_Reset _ _ c
    · exact absurd he (by simp)
  | resetPtr i ptr =>
    simp only [World.exec] at he
    split at he
    · injection he with he
      subst he
      exact mono_ResetPtr _ _ ptr c
    · exact absurd he (by simp)
  | swap i j =>
    simp only [World.exec] at he
    split at he
    · injection he with he
      subst he
      exact Nat.le_refl _
    · exact absurd he (by simp)
  | weakFromThis p =>
    simp only [World.exec] at he
    injection he with he
    subst he
    exact mono_of_frame (frame_WeakFromThis _ p) c
  | emptyWeak =>
    simp only [World.exec] at he
    injection he with he
    subst he
    exact Nat.le_refl _
  | demote i =>
    simp only [World.exec] at he
    split at he
    · injection he with he
      subst he
      exact mono_of_frame (frame_ofShared _ _) c
    · exact absurd he (by simp)
  | weakCopy k =>
    simp only [World.exec] at he
    split at he
    · injection he with he
      subst he
      exact mono_of_frame (frame_weakCopy _ _) c
    · exact absurd he (by simp)
  | weakMove k =>
    simp only [World.exec] at he
    split at he
    · injection he with he
      subst he
      exact Nat.le_refl _
    · exact absurd he (by simp)
  | weakAssign k l =>
    simp only [World.exec] at he
    split at he
    · injection he with he
      subst he
      exact mono_of_frame (frame_weakAssign _ _ _) c
    · exact absurd he (by simp)
  | weakMoveAssign k l =>
    simp only [World.exec] at he
    split at he
    · injection he with he
      subst he
      exact mono_of_frame (frame_weakMoveAssign _ _ _) c
    · exact absurd he (by simp)
  | weakDtor k =>
    simp only [World.exec] at he
    split at he
    · injection he with he
      subst he
      exact mono_of_frame (frame_WeakPtr_dtor _ _) c
    · exact absurd he (by simp)
  | weakReset k =>
    simp only [World.exec] at he
    split at he
    · injection he with he
      subst he
      exact mono_of_frame (frame_weakReset _ _) c
    · exact absurd he (by simp)
  | weakSwap k l =>
    simp only [World.exec] at he
    split at he
    · injection he with he
      subst he
      exact Nat.le_refl _
    · exact absurd he (by simp)
  | copyObject p =>
    simp only [World.exec] at he
    injection he with he
    subst he
    exact mono_of_frame (frame_copyObject _ p) c
  | makeSharedFrom p esft =>
    simp only [World.exec] at he
    injection he with he
    subst he
    exact mono_MakeSharedFrom _ p esft c
  | moveObject p =>
    simp only [World.exec] at he
    injection he with he
    subst he
    exact mono_of_frame (frame_moveObject _ p) c
  | assignObject p q =>
    simp only [World.exec] at he
    injection he with he
    subst he
    exact mono_of_frame (frame_assignObject _ p q) c
  | moveAssignObject p q =>
    simp only [World.exec] at he
    injection he with he
    subst he
    exact mono_of_frame (frame_moveAssignObject _ p q) c
  | deleteObject p =>
    simp only [World.exec] at he
    split at he
    · exact absurd he (by simp)
    · injection he with he
      subst he
      exact mono_of_frame (frame_destroyObject _ p) c

theorem mono_step (w w1 : World) (op : Op) (he : w.step op = some w1) (c : Nat) :
    w.heap.destroys c ≤ w1.heap.destroys c := by
  unfold World.step at he
  split at he
  · rename_i w2 hex
    split at he
    · injection he with he
      subst he
      exact mono_exec w w2 op hex c
    · exact absurd he (by simp)
  · exact absurd he (by simp)

theorem mono_run (w w1 : World) (ops : List Op) (hr : w.run ops = some w1) (c : Nat) :
    w.heap.destroys c ≤ w1.heap.destroys c := by
  induction ops generalizing w with
  | nil =>
    unfold World.run at hr
    injection hr with hr
    rw [← hr]
  | cons op ops ih =>
    unfold World.run at hr
    split at hr
    · rename_i w2 h2
      exact Nat.le_trans (mono_step w w2 op h2 c) (ih w2 hr)
    · exact absurd hr (by simp)

/-- Once the strong counter of an allocated block is zero in a state of a
program, it is zero in every later state. -/
theorem strong_zero_persists (w w1 : World) (ops : List Op) (hw : Reachable w)
    (hr : w.run ops = some w1) (b : Nat) (hlt : b < w.heap.blocks.length)
    (hz : w.heap.strong b = 0) :
    b < w1.heap.blocks.length ∧ w1.heap.strong b = 0 := by
  have h1 := (inv_of_reachable w hw).once b
  rw [if_pos ⟨hlt, hz⟩] at h1
  have h2 := mono_run w w1 ops hr b
  have h3 := (inv_of_reachable w1 (reachable_run w w1 ops hw hr)).once b
  by_cases hc : b < w1.heap.blocks.length ∧ w1.heap.strong b = 0
  · exact hc
  · rw [if_neg hc] at h3
    omega

/-! ## `IntrusivePtr`: the counter of an object counts its handles -/

theorem RefCounted.IncRef_spec (o : RefCounted) (hn : o.RefCount + 1 < SIZE_MOD) :
    o.IncRef.RefCount = o.RefCount + 1 ∧ o.IncRef.destroyed = o.destroyed := by
  have e1 : o.IncRef.RefCount = (o.RefCount + 1) % SIZE_MOD := rfl
  rw [e1, Nat.mod_eq_of_lt hn]
  exact ⟨rfl, rfl⟩

/-- Claim C11. `WeakPtr::Expired` is the test `UseCount() == 0`, and `UseCount`
is the stored strong counter of the handle's block, or zero for a handle
without a block; so a handle is expired exactly when it has no block or the
strong counter of its block is zero. -/
theorem C11_expired_iff_strong_zero (h : Heap) (x : WeakPtr) :
    x.Expired h = (x.UseCount h == 0) ∧
    (x.Expired h = true ↔ x.UseCount h = 0) ∧
    x.UseCount h = (match x.block_ with
      | some b => h.strong b
      | none => 0) ∧
    (x.Expired h = true ↔ (x.block_ = none ∨ ∃ b, x.block_ = some b ∧ h.strong b = 0)) ∧
    WeakPtr.empty.Expired h = true := by
  refine ⟨rfl, ?_, ?_, expired_iff h x, ?_⟩
  · unfold WeakPtr.Expired
    exact beq_iff_eq
  · unfold WeakPtr.UseCount GetCounter
    cases x.block_ <;> rfl
  · rfl

/-- Claim C12. Assignment between two `SharedPtr`s on the same block does
nothing: copy assignment returns the heap and `*this` as they were, move
assignment returns the heap, `*this` and the source as they were (the source
is not emptied, `*this` keeps its own payload address); as operations of a
program, both leave the whole state unchanged. -/
theorem C12_same_block_assignment_is_noop (h : Heap) (a b : SharedPtr)
    (hsame : a.block_ = b.block_) :
    SharedPtr.assign h a b = (h, a) ∧
    SharedPtr.moveAssign h a b = (h, a, b) ∧
    SharedPtr.assign h a a = (h, a) ∧
    SharedPtr.moveAssign h a a = (h, a, a) ∧
    (∀ (w : World) (i j : Nat), w.shared[i]? = some a → w.shared[j]? = some b →
      w.exec (Op.assign i j) = some w ∧ w.exec (Op.moveAssign i j) = some w) := by
  have e1 : SharedPtr.assign h a b = (h, a) := by
    unfold SharedPtr.assign
    rw [if_pos hsame]
  have e2 : SharedPtr.moveAssign h a b = (h, a, b) := by
    unfold SharedPtr.moveAssign
    rw [if_pos hsame]
  refine ⟨e1, e2, ?_, ?_, ?_⟩
  · unfold SharedPtr.assign
    rw [if_pos rfl]
  · unfold SharedPtr.moveAssign
    rw [if_pos rfl]
  · intro w i j hi hj
    have f1 : ∀ h0 : Heap, SharedPtr.assign h0 a b = (h0, a) := by
      intro h0
      unfold SharedPtr.assign
      rw [if_pos hsame]
    have f2 : ∀ h0 : Heap, SharedPtr.moveAssign h0 a b = (h0, a, b) := by
      intro h0
      unfold SharedPtr.moveAssign
      rw [if_pos hsame]
    constructor
    · simp only [World.exec, hi, hj, f1, set_self _ _ _ hi]
    · simp only [World.exec, hi, hj, f2, set_self _ _ _ hi, set_self _ _ _ hj]

/-- Witness of C12 on an aliasing pair: two handles on block 0 with different
payload addresses. -/
theorem C12_witness :
    ((⟨some 0, some 0⟩ : SharedPtr).block_ = (⟨some 0, some 5⟩ : SharedPtr).block_) ∧
    SharedPtr.assign demoWorld.heap ⟨some 0, some 0⟩ ⟨some 0, some 5⟩
      = (demoWorld.heap, ⟨some 0, some 0⟩) ∧
    SharedPtr.moveAssign demoWorld.heap ⟨some 0, some 0⟩ ⟨some 0, some 5⟩
      = (demoWorld.heap, ⟨some 0, some 0⟩, ⟨some 0, some 5⟩) :=
  ⟨rfl, (C12_same_block_assignment_is_noop demoWorld.heap ⟨some 0, some 0⟩ ⟨some 0, some 5⟩ rfl).1,
    (C12_same_block_assignment_is_noop demoWorld.heap ⟨some 0, some 0⟩ ⟨some 0, some 5⟩ rfl).2.1⟩

/-- Claim C13. Move construction of a `SharedPtr`: the new handle has the block
and the payload address of the source, the source is left without block and
with a null payload address (`UseCount() == 0`, `Get() == nullptr`, converts
to `false`), and as an operation of a program it leaves the heap, hence both
counters of every block, as it was. -/
theorem C13_move_construction (h : Heap) (s : SharedPtr) :
    (SharedPtr.move s).1 = s ∧
    (SharedPtr.move s).1.block_ = s.block_ ∧
    (SharedPtr.move s).1.Get = s.Get ∧
    (SharedPtr.move s).2.block_ = none ∧
    (SharedPtr.move s).2.Get = none ∧
    (SharedPtr.move s).2.UseCount h = 0 ∧
    (SharedPtr.move s).2.toBool = false ∧
    (∀ (w : World) (i : Nat), w.shared[i]? = some s →
      ∃ w1, w.exec (Op.move i) = some w1 ∧ w1.heap = w.heap ∧
        w1.shared = w.shared.set i ⟨none, none⟩ ++ [s] ∧ w1.weak = w.weak ∧
        (∀ b, w1.heap.strong b = w.heap.strong b ∧ w1.heap.weak b = w.heap.weak b)) := by
  refine ⟨rfl, rfl, rfl, rfl, rfl, rfl, rfl, ?_⟩
  intro w i hi
  refine ⟨{ w with shared := w.shared.set i ⟨none, none⟩ ++ [s] }, ?_, rfl, rfl, rfl, ?_⟩
  · simp only [World.exec, hi, SharedPtr.move]
  · intro b
    exact ⟨rfl, rfl⟩

/-- Witness of C13: move construction from the first handle of the example
program. -/
theorem C13_witness :
    demoWorld.shared[0]? = some ⟨some 0, some 0⟩ ∧
    ∃ w1, demoWorld.exec (Op.move 0) = some w1 ∧ w1.heap = demoWorld.heap ∧
      w1.shared = demoWorld.shared.set 0 ⟨none, none⟩ ++ [⟨some 0, some 0⟩] ∧
      w1.weak = demoWorld.weak ∧
      (∀ b, w1.heap.strong b = demoWorld.heap.strong b ∧
        w1.heap.weak b = demoWorld.heap.weak b) :=
  ⟨rfl, (C13_move_construction demoWorld.heap ⟨some 0, some 0⟩).2.2.2.2.2.2.2 demoWorld 0 rfl⟩

/-! ## `WeakFromThis`, `Reset(ptr)` and the slot, `operator bool`, `Swap` -/

theorem WeakFromThis_of_slot (h : Heap) (p : Option Nat) (w : WeakPtr)
    (hs : h.slot p = some w) : WeakFromThis h p = WeakPtr.copy h w := by
  unfold WeakFromThis
  rw [hs]

theorem weakCopy_snd (h : Heap) (w : WeakPtr) : (WeakPtr.copy h w).2 = w := by
  unfold WeakPtr.copy
  cases w with
  | mk blk obs => cases blk <;> rfl

/-- C17 as stated fails. In `copyWorld`, object 1 is a copy of the payload made
by `MakeShared`; no `SharedPtr` was ever attached to object 1, yet
`WeakFromThis()` on it returns a `WeakPtr` on block 0 that is neither empty nor
expired. -/
theorem C17_counterexample :
    Reachable copyWorld ∧ copyWorld.shared = [⟨some 0, some 0⟩] ∧
    (WeakFromThis copyWorld.heap (some 1)).2 = ⟨some 0, some 0⟩ ∧
    (WeakFromThis copyWorld.heap (some 1)).2 ≠ WeakPtr.empty ∧
    (WeakFromThis copyWorld.heap (some 1)).2.Expired (WeakFromThis copyWorld.heap (some 1)).1
      = false :=
  ⟨copyWorld_reachable, rfl, by decide, by decide, by decide⟩

/-- Claim C17, amended. `WeakFromThis` is a total function (it cannot raise): it
returns a copy of the member `weak_this_`, with the same block and payload
address; the strong counters are unchanged; when the member has a block, the
weak counter of that block grows by one and no other weak counter changes; when
the member has no block, the heap is unchanged and the result is expired. The
member has no block in an object made by `new T`; the implicit copy
constructor of the payload type copies the member, so on a copy of an object
whose member points to a block with a strong handle the result is a `WeakPtr`
on that block that is not expired. -/
theorem C17_weak_from_this :
    (∀ (h : Heap) (p : Option Nat) (w : WeakPtr), h.slot p = some w →
      (WeakFromThis h p).2 = w ∧
      (WeakFromThis h p).2.block_ = w.block_ ∧
      (WeakFromThis h p).2.observed_ = w.observed_ ∧
      (∀ c, (WeakFromThis h p).1.strong c = h.strong c) ∧
      (WeakFromThis h p).1.objects = h.objects ∧
      (∀ b, w.block_ = some b → b < h.blocks.length → h.weak b + 1 < SIZE_MOD →
        (WeakFromThis h p).1.weak b = h.weak b + 1 ∧
        ∀ c, c ≠ b → (WeakFromThis h p).1.weak c = h.weak c) ∧
      (w.block_ = none → (WeakFromThis h p).1 = h ∧ (WeakFromThis h p).2.Expired h = true) ∧
      ((WeakFromThis (copyObject h p).1 (some (copyObject h p).2)).2 = w ∧
        ∀ b, w.block_ = some b → 0 < h.strong b →
          (WeakFromThis (copyObject h p).1 (some (copyObject h p).2)).2.Expired
            (WeakFromThis (copyObject h p).1 (some (copyObject h p).2)).1 = false)) ∧
    (∀ h0 : Heap, WeakFromThis (newObject h0 true).1 (some (newObject h0 true).2)
      = ((newObject h0 true).1, WeakPtr.empty)) := by
  refine ⟨fun h p w hs => ?_, fun h0 => ?_⟩
  swap
  · have hsl : (newObject h0 true).1.slot (some (newObject h0 true).2) = some WeakPtr.empty := by
      simp [newObject, Heap.slot]
    unfold WeakFromThis
    rw [hsl]
    rfl
  have e : WeakFromThis h p = WeakPtr.copy h w := WeakFromThis_of_slot h p w hs
  refine ⟨?_, ?_, ?_, ?_, objects_WeakFromThis h p, ?_, ?_, ?_, ?_⟩
  · rw [e]
    exact weakCopy_snd h w
  · rw [e]
    unfold WeakPtr.copy
    cases w.block_ <;> rfl
  · rw [e]
    unfold WeakPtr.copy
    cases w.block_ <;> rfl
  · intro c
    rw [e]
    unfold WeakPtr.copy
    cases hb : w.block_ with
    | none => rfl
    | some b => exact (IncCounter_weak_spec h b).2.1 c
  · intro b hb hlt hlim
    have e2 : (WeakFromThis h p).1 = IncCounter h b true := by
      rw [e]
      unfold WeakPtr.copy
      rw [hb]
    rw [e2]
    have sp := (IncCounter_weak_spec h b).2.2.1
    constructor
    · rw [sp b, if_pos ⟨rfl, hlt⟩]
      exact Nat.mod_eq_of_lt (by omega)
    · intro c hc
      rw [sp c, if_neg (fun x => hc x.1)]
  · intro hb
    have e2 : WeakFromThis h p = (h, ⟨w.block_, w.observed_⟩) := by
      rw [e]
      unfold WeakPtr.copy
      rw [hb]
    rw [e2]
    refine ⟨rfl, ?_⟩
    rw [expired_iff]
    exact Or.inl hb
  · rw [WeakFromThis_of_slot _ _ w (slot_copyObject h p w hs)]
    exact weakCopy_snd _ w
  · intro b hb hpos
    have e3 := WeakFromThis_of_slot _ _ w (slot_copyObject h p w hs)
    rw [e3, weakCopy_snd]
    have hst : (WeakPtr.copy (copyObject h p).1 w).1.strong b = h.strong b := by
      rw [(frame_weakCopy (copyObject h p).1 w).2.1 b, (frame_copyObject h p).2.1 b]
    cases hx : w.Expired (WeakPtr.copy (copyObject h p).1 w).1 with
    | false => rfl
    | true =>
      rcases (expired_iff _ w).1 hx with hn | ⟨c, hc, hz⟩
      · rw [hb] at hn
        exact absurd hn (by simp)
      · rw [hb] at hc
        have := Option.some.inj hc
        subst this
        omega

/-- Witness of C17 on the example heap: the slot of object 0 points to block 0
and the copy returned raises the weak counter from 2 to 3. -/
theorem C17_witness :
    demoWorld.heap.slot (some 0) = some ⟨some 0, some 0⟩ ∧
    (WeakFromThis demoWorld.heap (some 0)).2 = ⟨some 0, some 0⟩ ∧
    (∀ c, (WeakFromThis demoWorld.heap (some 0)).1.strong c = demoWorld.heap.strong c) :=
  ⟨rfl, (C17_weak_from_this.1 demoWorld.heap (some 0) ⟨some 0, some 0⟩ rfl).1,
    (C17_weak_from_this.1 demoWorld.heap (some 0) ⟨some 0, some 0⟩ rfl).2.2.2.1⟩

/-- Claim C18. The code of `Reset(ptr)` does not populate the slot: after
`SharedPtr<T> h; T* p = new T; h.Reset(p);` for a self-observing `T`, the
member `weak_this_` of `*p` is still empty and `p->SharedFromThis()` raises
`BadWeakPtr`, while after `SharedPtr<T> h(p)` it returns a handle equal to
`h`. For every heap, `Reset(ptr)` on an empty handle leaves all slots as they
were. -/
theorem C18_reset_ptr_leaves_slot_empty :
    (SharedPtr.ResetPtr (newObject Heap.empty true).1 SharedPtr.empty (some 0)).2
      = ⟨some 0, some 0⟩ ∧
    (SharedPtr.ResetPtr (newObject Heap.empty true).1 SharedPtr.empty (some 0)).1.slot (some 0)
      = some WeakPtr.empty ∧
    SharedFromThis (SharedPtr.ResetPtr (newObject Heap.empty true).1 SharedPtr.empty (some 0)).1
      (some 0) = Except.error Exn.BadWeakPtr ∧
    (SharedPtr.ofPtr (newObject Heap.empty true).1 (some 0) true).1.slot (some 0)
      = some ⟨some 0, some 0⟩ ∧
    (∃ r, SharedFromThis (SharedPtr.ofPtr (newObject Heap.empty true).1 (some 0) true).1 (some 0)
      = Except.ok r ∧
      SharedPtr.eq r.2 (SharedPtr.ofPtr (newObject Heap.empty true).1 (some 0) true).2 = true) ∧
    (∀ (h : Heap) (ptr : Option Nat),
      (SharedPtr.ResetPtr h SharedPtr.empty ptr).1.objects = h.objects) := by
  refine ⟨by decide, by decide, rfl, by decide, ⟨_, rfl, rfl⟩, fun h ptr => rfl⟩

/-! ## `operator bool` and `Swap` -/

/-- Claim C20. `operator bool` reads the payload address only: it is true
exactly when `Get()` is not null, whatever the block; a handle adopting a null
pointer (of a type that is not self-observing) has `UseCount() == 1`, converts
to `false` and is not `==` to a default-constructed handle; an aliasing handle
with a null address converts to `false` while its `UseCount()` is positive. -/
theorem C20_bool_tests_payload_address (h : Heap) (s other : SharedPtr) (b : Nat)
    (hb : other.block_ = some b) (hpos : 0 < h.strong b) (hlim : h.strong b + 1 < SIZE_MOD) :
    (s.toBool = true ↔ s.Get ≠ none) ∧
    (∀ blk : Option Nat, (⟨blk, s.observed_⟩ : SharedPtr).toBool = s.toBool) ∧
    ((SharedPtr.ofPtr h none false).2.UseCount (SharedPtr.ofPtr h none false).1 = 1 ∧
      (SharedPtr.ofPtr h none false).2.Get = none ∧
      (SharedPtr.ofPtr h none false).2.toBool = false ∧
      SharedPtr.eq (SharedPtr.ofPtr h none false).2 SharedPtr.empty = false) ∧
    ((SharedPtr.alias h other none).2.toBool = false ∧
      (SharedPtr.alias h other none).2.block_ = some b ∧
      (SharedPtr.alias h other none).2.UseCount (SharedPtr.alias h other none).1
        = h.strong b + 1 ∧
      0 < (SharedPtr.alias h other none).2.UseCount (SharedPtr.alias h other none).1) := by
  refine ⟨?_, fun blk => rfl, ?_, ?_⟩
  · unfold SharedPtr.toBool SharedPtr.Get
    cases s.observed_ <;> simp
  · rw [ofPtr_false]
    refine ⟨?_, rfl, rfl, rfl⟩
    exact (newBlock_spec h none false).2.2.1
  · rw [alias_spec h other none b hb]
    have hlt := strong_lt_of_pos h b hpos
    have e : (IncCounter h b false).strong b = h.strong b + 1 := by
      rw [(IncCounter_strong_spec h b).2.1 b, if_pos ⟨rfl, hlt⟩]
      exact Nat.mod_eq_of_lt hlim
    refine ⟨rfl, rfl, e, ?_⟩
    show 0 < (IncCounter h b false).strong b
    omega

/-- Witness of C20: an aliasing handle with a null address on the block of the
first handle of the example program. -/
theorem C20_witness :
    ((⟨some 0, some 0⟩ : SharedPtr).block_ = some 0 ∧ 0 < pairWorld.heap.strong 0 ∧
      pairWorld.heap.strong 0 + 1 < SIZE_MOD) ∧
    ((SharedPtr.alias pairWorld.heap ⟨some 0, some 0⟩ none).2.toBool = false ∧
      (SharedPtr.alias pairWorld.heap ⟨some 0, some 0⟩ none).2.block_ = some 0 ∧
      (SharedPtr.alias pairWorld.heap ⟨some 0, some 0⟩ none).2.UseCount
        (SharedPtr.alias pairWorld.heap ⟨some 0, some 0⟩ none).1 = pairWorld.heap.strong 0 + 1 ∧
      0 < (SharedPtr.alias pairWorld.heap ⟨some 0, some 0⟩ none).2.UseCount
        (SharedPtr.alias pairWorld.heap ⟨some 0, some 0⟩ none).1) :=
  ⟨⟨rfl, by decide, by decide⟩,
    (C20_bool_tests_payload_address pairWorld.heap ⟨some 0, some 0⟩ ⟨some 0, some 0⟩ 0 rfl
      (by decide) (by decide)).2.2.2⟩

/-- Claim C21. `Swap` on `SharedPtr` and on `WeakPtr` exchanges the two handles
(block and payload address); swapping twice restores both; `a.Swap(b)` and
`b.Swap(a)` have the same effect; `a.Swap(a)` is the identity. As an operation
of a program, `Swap` leaves the heap (all counters, the log of destroyed
payloads) as it was. -/
theorem C21_swap_exchanges_handles (a b : SharedPtr) (x y : WeakPtr) :
    (SharedPtr.Swap a b = (b, a) ∧
      SharedPtr.Swap (SharedPtr.Swap a b).1 (SharedPtr.Swap a b).2 = (a, b) ∧
      SharedPtr.Swap b a = ((SharedPtr.Swap a b).2, (SharedPtr.Swap a b).1) ∧
      SharedPtr.Swap a a = (a, a)) ∧
    (WeakPtr.Swap x y = (y, x) ∧
      WeakPtr.Swap (WeakPtr.Swap x y).1 (WeakPtr.Swap x y).2 = (x, y) ∧
      WeakPtr.Swap y x = ((WeakPtr.Swap x y).2, (WeakPtr.Swap x y).1) ∧
      WeakPtr.Swap x x = (x, x)) ∧
    (∀ (w : World) (i j : Nat), w.shared[i]? = some a → w.shared[j]? = some b →
      (∃ w1, w.exec (Op.swap i j) = some w1 ∧ w1.heap = w.heap ∧ w1.weak = w.weak ∧
        w1.shared = (w.shared.set i b).set j a ∧
        w.exec (Op.swap j i) = some w1 ∧ w1.exec (Op.swap i j) = some w) ∧
      w.exec (Op.swap i i) = some w) ∧
    (∀ (w : World) (k l : Nat), w.weak[k]? = some x → w.weak[l]? = some y →
      (∃ w1, w.exec (Op.weakSwap k l) = some w1 ∧ w1.heap = w.heap ∧ w1.shared = w.shared ∧
        w1.weak = (w.weak.set k y).set l x ∧
        w.exec (Op.weakSwap l k) = some w1 ∧ w1.exec (Op.weakSwap k l) = some w) ∧
      w.exec (Op.weakSwap k k) = some w) := by
  refine ⟨⟨rfl, rfl, rfl, rfl⟩, ⟨rfl, rfl, rfl, rfl⟩, ?_, ?_⟩
  · intro w i j hi hj
    have hil := some_lt_length _ i a hi
    have hjl := some_lt_length _ j b hj
    constructor
    · refine ⟨{ w with shared := (w.shared.set i b).set j a }, ?_, rfl, rfl, rfl, ?_, ?_⟩
      · simp only [World.exec, hi, hj, SharedPtr.Swap]
      · simp only [World.exec, hi, hj, SharedPtr.Swap]
        rw [set_set_comm_swap _ i j a b hi hj]
      · have g1 : ((w.shared.set i b).set j a)[j]? = some a := by
          simp [List.getElem?_set, hjl]
        have g2 : ((w.shared.set i b).set j a)[i]? = some (if j = i then a else b) := by
          simp only [List.getElem?_set, List.length_set]
          by_cases e : j = i
          · simp [e, hil]
          · simp [e, hil]
        simp only [World.exec, g1, g2, SharedPtr.Swap]
        by_cases e : j = i
        · subst e
          rw [hi] at hj
          cases hj
          simp only [if_true, List.set_set, sharedPtr_eta, set_self _ _ _ hi]
        · rw [if_neg e, set_set_swap _ i j a b hi hj]
    · simp only [World.exec, hi, SharedPtr.Swap, List.set_set, sharedPtr_eta, set_self _ _ _ hi]
  · intro w k l hk hl
    have hkl := some_lt_length _ k x hk
    have hll := some_lt_length _ l y hl
    constructor
    · refine ⟨{ w with weak := (w.weak.set k y).set l x }, ?_, rfl, rfl, rfl, ?_, ?_⟩
      · simp only [World.exec, hk, hl, WeakPtr.Swap]
      · simp only [World.exec, hk, hl, WeakPtr.Swap]
        rw [set_set_comm_swap _ k l x y hk hl]
      · have g1 : ((w.weak.set k y).set l x)[l]? = some x := by
          simp [List.getElem?_set, hll]
        have g2 : ((w.weak.set k y).set l x)[k]? = some (if l = k then x else y) := by
          simp only [List.getElem?_set, List.length_set]
          by_cases e : l = k
          · simp [e, hkl]
          · simp [e, hkl]
        simp only [World.exec, g1, g2, WeakPtr.Swap]
        by_cases e : l = k
        · subst e
          rw [hk] at hl
          cases hl
          simp only [if_true, List.set_set, weakPtr_eta, set_self _ _ _ hk]
        · rw [if_neg e, set_set_swap _ k l x y hk hl]
    · simp only [World.exec, hk, WeakPtr.Swap, List.set_set, weakPtr_eta, set_self _ _ _ hk]

/-- Witness of C21: swapping the two handles of the example program with two
blocks. -/
theorem C21_witness :
    (pairWorld.shared[0]? = some ⟨some 0, some 0⟩ ∧
      pairWorld.shared[1]? = some ⟨some 1, some 1⟩) ∧
    ((∃ w1, pairWorld.exec (Op.swap 0 1) = some w1 ∧ w1.heap = pairWorld.heap ∧
        w1.weak = pairWorld.weak ∧
        w1.shared = (pairWorld.shared.set 0 ⟨some 1, some 1⟩).set 1 ⟨some 0, some 0⟩ ∧
        pairWorld.exec (Op.swap 1 0) = some w1 ∧ w1.exec (Op.swap 0 1) = some pairWorld) ∧
      pairWorld.exec (Op.swap 0 0) = some pairWorld) :=
  ⟨⟨rfl, rfl⟩,
    (C21_swap_exchanges_handles ⟨some 0, some 0⟩ ⟨some 1, some 1⟩ WeakPtr.empty
      WeakPtr.empty).2.2.1 pairWorld 0 1 rfl rfl⟩

/-! ## `WeakPtr` operations and the weak counter -/

/-- Copy assignment of a `WeakPtr` on block `b` from a handle on another block
or without block. -/
theorem weakAssign_other (h : Heap) (x o : WeakPtr) (b : Nat) (hx : x.block_ = some b)
    (hp : 0 < h.weak b) (hn : h.weak b < SIZE_MOD) (hne : o.block_ ≠ some b) :
    (WeakPtr.assign h x o).2 = o ∧
    (WeakPtr.assign h x o).1.weak b + 1 = h.weak b ∧
    (∀ c, (WeakPtr.assign h x o).1.strong c = h.strong c) ∧
    (∀ c, o.block_ = some c → c < h.blocks.length → h.weak c + 1 < SIZE_MOD →
      (WeakPtr.assign h x o).1.weak c = h.weak c + 1) ∧
    (∀ c, c ≠ b → o.block_ ≠ some c → (WeakPtr.assign h x o).1.weak c = h.weak c) := by
  have dec := DecCounterWeak_dec h b hp hn
  have hne2 : ¬ x.block_ = o.block_ := by
    rw [hx]
    exact fun e => hne e.symm
  rcases Option.eq_none_or_eq_some o.block_ with ho | ⟨d, ho⟩
  · have e5 : WeakPtr.assign h x o = (DecCounterWeak h b, ⟨o.block_, o.observed_⟩) := by
      unfold WeakPtr.assign
      rw [if_neg hne2, hx, ho]
      dsimp only
      rw [DecCounter_true]
    rw [e5]
    dsimp only
    refine ⟨rfl, dec.1, dec.2.2, ?_, ?_⟩
    · intro c hc
      rw [ho] at hc
      exact absurd hc (by simp)
    · intro c hc _
      exact dec.2.1 c hc
  · have hdb : d ≠ b := fun e => hne (by rw [ho, e])
    have e5 : WeakPtr.assign h x o
        = (IncCounter (DecCounterWeak h b) d true, ⟨o.block_, o.observed_⟩) := by
      unfold WeakPtr.assign
      rw [if_neg hne2, hx, ho]
      dsimp only
      rw [DecCounter_true]
    have sp := IncCounter_weak_spec (DecCounterWeak h b) d
    have len := (DecCounterWeak_spec h b).1
    rw [e5]
    dsimp only
    refine ⟨rfl, ?_, ?_, ?_, ?_⟩
    · rw [sp.2.2.1 b, if_neg (fun x => hdb x.1.symm)]
      exact dec.1
    · intro c
      rw [sp.2.1 c]
      exact dec.2.2 c
    · intro c hc hcl hcm
      rw [ho] at hc
      have hc2 : d = c := Option.some.inj hc
      subst hc2
      rw [sp.2.2.1 d, if_pos ⟨rfl, by rw [len]; exact hcl⟩, dec.2.1 d hdb]
      exact Nat.mod_eq_of_lt hcm
    · intro c hcb hcd
      have hcd2 : c ≠ d := fun e => hcd (by rw [e, ho])
      rw [sp.2.2.1 c, if_neg (fun x => hcd2 x.1)]
      exact dec.2.1 c hcb

/-- Counterexample to C14 as stated. In the example program (a self-observing
payload, two handles, one `WeakPtr`) block 0 is live, its weak counter is 2 and
one `WeakPtr` points to it (the other weak reference is the member
`weak_this_`); and move assignment between two `WeakPtr`s on block 0 leaves the
weak counter at 2 instead of decreasing it, and does not empty the source. -/
theorem C14_counterexample :
    Reachable demoWorld ∧ demoWorld.heap.live 0 = true ∧
    demoWorld.heap.weak 0 = 2 ∧ demoWorld.weakRefs 0 = 1 ∧
    ¬ (demoWorld.heap.weak 0 = demoWorld.weakRefs 0) ∧
    WeakPtr.moveAssign demoWorld.heap ⟨some 0, some 0⟩ ⟨some 0, some 0⟩
      = (demoWorld.heap, ⟨some 0, some 0⟩, ⟨some 0, some 0⟩) ∧
    ¬ ((WeakPtr.moveAssign demoWorld.heap ⟨some 0, some 0⟩ ⟨some 0, some 0⟩).1.weak 0 + 1
      = demoWorld.heap.weak 0) :=
  ⟨demoWorld_reachable, by decide, by decide, by decide, by decide, by decide, by decide⟩

/-- Claim C14, amended. For a `WeakPtr` `x` and a `SharedPtr` `s` on block `b`:
demotion and copy construction return a handle with the block and payload
address of the source and increase the weak counter of `b` by one; move
construction returns the source's fields and empties the source; destruction,
`Reset`, and copy or move assignment from a handle on another block decrease
the weak counter of `b` by one (copy assignment also increases the weak counter
of the new block by one); assignment between handles on the same block changes
nothing; no strong counter changes; and in every state of a program the weak
counter of a live block is the number of `WeakPtr`s on it plus the number of
`weak_this_` members that point to it. -/
theorem C14_weak_operations_touch_weak_counter (h : Heap) (x o : WeakPtr) (s : SharedPtr)
    (b : Nat) (hx : x.block_ = some b) (hs : s.block_ = some b) (hlt : b < h.blocks.length)
    (hlim : h.weak b + 1 < SIZE_MOD) :
    ((WeakPtr.ofShared h s).2.block_ = s.block_ ∧
      (WeakPtr.ofShared h s).2.observed_ = s.observed_ ∧
      (WeakPtr.ofShared h s).1.weak b = h.weak b + 1 ∧
      (∀ c, c ≠ b → (WeakPtr.ofShared h s).1.weak c = h.weak c) ∧
      (∀ c, (WeakPtr.ofShared h s).1.strong c = h.strong c)) ∧
    ((WeakPtr.copy h x).2 = x ∧
      (WeakPtr.copy h x).1.weak b = h.weak b + 1 ∧
      (∀ c, c ≠ b → (WeakPtr.copy h x).1.weak c = h.weak c) ∧
      (∀ c, (WeakPtr.copy h x).1.strong c = h.strong c)) ∧
    ((WeakPtr.move x).1 = x ∧ (WeakPtr.move x).2 = WeakPtr.empty) ∧
    (0 < h.weak b →
      ((WeakPtr.dtor h x).weak b + 1 = h.weak b ∧
        (∀ c, c ≠ b → (WeakPtr.dtor h x).weak c = h.weak c) ∧
        (∀ c, (WeakPtr.dtor h x).strong c = h.strong c)) ∧
      ((WeakPtr.Reset h x).2 = WeakPtr.empty ∧ (WeakPtr.Reset h x).1 = WeakPtr.dtor h x) ∧
      (o.block_ ≠ some b →
        ((WeakPtr.moveAssign h x o).2 = (o, WeakPtr.empty) ∧
          (WeakPtr.moveAssign h x o).1 = WeakPtr.dtor h x) ∧
        ((WeakPtr.assign h x o).2 = o ∧
          (WeakPtr.assign h x o).1.weak b + 1 = h.weak b ∧
          (∀ c, (WeakPtr.assign h x o).1.strong c = h.strong c) ∧
          (∀ c, o.block_ = some c → c < h.blocks.length → h.weak c + 1 < SIZE_MOD →
            (WeakPtr.assign h x o).1.weak c = h.weak c + 1) ∧
          (∀ c, c ≠ b → o.block_ ≠ some c → (WeakPtr.assign h x o).1.weak c = h.weak c)))) ∧
    (o.block_ = some b → WeakPtr.assign h x o = (h, x) ∧ WeakPtr.moveAssign h x o = (h, x, o)) ∧
    (∀ w : World, Reachable w → ∀ c, w.heap.live c = true →
      w.heap.weak c = w.weakRefs c + w.heap.slotRefs c ∧ w.heap.strong c = w.sharedRefs c) := by
  have inc := IncCounter_weak_inc h b hlt hlim
  have e1 : WeakPtr.ofShared h s = (IncCounter h b true, ⟨s.block_, s.observed_⟩) := by
    unfold WeakPtr.ofShared
    rw [hs]
  have e2 : WeakPtr.copy h x = (IncCounter h b true, ⟨x.block_, x.observed_⟩) := by
    unfold WeakPtr.copy
    rw [hx]
  have e3 : WeakPtr.dtor h x = DecCounterWeak h b := by
    unfold WeakPtr.dtor
    rw [hx]
  refine ⟨?_, ?_, ⟨rfl, rfl⟩, ?_, ?_, ?_⟩
  · rw [e1]
    dsimp only
    exact ⟨rfl, rfl, inc.1, inc.2.1, inc.2.2⟩
  · rw [e2]
    dsimp only
    exact ⟨rfl, inc.1, inc.2.1, inc.2.2⟩
  · intro hp
    have dec := DecCounterWeak_dec h b hp (by omega)
    refine ⟨?_, ?_, ?_⟩
    · rw [e3]
      exact dec
    · rw [e3]
      unfold WeakPtr.Reset
      rw [hx]
      dsimp only
      exact ⟨rfl, DecCounter_true h b⟩
    · intro hne
      have hne2 : ¬ x.block_ = o.block_ := by
        rw [hx]
        exact fun e => hne e.symm
      have e4 : WeakPtr.moveAssign h x o = (DecCounterWeak h b, o, WeakPtr.empty) := by
        unfold WeakPtr.moveAssign
        rw [if_neg hne2, hx]
        dsimp only
        rw [DecCounter_true]
        rfl
      refine ⟨?_, ?_⟩
      · rw [e4, e3]
        dsimp only
        exact ⟨rfl, rfl⟩
      · exact weakAssign_other h x o b hx hp (by omega) hne
  · intro ho
    have hsame : x.block_ = o.block_ := by rw [hx, ho]
    constructor
    · unfold WeakPtr.assign
      rw [if_pos hsame]
    · unfold WeakPtr.moveAssign
      rw [if_pos hsame]
  · intro w hw c hc
    have hi := (inv_of_reachable w hw).heap.counts c hc
    exact ⟨hi.2, hi.1⟩

/-- Witness of C14 on the example heap: the `WeakPtr` and a `SharedPtr` on
block 0, whose weak counter goes from 2 to 1 when the `WeakPtr` is destroyed. -/
theorem C14_witness :
    ((⟨some 0, some 0⟩ : WeakPtr).block_ = some 0 ∧ (⟨some 0, some 0⟩ : SharedPtr).block_ = some 0 ∧
      0 < demoWorld.heap.blocks.length ∧ demoWorld.heap.weak 0 + 1 < SIZE_MOD ∧
      0 < demoWorld.heap.weak 0) ∧
    ((WeakPtr.dtor demoWorld.heap ⟨some 0, some 0⟩).weak 0 + 1 = demoWorld.heap.weak 0 ∧
      (∀ c, c ≠ 0 → (WeakPtr.dtor demoWorld.heap ⟨some 0, some 0⟩).weak c
        = demoWorld.heap.weak c) ∧
      (∀ c, (WeakPtr.dtor demoWorld.heap ⟨some 0, some 0⟩).strong c
        = demoWorld.heap.strong c)) :=
  ⟨⟨rfl, rfl, by decide, by decide, by decide⟩,
    ((C14_weak_operations_touch_weak_counter demoWorld.heap ⟨some 0, some 0⟩ WeakPtr.empty
      ⟨some 0, some 0⟩ 0 rfl rfl (by decide) (by decide)).2.2.2.1 (by decide)).1⟩

/-! ## `Reset` -/

/-- Claim C15. `Reset()` on a handle with block `b` removes one strong
reference (the strong counter of `b` drops by one, no other strong counter
changes, the payload of `b` is destroyed exactly when the counter was 1) and
leaves the handle without block, with a null payload address and
`UseCount() == 0`; on a handle without block it changes nothing. `Reset(ptr)`
removes one strong reference in the same way and makes the handle point to a
new block for `ptr` with strong counter 1 and weak counter 0, so `Get() == ptr`
and `UseCount() == 1`; in a program, the handle is then the only one on
the new block. -/
theorem C15_reset (h : Heap) (s : SharedPtr) (b : Nat) (ptr : Option Nat)
    (hb : s.block_ = some b) (hpos : 0 < h.strong b) (hlim : h.strong b < SIZE_MOD) :
    ((SharedPtr.Reset h s).2 = SharedPtr.empty ∧
      (SharedPtr.Reset h s).2.Get = none ∧
      (SharedPtr.Reset h s).2.UseCount (SharedPtr.Reset h s).1 = 0 ∧
      (SharedPtr.Reset h s).1.strong b + 1 = h.strong b ∧
      (∀ c, c ≠ b → (SharedPtr.Reset h s).1.strong c = h.strong c) ∧
      (∀ c, (SharedPtr.Reset h s).1.destroys c
        = h.destroys c + if c = b ∧ h.strong b = 1 then 1 else 0)) ∧
    (∀ e : SharedPtr, e.block_ = none →
      SharedPtr.Reset h e = (h, e) ∧
      SharedPtr.ResetPtr h e ptr = ((h.newBlock ptr false).1, ⟨some h.blocks.length, ptr⟩)) ∧
    ((SharedPtr.ResetPtr h s ptr).2 = ⟨some h.blocks.length, ptr⟩ ∧
      (SharedPtr.ResetPtr h s ptr).2.Get = ptr ∧
      (SharedPtr.ResetPtr h s ptr).2.UseCount (SharedPtr.ResetPtr h s ptr).1 = 1 ∧
      (SharedPtr.ResetPtr h s ptr).1.weak h.blocks.length = 0 ∧
      (SharedPtr.ResetPtr h s ptr).1.strong b + 1 = h.strong b ∧
      (∀ c, c ≠ b → c ≠ h.blocks.length →
        (SharedPtr.ResetPtr h s ptr).1.strong c = h.strong c) ∧
      (∀ c, (SharedPtr.ResetPtr h s ptr).1.destroys c
        = h.destroys c + if c = b ∧ h.strong b = 1 then 1 else 0)) ∧
    (∀ (w : World) (i : Nat), Reachable w → w.heap = h → w.shared[i]? = some s →
      ∃ w1, w.step (Op.resetPtr i ptr) = some w1 ∧
        w1.shared[i]? = some ⟨some h.blocks.length, ptr⟩ ∧
        w1.sharedRefs h.blocks.length = 1 ∧ w1.weakRefs h.blocks.length = 0 ∧
        w1.heap.slotRefs h.blocks.length = 0) := by
  have rd := releaseStrong_dec h b hpos hlim
  have hlt := strong_lt_of_pos h b hpos
  have e1 : SharedPtr.Reset h s = (releaseStrong h b, SharedPtr.empty) := by
    unfold SharedPtr.Reset
    rw [hb]
    rfl
  have e2 : SharedPtr.ResetPtr h s ptr
      = (((releaseStrong h b).newBlock ptr false).1, ⟨some h.blocks.length, ptr⟩) := by
    unfold SharedPtr.ResetPtr
    rw [hb]
    dsimp only
    rw [(newBlock_spec (releaseStrong h b) ptr false).1, rd.1]
  have nb := newBlock_spec (releaseStrong h b) ptr false
  rw [rd.1] at nb
  have r3 : (SharedPtr.ResetPtr h s ptr).2 = ⟨some h.blocks.length, ptr⟩ ∧
      (SharedPtr.ResetPtr h s ptr).2.Get = ptr ∧
      (SharedPtr.ResetPtr h s ptr).2.UseCount (SharedPtr.ResetPtr h s ptr).1 = 1 ∧
      (SharedPtr.ResetPtr h s ptr).1.weak h.blocks.length = 0 ∧
      (SharedPtr.ResetPtr h s ptr).1.strong b + 1 = h.strong b ∧
      (∀ c, c ≠ b → c ≠ h.blocks.length →
        (SharedPtr.ResetPtr h s ptr).1.strong c = h.strong c) ∧
      (∀ c, (SharedPtr.ResetPtr h s ptr).1.destroys c
        = h.destroys c + if c = b ∧ h.strong b = 1 then 1 else 0) := by
    rw [e2]
    dsimp only
    rw [UseCount_mk]
    refine ⟨rfl, rfl, nb.2.2.1, nb.2.2.2.1, ?_, ?_, ?_⟩
    · rw [strong_newBlock, if_neg (by rw [rd.1]; omega)]
      exact rd.2.1
    · intro c hc hcn
      rw [strong_newBlock, if_neg (by rw [rd.1]; exact hcn)]
      exact rd.2.2.1 c hc
    · intro c
      rw [destroys_newBlock]
      exact rd.2.2.2 c
  refine ⟨?_, ?_, r3, ?_⟩
  · rw [e1]
    dsimp only
    exact ⟨rfl, rfl, rfl, rd.2.1, rd.2.2.1, rd.2.2.2⟩
  · intro e he
    constructor
    · unfold SharedPtr.Reset
      rw [he]
    · unfold SharedPtr.ResetPtr
      rw [he]
      rfl
  · intro w i hw hwh hs
    have hinv := inv_of_reachable w hw
    subst hwh
    have hstep := step_resetPtr w hinv i s ptr hs
    refine ⟨_, hstep, ?_, ?_⟩
    · dsimp only
      rw [List.getElem?_set, if_pos rfl, if_pos (some_lt_length _ i s hs), r3.1]
    · have hinv1 := inv_step w _ (Op.resetPtr i ptr) hinv hstep
      have hlive : (SharedPtr.ResetPtr w.heap s ptr).1.live w.heap.blocks.length = true := by
        rw [e2]
        dsimp only
        have := live_newBlock (releaseStrong w.heap b) ptr false
        rw [rd.1] at this
        exact this
      have hc := hinv1.heap.counts w.heap.blocks.length hlive
      dsimp only at hc
      rw [r3.2.2.2.1] at hc
      have hu := r3.2.2.1
      rw [r3.1, UseCount_mk] at hu
      rw [hu] at hc
      dsimp only
      omega

/-- Witness of C15 on the example heap, for the first handle on block 0 (strong
counter 2) and a new payload address 7. -/
theorem C15_witness :
    ((⟨some 0, some 0⟩ : SharedPtr).block_ = some 0 ∧ 0 < demoWorld.heap.strong 0 ∧
      demoWorld.heap.strong 0 < SIZE_MOD) ∧
    ((SharedPtr.ResetPtr demoWorld.heap ⟨some 0, some 0⟩ (some 7)).2 = ⟨some 1, some 7⟩ ∧
      (SharedPtr.ResetPtr demoWorld.heap ⟨some 0, some 0⟩ (some 7)).2.Get = some 7 ∧
      (SharedPtr.ResetPtr demoWorld.heap ⟨some 0, some 0⟩ (some 7)).2.UseCount
        (SharedPtr.ResetPtr demoWorld.heap ⟨some 0, some 0⟩ (some 7)).1 = 1 ∧
      (SharedPtr.ResetPtr demoWorld.heap ⟨some 0, some 0⟩ (some 7)).1.weak 1 = 0 ∧
      (SharedPtr.ResetPtr demoWorld.heap ⟨some 0, some 0⟩ (some 7)).1.strong 0 + 1
        = demoWorld.heap.strong 0) :=
  ⟨⟨rfl, by decide, by decide⟩,
    ⟨(C15_reset demoWorld.heap ⟨some 0, some 0⟩ 0 (some 7) rfl (by decide) (by decide)).2.2.1.1,
      (C15_reset demoWorld.heap ⟨some 0, some 0⟩ 0 (some 7) rfl (by decide) (by decide)).2.2.1.2.1,
      (C15_reset demoWorld.heap ⟨some 0, some 0⟩ 0 (some 7) rfl (by decide) (by decide)).2.2.1.2.2.1,
      (C15_reset demoWorld.heap ⟨some 0, some 0⟩ 0 (some 7) rfl (by decide)
        (by decide)).2.2.1.2.2.2.1,
      (C15_reset demoWorld.heap ⟨some 0, some 0⟩ 0 (some 7) rfl (by decide)
        (by decide)).2.2.1.2.2.2.2.1⟩⟩

/-! ## Weak references keep the block, not the payload -/

theorem Lock_expired (h : Heap) (x : WeakPtr) (he : x.Expired h = true) :
    WeakPtr.Lock h x = Except.ok (h, SharedPtr.empty) ∧
    SharedPtr.ofWeak h x = Except.error Exn.BadWeakPtr := by
  constructor
  · unfold WeakPtr.Lock
    rw [he]
    rfl
  · unfold SharedPtr.ofWeak
    rw [if_pos he]

theorem live_releaseIfUnused_self (h : Heap) (b : Nat) :
    (releaseIfUnused h b).live b
      = if h.strong b = 0 ∧ h.weak b = 0 then false else h.live b := by
  unfold releaseIfUnused
  simp only [strong_useCounter, weak_useCounter]
  split
  · rw [live_releaseBlock, if_pos rfl]
  · simp

theorem DecCounterWeak_live (h : Heap) (b : Nat) (hl : h.live b = true) :
    (DecCounterWeak h b).live b
      = if (DecCounterWeak h b).strong b = 0 ∧ (DecCounterWeak h b).weak b = 0
          then false else true := by
  unfold DecCounterWeak
  simp only [useCounter_of_live h b hl]
  have hl1 : (h.setWeak b ((h.weak b + SIZE_MOD - 1) % SIZE_MOD)).live b = true := by
    rw [live_setWeak]; exact hl
  have key := live_iff_releaseIfUnused _ b hl1
  rw [key.1, key.2.1, live_releaseIfUnused_self, hl1]

/-- The call `block_->DecCounter(true)` on a live block whose strong counter is
zero: the weak counter drops by one, and the block is released exactly when
the weak counter was 1. -/
theorem drop_weak_expired (h : Heap) (b : Nat) (hl : h.live b = true) (hz : h.strong b = 0)
    (hp : 0 < h.weak b) (hn : h.weak b < SIZE_MOD) (hr : h.releases b = 0) :
    (DecCounterWeak h b).weak b + 1 = h.weak b ∧
    (DecCounterWeak h b).strong b = 0 ∧
    (DecCounterWeak h b).live b = (if h.weak b = 1 then false else true) ∧
    (DecCounterWeak h b).releases b = (if h.weak b = 1 then 1 else 0) := by
  have dec := DecCounterWeak_dec h b hp hn
  have rel := DecCounterWeak_release h b hl
  have lv := DecCounterWeak_live h b hl
  have hs : (DecCounterWeak h b).strong b = 0 := by rw [dec.2.2 b]; exact hz
  refine ⟨dec.1, hs, ?_, ?_⟩
  · rw [lv]
    by_cases h1 : h.weak b = 1
    · rw [if_pos ⟨hs, by omega⟩, if_pos h1]
    · rw [if_neg (fun x => h1 (by omega)), if_neg h1]
  · rw [rel, hr]
    by_cases h1 : h.weak b = 1
    · rw [if_pos ⟨hs, by omega⟩, if_pos h1]
    · rw [if_neg (fun x => h1 (by omega)), if_neg h1]

/-- A block whose strong counter is zero, in a state of a program: while a
`WeakPtr` or a member `weak_this_` points to it, the block is live and not
released and its weak counter is the number of those weak references; the call
`DecCounter(true)`, by which each of them is destroyed, releases the block
exactly when it destroys the last one. -/
theorem expired_live (w : World) (hw : Reachable w) (b : Nat) (hz : w.heap.strong b = 0)
    (hk : 0 < w.weakRefs b + w.heap.slotRefs b) :
    w.heap.live b = true ∧ w.heap.releases b = 0 ∧
    w.heap.weak b = w.weakRefs b + w.heap.slotRefs b ∧
    (DecCounter w.heap b true).weak b + 1 = w.heap.weak b ∧
    (DecCounter w.heap b true).live b
      = (if w.weakRefs b + w.heap.slotRefs b = 1 then false else true) ∧
    (DecCounter w.heap b true).releases b
      = (if w.weakRefs b + w.heap.slotRefs b = 1 then 1 else 0) := by
  have hinv := inv_of_reachable w hw
  have hlive : w.heap.live b = true := by
    cases hl : w.heap.live b with
    | true => rfl
    | false =>
      have := hinv.heap.dead b hl
      omega
  have hc := (hinv.heap.counts b hlive).2
  have hrel := hinv.heap.unreleased b (Or.inl hlive)
  have d := drop_weak_expired w.heap b hlive hz (by omega) (hinv.heap.bounded b).2 hrel
  rw [DecCounter_true, ← hc]
  exact ⟨hlive, hrel, rfl, d.1, d.2.2.1, d.2.2.2⟩

/-- A `WeakPtr` on a block whose strong counter is zero, in a state of a
program: `Lock()` returns an empty handle, promotion raises, and destroying
the handle releases the block exactly when no other `WeakPtr` and no member
`weak_this_` points to it. -/
theorem expired_handle (w : World) (hw : Reachable w) (b : Nat) (hz : w.heap.strong b = 0)
    (k : Nat) (x : WeakPtr) (hx : w.weak[k]? = some x) (hb : x.block_ = some b) :
    WeakPtr.Lock w.heap x = Except.ok (w.heap, SharedPtr.empty) ∧
    SharedPtr.ofWeak w.heap x = Except.error Exn.BadWeakPtr ∧
    ∃ w3, w.step (Op.weakDtor k) = some w3 ∧ w3.weakRefs b + 1 = w.weakRefs b ∧
      w3.heap.slotRefs b = w.heap.slotRefs b ∧
      (w.weakRefs b = 1 ∧ w.heap.slotRefs b = 0 →
        w3.heap.live b = false ∧ w3.heap.releases b = 1) ∧
      (1 < w.weakRefs b ∨ 0 < w.heap.slotRefs b →
        w3.heap.live b = true ∧ w3.heap.releases b = 0) := by
  have hinv := inv_of_reachable w hw
  have hpos := w.weak_pos k x hx b hb
  have e := expired_live w hw b hz (by omega)
  have hexp : x.Expired w.heap = true := (expired_iff w.heap x).2 (Or.inr ⟨b, hb, hz⟩)
  have hstep := step_weakDtor w hinv k x hx
  have hcount := refs_map_eraseIdx WeakPtr.block_ w.weak k x b hx
  rw [hb, ind_some, if_pos rfl] at hcount
  have hd : WeakPtr.dtor w.heap x = DecCounter w.heap b true := by
    unfold WeakPtr.dtor
    rw [hb, DecCounter_true]
  have hsl : (WeakPtr.dtor w.heap x).slotRefs b = w.heap.slotRefs b :=
    slotRefs_of_objects w.heap _ b (objects_WeakPtr_dtor w.heap x)
  refine ⟨(Lock_expired w.heap x hexp).1, (Lock_expired w.heap x hexp).2,
    _, hstep, hcount, hsl, ?_, ?_⟩
  · intro h1
    dsimp only
    rw [hd, e.2.2.2.2.1, e.2.2.2.2.2, if_pos (by omega), if_pos (by omega)]
    exact ⟨rfl, rfl⟩
  · intro h1
    dsimp only
    rw [hd, e.2.2.2.2.1, e.2.2.2.2.2, if_neg (by omega), if_neg (by omega)]
    exact ⟨rfl, rfl⟩

theorem destroyObject_some (h : Heap) (a : Nat) (x : WeakPtr)
    (hx : h.objects[a]? = some (some x)) :
    destroyObject h (some a)
      = WeakPtr.dtor { h with objects := h.objects.set a none } x := by
  unfold destroyObject
  simp only [hx]

/-- A member `weak_this_` on a block whose strong counter is zero, in an object
that no control block owns: destroying the object releases the block exactly
when no `WeakPtr` and no other member `weak_this_` points to it. -/
theorem expired_slot (w : World) (hw : Reachable w) (b : Nat) (hz : w.heap.strong b = 0)
    (a : Nat) (x : WeakPtr) (hx : w.heap.objects[a]? = some (some x)) (hb : x.block_ = some b)
    (hown : w.heap.owned (some a) = false) :
    ∃ w3, w.step (Op.deleteObject (some a)) = some w3 ∧ w3.weakRefs b = w.weakRefs b ∧
      w3.heap.slotRefs b + 1 = w.heap.slotRefs b ∧
      (w.weakRefs b = 0 ∧ w.heap.slotRefs b = 1 →
        w3.heap.live b = false ∧ w3.heap.releases b = 1) ∧
      (0 < w.weakRefs b ∨ 1 < w.heap.slotRefs b →
        w3.heap.live b = true ∧ w3.heap.releases b = 0) := by
  have hinv := inv_of_reachable w hw
  have hpos : 0 < w.heap.slotRefs b := refs_map_pos slotBlock w.heap.objects a (some x) b hx hb
  have e := expired_live w hw b hz (by omega)
  have hstep := step_deleteObject w hinv (some a) hown
  have hd : destroyObject w.heap (some a)
      = DecCounterWeak { w.heap with objects := w.heap.objects.set a none } b := by
    rw [destroyObject_some w.heap a x hx]
    unfold WeakPtr.dtor
    rw [hb]
  have hsl := slotRefs_set w.heap a x none b hx
  rw [hb, ind_some, if_pos rfl] at hsl
  have hsl0 : ind (slotBlock (none : Option WeakPtr)) b = 0 := rfl
  rw [hsl0] at hsl
  have hobj : (destroyObject w.heap (some a)).slotRefs b
      = refs ((w.heap.objects.set a none).map slotBlock) b := by
    rw [hd]
    exact slotRefs_of_objects { w.heap with objects := w.heap.objects.set a none } _ b
      (DecCounterWeak_objects _ b)
  have d := drop_weak_expired { w.heap with objects := w.heap.objects.set a none } b
    e.1 hz (by have := e.2.2.1; show 0 < w.heap.weak b; omega) (hinv.heap.bounded b).2 e.2.1
  have hwk : ({ w.heap with objects := w.heap.objects.set a none } : Heap).weak b
      = w.heap.weak b := rfl
  rw [hwk] at d
  refine ⟨_, hstep, rfl, ?_, ?_, ?_⟩
  · dsimp only
    rw [hobj]
    omega
  · intro h1
    dsimp only
    rw [hd, d.2.2.1, d.2.2.2, if_pos (by omega), if_pos (by omega)]
    exact ⟨rfl, rfl⟩
  · intro h1
    dsimp only
    rw [hd, d.2.2.1, d.2.2.2, if_neg (by omega), if_neg (by omega)]
    exact ⟨rfl, rfl⟩

theorem plain_run (w w1 : World) (ops : List Op) (hw : Plain w)
    (hops : ∀ op ∈ ops, op.copiesPayload = false) (hr : w.run ops = some w1) : Plain w1 := by
  induction ops generalizing w with
  | nil =>
    unfold World.run at hr
    injection hr with hr
    rw [← hr]; exact hw
  | cons op ops ih =>
    unfold World.run at hr
    split at hr
    · rename_i w2 h2
      exact ih w2 (Plain.step w w2 op hw (hops op (List.mem_cons_self op ops)) h2)
        (fun o ho => hops o (List.mem_cons_of_mem op ho)) hr
    · exact absurd hr (by simp)

/-- Counterexample to C16 as stated. After `MakeShared` of a self-observing
payload and one demotion (`k = 1`), the weak counter is 2; destroying the only
`SharedPtr` leaves it at 1: the weak counter does not stay `k`, it drops from
`k + 1` to `k`. And after `MakeShared`, one demotion and a copy of the payload
object, whose member `weak_this_` is a copy of the original's, destroying the
only `SharedPtr` and then the only `WeakPtr` does not release the block: it is
live, with weak counter 1. -/
theorem C16_counterexample :
    (Reachable selfWorld ∧ selfWorld.shared = [⟨some 0, some 0⟩] ∧
      selfWorld.sharedRefs 0 = 1 ∧ selfWorld.weakRefs 0 = 1 ∧
      selfWorld.heap.weak 0 = 2 ∧
      (SharedPtr.dtor selfWorld.heap ⟨some 0, some 0⟩).strong 0 = 0 ∧
      (SharedPtr.dtor selfWorld.heap ⟨some 0, some 0⟩).weak 0 = 1 ∧
      ¬ (selfWorld.heap.weak 0 = selfWorld.weakRefs 0)) ∧
    (Reachable copyWorld ∧ copyWorld.sharedRefs 0 = 1 ∧ copyWorld.weakRefs 0 = 1 ∧
      copyWorld.run [Op.dtor 0, Op.weakDtor 0] = some orphanWorld ∧
      orphanWorld.weak = [] ∧ orphanWorld.heap.strong 0 = 0 ∧
      orphanWorld.heap.weak 0 = 1 ∧ orphanWorld.heap.live 0 = true ∧
      orphanWorld.heap.releases 0 = 0) :=
  ⟨⟨selfWorld_reachable, rfl, by decide, by decide, by decide, by decide, by decide,
      by decide⟩,
    ⟨copyWorld_reachable, by decide, by decide, by decide, rfl, by decide, by decide,
      by decide, by decide⟩⟩

/-- Claim C16, amended. In a state of a program, let `s` be the only
`SharedPtr` on block `b` and let `k ≥ 1` `WeakPtr`s point to `b`. Before `s` is
destroyed the strong counter is 1, the payload is not destroyed and the weak
counter is `k` plus the number of `weak_this_` members pointing to `b`.
Destroying `s` sets the strong counter to 0 and destroys the payload once; the
block is live and not released, and its weak counter is `k` plus the number of
`weak_this_` members that still point to `b`; in a program that never copies,
moves or assigns a payload object there is none, and the weak counter is `k`.
In every later state the strong counter is still 0 and the payload destroyed
once; while a `WeakPtr` or a `weak_this_` member points to `b` the block is
live, not released, and its weak counter is the number of those references;
`DecCounter(true)`, by which each of them is destroyed, releases the block
exactly when it destroys the last one; `Lock()` on a `WeakPtr` on `b` returns
an empty handle and promotion raises `BadWeakPtr`; destroying a `WeakPtr`, or
an object whose `weak_this_` points to `b`, releases the block exactly when it
is the last weak reference. -/
theorem C16_weak_handles_keep_block (w : World) (hw : Reachable w) (i : Nat) (s : SharedPtr)
    (b : Nat) (hs : w.shared[i]? = some s) (hb : s.block_ = some b)
    (hlast : w.sharedRefs b = 1) (hk : 0 < w.weakRefs b) :
    (w.heap.strong b = 1 ∧ w.heap.destroys b = 0 ∧
      w.heap.weak b = w.weakRefs b + w.heap.slotRefs b) ∧
    ∃ w1, w.step (Op.dtor i) = some w1 ∧ w1.weak = w.weak ∧
      (w1.heap.strong b = 0 ∧ w1.heap.destroys b = 1 ∧
        w1.heap.weak b = w.weakRefs b + w1.heap.slotRefs b ∧
        w1.heap.live b = true ∧ w1.heap.releases b = 0) ∧
      (Plain w → w1.heap.slotRefs b = 0 ∧ w1.heap.weak b = w.weakRefs b) ∧
      ∀ (ops : List Op) (w2 : World), w1.run ops = some w2 →
        (w2.heap.strong b = 0 ∧ w2.heap.destroys b = 1) ∧
        (Plain w → (∀ op ∈ ops, op.copiesPayload = false) → w2.heap.slotRefs b = 0) ∧
        (0 < w2.weakRefs b + w2.heap.slotRefs b →
          w2.heap.live b = true ∧ w2.heap.releases b = 0 ∧
          w2.heap.weak b = w2.weakRefs b + w2.heap.slotRefs b ∧
          (DecCounter w2.heap b true).weak b + 1 = w2.heap.weak b ∧
          (DecCounter w2.heap b true).live b
            = (if w2.weakRefs b + w2.heap.slotRefs b = 1 then false else true) ∧
          (DecCounter w2.heap b true).releases b
            = (if w2.weakRefs b + w2.heap.slotRefs b = 1 then 1 else 0)) ∧
        (∀ (k : Nat) (x : WeakPtr), w2.weak[k]? = some x → x.block_ = some b →
          WeakPtr.Lock w2.heap x = Except.ok (w2.heap, SharedPtr.empty) ∧
          SharedPtr.ofWeak w2.heap x = Except.error Exn.BadWeakPtr ∧
          ∃ w3, w2.step (Op.weakDtor k) = some w3 ∧ w3.weakRefs b + 1 = w2.weakRefs b ∧
            w3.heap.slotRefs b = w2.heap.slotRefs b ∧
            (w2.weakRefs b = 1 ∧ w2.heap.slotRefs b = 0 →
              w3.heap.live b = false ∧ w3.heap.releases b = 1) ∧
            (1 < w2.weakRefs b ∨ 0 < w2.heap.slotRefs b →
              w3.heap.live b = true ∧ w3.heap.releases b = 0)) ∧
        (∀ (a : Nat) (x : WeakPtr), w2.heap.objects[a]? = some (some x) →
          x.block_ = some b → w2.heap.owned (some a) = false →
          ∃ w3, w2.step (Op.deleteObject (some a)) = some w3 ∧
            w3.weakRefs b = w2.weakRefs b ∧
            w3.heap.slotRefs b + 1 = w2.heap.slotRefs b ∧
            (w2.weakRefs b = 0 ∧ w2.heap.slotRefs b = 1 →
              w3.heap.live b = false ∧ w3.heap.releases b = 1) ∧
            (0 < w2.weakRefs b ∨ 1 < w2.heap.slotRefs b →
              w3.heap.live b = true ∧ w3.heap.releases b = 0)) := by
  have hinv := inv_of_reachable w hw
  have hlive := w.shared_block_live hinv i s hs b hb
  have hc := hinv.heap.counts b hlive
  have hlt := lt_of_live _ b hlive
  have hd0 := hinv.once b
  rw [if_neg (by omega)] at hd0
  have hstep := step_dtor w hinv i s hs
  have hr1 := Reachable.step w _ (Op.dtor i) hw hstep
  have hinv1 := inv_of_reachable _ hr1
  have hcount := refs_map_eraseIdx SharedPtr.block_ w.shared i s b hs
  rw [hb, ind_some, if_pos rfl] at hcount
  have hl1 := hinv1.heap.live_of_weak b hk
  have hc1 := hinv1.heap.counts b hl1
  have hs1 : (SharedPtr.dtor w.heap s).strong b = 0 := by
    have := hc1.1
    dsimp only [World.sharedRefs] at this hlast
    omega
  have hlt1 := lt_of_live _ b hl1
  have hd1 := hinv1.once b
  rw [if_pos ⟨hlt1, hs1⟩] at hd1
  refine ⟨⟨by omega, hd0, hc.2⟩, _, hstep, rfl, ⟨hs1, hd1, hc1.2, hl1,
    hinv1.heap.unreleased b (Or.inl hl1)⟩, ?_, ?_⟩
  · intro hp
    have hp1 := Plain.step w _ (Op.dtor i) hp rfl hstep
    have hsl1 := slotRefs_zero_of_strong_zero _ hp1 b hs1
    refine ⟨hsl1, ?_⟩
    have := hc1.2
    dsimp only at this hsl1 ⊢
    dsimp only [World.weakRefs] at this ⊢
    omega
  · intro ops w2 hrun
    have hr2 := reachable_run _ w2 ops hr1 hrun
    have hp := strong_zero_persists _ w2 ops hr1 hrun b hlt1 hs1
    have hd2 := (inv_of_reachable w2 hr2).once b
    rw [if_pos hp] at hd2
    refine ⟨⟨hp.2, hd2⟩, ?_, fun hk2 => expired_live w2 hr2 b hp.2 hk2,
      fun k x hx hxb => expired_handle w2 hr2 b hp.2 k x hx hxb,
      fun a x hx hxb hown => expired_slot w2 hr2 b hp.2 a x hx hxb hown⟩
    intro hpl hops
    have hp1 := Plain.step w _ (Op.dtor i) hpl rfl hstep
    exact slotRefs_zero_of_strong_zero w2 (plain_run _ w2 ops hp1 hops hrun) b hp.2

/-- Witness of C16: the example program with a payload that is not
self-observing, one `SharedPtr` and two `WeakPtr`s on block 0. -/
theorem C16_witness :
    (Reachable loneWorld ∧ loneWorld.shared[0]? = some ⟨some 0, some 0⟩ ∧
      loneWorld.sharedRefs 0 = 1 ∧ 0 < loneWorld.weakRefs 0) ∧
    (loneWorld.heap.strong 0 = 1 ∧ loneWorld.heap.destroys 0 = 0 ∧
      loneWorld.heap.weak 0 = loneWorld.weakRefs 0 + loneWorld.heap.slotRefs 0) :=
  ⟨⟨loneWorld_reachable, rfl, by decide, by decide⟩,
    (C16_weak_handles_keep_block loneWorld loneWorld_reachable 0 ⟨some 0, some 0⟩ 0 rfl rfl
      (by decide) (by decide)).1⟩

/-! ## No counter underflow -/

/-- Claim C19. In every state of a program, each call of `DecCounter` made by
an operation on a handle finds the counter it decrements at least 1. For a
`SharedPtr` on block `b`: the strong counter is positive where `operator=`
calls `DecCounter()`; in the release sequence of `~SharedPtr` and `Reset` it is
positive after `IncCounter(true)`, where `DecCounter()` is called, and the weak
counter is positive after that call, where `DecCounter(true)` is called. For a
`WeakPtr` on block `b`: the weak counter is positive where `~WeakPtr`, `Reset`
and `operator=` call `DecCounter(true)`. Hence each of these calls stores the
predecessor of the counter, without wrapping around. -/
theorem C19_no_counter_underflow (w : World) (hw : Reachable w) :
    (∀ (i : Nat) (s : SharedPtr) (b : Nat), w.shared[i]? = some s → s.block_ = some b →
      0 < w.heap.strong b ∧
      0 < (IncCounter w.heap b true).strong b ∧
      0 < (DecCounter (IncCounter w.heap b true) b false).weak b ∧
      (DecCounter w.heap b false).strong b + 1 = w.heap.strong b ∧
      (DecCounter (IncCounter w.heap b true) b false).strong b + 1 = w.heap.strong b ∧
      (releaseStrong w.heap b).strong b + 1 = w.heap.strong b) ∧
    (∀ (k : Nat) (x : WeakPtr) (b : Nat), w.weak[k]? = some x → x.block_ = some b →
      0 < w.heap.weak b ∧
      (DecCounter w.heap b true).weak b + 1 = w.heap.weak b) := by
  have hinv := inv_of_reachable w hw
  constructor
  · intro i s b hs hb
    have hlive := w.shared_block_live hinv i s hs b hb
    have hc := hinv.heap.counts b hlive
    have hpos := w.shared_pos i s hs b hb
    have hlt := lt_of_live _ b hlive
    have hp : 0 < w.heap.strong b := by omega
    have hbd := (hinv.heap.bounded b).1
    have g1 : (IncCounter w.heap b true).Good w.sharedRefs
        (fun c => w.weakRefs c + if c = b then 1 else 0) :=
      good_IncCounter_weak hinv.good hlive (fun c => rfl)
        (by
          have := w.release_lim hinv.size i s hs b
          simp only [if_true]
          omega)
    have g2 : (DecCounter (IncCounter w.heap b true) b false).Good
        (fun c => w.sharedRefs c - if c = b then 1 else 0)
        (fun c => w.weakRefs c + if c = b then 1 else 0) :=
      good_DecCounter_strong g1 (fun c => by
        by_cases e : c = b
        · subst e
          simp only [if_true]
          omega
        · simp only [if_neg e]
          omega)
    have hl2 := g2.1.live_of_weak b (by simp only [if_true]; omega)
    have hc2 := (g2.1.counts b hl2).2
    simp only [if_true] at hc2
    have f1 := frame_IncCounter_weak w.heap b
    have s1 := (DecCounter_strong_spec w.heap b).2.1 b
    rw [if_pos ⟨rfl, hlt⟩] at s1
    have s2 := (DecCounter_strong_spec (IncCounter w.heap b true) b).2.1 b
    rw [if_pos ⟨rfl, by rw [f1.1]; exact hlt⟩, f1.2.1 b] at s2
    have s3 := (releaseStrong_spec w.heap b).2.1 b
    rw [if_pos ⟨rfl, hlt⟩] at s3
    have d := dec_succ _ hp hbd
    refine ⟨hp, ?_, ?_, ?_, ?_, ?_⟩
    · rw [f1.2.1 b]
      exact hp
    · omega
    · rw [s1]
      exact d
    · rw [s2]
      exact d
    · rw [s3]
      exact d
  · intro k x b hx hb
    have hlive := w.weak_block_live hinv k x hx b hb
    have hc := hinv.heap.counts b hlive
    have hpos := w.weak_pos k x hx b hb
    have hp : 0 < w.heap.weak b := by omega
    refine ⟨hp, ?_⟩
    rw [DecCounter_true]
    exact (DecCounterWeak_dec w.heap b hp (hinv.heap.bounded b).2).1

/-- Witness of C19 on the example program, for its `WeakPtr` on block 0. -/
theorem C19_witness :
    Reachable demoWorld ∧
    (∀ (k : Nat) (x : WeakPtr) (b : Nat), demoWorld.weak[k]? = some x → x.block_ = some b →
      0 < demoWorld.heap.weak b ∧
      (DecCounter demoWorld.heap b true).weak b + 1 = demoWorld.heap.weak b) :=
  ⟨demoWorld_reachable, (C19_no_counter_underflow demoWorld demoWorld_reachable).2⟩

/-! ## `IntrusivePtr`: the count invariant -/

/-- Claim C23. `Release()` returns the held pointer, leaves the handle holding
null with its deleter, and calls no deleter. `Reset(ptr)` makes exactly one
call of the deleter, on the pointer held before (whatever it is: null, or equal
to `ptr`), at a moment when the handle already holds `ptr`; afterwards
`Get() == ptr`. The destructor and assignment from `nullptr` make exactly one
call of the deleter, on the held pointer (null included), while the handle
still holds it; after the assignment the handle holds null. -/
theorem C23_release_and_reset (log : List DeleterCall) (u : UniquePtr) (ptr : Option Nat)
    (d : Nat) :
    ((UniquePtr.Release log u).1 = log ∧
      (UniquePtr.Release log u).2.1 = u.Get ∧
      (UniquePtr.Release log u).2.2.Get = none ∧
      (UniquePtr.Release log u).2.2.GetDeleter = u.GetDeleter) ∧
    ((UniquePtr.Reset log u ptr).1 = log ++ [⟨u.GetDeleter, u.Get, ptr⟩] ∧
      (UniquePtr.Reset log u ptr).1.length = log.length + 1 ∧
      (UniquePtr.Reset log u ptr).2.Get = ptr ∧
      (UniquePtr.Reset log u ptr).2.GetDeleter = u.GetDeleter) ∧
    ((UniquePtr.Reset log (UniquePtr.ofPtr none d) ptr).1 = log ++ [⟨d, none, ptr⟩] ∧
      (UniquePtr.Reset log (UniquePtr.ofPtr ptr d) ptr).1 = log ++ [⟨d, ptr, ptr⟩]) ∧
    (UniquePtr.dtor log u = log ++ [⟨u.GetDeleter, u.Get, u.Get⟩] ∧
      (UniquePtr.dtor log u).length = log.length + 1 ∧
      UniquePtr.dtor log (UniquePtr.ofPtr none d) = log ++ [⟨d, none, none⟩]) ∧
    ((UniquePtr.assignNull log u).1 = log ++ [⟨u.GetDeleter, u.Get, u.Get⟩] ∧
      (UniquePtr.assignNull log u).1.length = log.length + 1 ∧
      (UniquePtr.assignNull log u).2.Get = none ∧
      (UniquePtr.assignNull log u).2.GetDeleter = u.GetDeleter) := by
  refine ⟨⟨rfl, rfl, rfl, rfl⟩, ⟨rfl, ?_, rfl, rfl⟩, ⟨rfl, rfl⟩, ⟨rfl, ?_, rfl⟩,
    ⟨rfl, ?_, rfl, rfl⟩⟩
  · unfold UniquePtr.Reset UniquePtr.callDeleter
    simp only [List.length_append, List.length_singleton]
  · unfold UniquePtr.dtor UniquePtr.callDeleter
    simp only [List.length_append, List.length_singleton]
  · unfold UniquePtr.assignNull UniquePtr.callDeleter
    simp only [List.length_append, List.length_singleton]

/-- Claim C24. Move assignment `a = move(b)` of `UniquePtr`. If `a` and `b` hold
the same pointer (the same handle, or both null) nothing changes and no
deleter is called. Otherwise the deleter of `a` is called exactly once, on
the pointer `a` held; `a` then holds the pointer and the deleter of `b`, and
`b` holds null; in a list of handles no pointer gets more holders than it had,
so if each pointer had at most one holder before, it has at most one after. -/
theorem C24_move_assignment (log : List DeleterCall) (a b : UniquePtr) :
    (a.Get = b.Get → UniquePtr.moveAssign log a b = (log, a, b)) ∧
    UniquePtr.moveAssign log a a = (log, a, a) ∧
    (a.Get ≠ b.Get →
      (UniquePtr.moveAssign log a b).1 = log ++ [⟨a.GetDeleter, a.Get, a.Get⟩] ∧
      (UniquePtr.moveAssign log a b).2.1.Get = b.Get ∧
      (UniquePtr.moveAssign log a b).2.1.GetDeleter = b.GetDeleter ∧
      (UniquePtr.moveAssign log a b).2.2.Get = none ∧
      (∀ (l : List UniquePtr) (i j : Nat), l[i]? = some a → l[j]? = some b →
        (∀ p, holders ((l.set i (UniquePtr.moveAssign log a b).2.1).set j
            (UniquePtr.moveAssign log a b).2.2) p + ind a.Get p = holders l p) ∧
        ((∀ p, holders l p ≤ 1) →
          ∀ p, holders ((l.set i (UniquePtr.moveAssign log a b).2.1).set j
            (UniquePtr.moveAssign log a b).2.2) p ≤ 1))) := by
  refine ⟨fun h => ?_, ?_, fun h => ?_⟩
  · unfold UniquePtr.moveAssign
    have h2 : b.data_.GetFirst = a.data_.GetFirst := h.symm
    rw [if_pos h2]
  · unfold UniquePtr.moveAssign
    rw [if_pos rfl]
  · have h2 : ¬ b.data_.GetFirst = a.data_.GetFirst := fun e => h e.symm
    have e : UniquePtr.moveAssign log a b
        = (a.callDeleter log a.data_.GetFirst,
            ⟨⟨b.data_.GetFirst, b.data_.GetSecond⟩⟩, ⟨⟨none, b.data_.GetSecond⟩⟩) := by
      unfold UniquePtr.moveAssign
      rw [if_neg h2]
    rw [e]
    refine ⟨rfl, rfl, rfl, rfl, ?_⟩
    intro l i j hi hj
    have hij : i ≠ j := by
      intro e2
      subst e2
      rw [hi] at hj
      injection hj with hj
      exact h (by rw [hj])
    have key : ∀ p, holders ((l.set i ⟨⟨b.data_.GetFirst, b.data_.GetSecond⟩⟩).set j
        ⟨⟨none, b.data_.GetSecond⟩⟩) p + ind a.Get p = holders l p := by
      intro p
      have h3 := refs_map_set2 UniquePtr.Get l i j a b
        ⟨⟨b.data_.GetFirst, b.data_.GetSecond⟩⟩ ⟨⟨none, b.data_.GetSecond⟩⟩ p hi hj
      rw [if_neg hij] at h3
      have h4 : UniquePtr.Get ⟨⟨b.data_.GetFirst, b.data_.GetSecond⟩⟩ = b.Get := rfl
      have h5 : UniquePtr.Get ⟨⟨none, b.data_.GetSecond⟩⟩ = none := rfl
      rw [h4, h5, ind_none] at h3
      unfold holders
      omega
    refine ⟨key, fun hone p => ?_⟩
    dsimp only
    have := key p
    have := hone p
    omega

/-- Witness of C24: a handle on pointer 1 with deleter 7 is move-assigned from
a handle on pointer 2 with deleter 8. -/
theorem C24_witness :
    (UniquePtr.ofPtr (some 1) 7).Get ≠ (UniquePtr.ofPtr (some 2) 8).Get ∧
    (UniquePtr.moveAssign [] (UniquePtr.ofPtr (some 1) 7) (UniquePtr.ofPtr (some 2) 8)).1
      = [] ++ [⟨(UniquePtr.ofPtr (some 1) 7).GetDeleter, (UniquePtr.ofPtr (some 1) 7).Get,
          (UniquePtr.ofPtr (some 1) 7).Get⟩] ∧
    (UniquePtr.moveAssign [] (UniquePtr.ofPtr (some 1) 7) (UniquePtr.ofPtr (some 2) 8)).2.1.Get
      = (UniquePtr.ofPtr (some 2) 8).Get ∧
    UniquePtr.moveAssign [] (UniquePtr.ofPtr (some 1) 7) (UniquePtr.ofPtr (some 1) 9)
      = ([], UniquePtr.ofPtr (some 1) 7, UniquePtr.ofPtr (some 1) 9) :=
  ⟨by decide,
    ((C24_move_assignment [] (UniquePtr.ofPtr (some 1) 7) (UniquePtr.ofPtr (some 2) 8)).2.2
      (by decide)).1,
    ((C24_move_assignment [] (UniquePtr.ofPtr (some 1) 7) (UniquePtr.ofPtr (some 2) 8)).2.2
      (by decide)).2.1,
    (C24_move_assignment [] (UniquePtr.ofPtr (some 1) 7) (UniquePtr.ofPtr (some 1) 9)).1 rfl⟩

/-! ## `SharedFromThis` and the member `weak_this_` -/

end SmartPtrs
